import Mathlib

/-! gobgp-evpn-agent: a shallow embedding.

The agent folds BGP best-path updates into per-VNI sets of remote VTEP
addresses, reconciles the kernel VXLAN forwarding database against them and
advertises its own membership.  This file embeds the Go sources
(`internal/config`, `internal/vxlan`, `internal/agent`) as Lean functions and
proves properties of them.

Conventions.

* A Go `map[K]V` is an association list `List (K × V)`; the order of the list
  is the order a `range` statement visits the entries.  Go leaves that order
  unspecified, so theorems quantify over every list (and over an explicit
  reordering function where a map is built and ranged over inside one call).
* A Go `map[K]struct{}` is a list of keys.
* `uint32` values are natural numbers; conversions reduce modulo `2 ^ 32`.
* Functions that mutate state and return an `error` return the new state
  together with `Option Error`.
* The kernel (links and bridge neighbour table) and the routing daemon are
  explicit state; every mutating call is appended to a log in that state.
  An FDB entry is identified by its device, family, MAC and destination.
* Each function of the agent runs as one step: the locks of the Go code make
  its accesses to the shared maps atomic, and the goroutines are modelled as
  steps taken in any order (`Reachable`).
-/

namespace EvpnAgent

/-! ## Go maps as association lists -/

/-- Lookup `m[k]` with the comma-ok idiom: `none` when the key is absent. -/
def mapGet {ν : Type} : List (Nat × ν) → Nat → Option ν
  | [], _ => none
  | (k', v) :: rest, k => if k' = k then some v else mapGet rest k

/-- Assignment `m[k] = v`: overwrite in place, or add a new entry. -/
def mapSet {ν : Type} : List (Nat × ν) → Nat → ν → List (Nat × ν)
  | [], k, v => [(k, v)]
  | (k', v') :: rest, k, v =>
    if k' = k then (k, v) :: rest else (k', v') :: mapSet rest k v

/-- Builtin `delete(m, k)`. -/
def mapDelete {ν : Type} : List (Nat × ν) → Nat → List (Nat × ν)
  | [], _ => []
  | (k', v) :: rest, k =>
    if k' = k then mapDelete rest k else (k', v) :: mapDelete rest k

/-- Assignment `s[k] = struct{}{}` on a `map[K]struct{}`. -/
def setInsert {κ : Type} [DecidableEq κ] (s : List κ) (k : κ) : List κ :=
  if k ∈ s then s else s ++ [k]

/-- Builtin `delete(s, k)` on a `map[K]struct{}`. -/
def setDelete {κ : Type} [DecidableEq κ] (s : List κ) (k : κ) : List κ :=
  s.filter (fun x => decide (x ≠ k))

/-! ## IPv4 addresses and their text form (Go `net.IP`) -/

/-- An IPv4 address: four octets. -/
structure IP where
  o1 : Fin 256
  o2 : Fin 256
  o3 : Fin 256
  o4 : Fin 256
deriving DecidableEq, Repr

/-- The ASCII digit for `d < 10`. -/
def digitChar (d : Nat) : Char := Char.ofNat (48 + d)

/-- Go `net.ubtoa`: decimal text of one byte, without leading zeros. -/
def ubtoa (v : Nat) : List Char :=
  if v < 10 then [digitChar v]
  else if v < 100 then [digitChar (v / 10), digitChar (v % 10)]
  else [digitChar (v / 100), digitChar (v / 10 % 10), digitChar (v % 10)]

/-- Go `net.IP.String` for a 4-byte address: dotted decimal. -/
def IP.String (ip : IP) : String :=
  String.mk (ubtoa ip.o1.val ++ ('.' :: (ubtoa ip.o2.val ++ ('.' :: (ubtoa ip.o3.val
    ++ ('.' :: ubtoa ip.o4.val))))))

/-- Is the character an ASCII decimal digit. -/
def isDigit (c : Char) : Bool := decide (48 ≤ c.toNat) && decide (c.toNat ≤ 57)

/-- Go `net.dtoi` without its overflow cut-off: the value of the leading run of
decimal digits (accumulated from `acc`), how many characters it spans, and the
rest of the input. -/
def dtoi : List Char → Nat → Nat → Nat × Nat × List Char
  | [], acc, cnt => (acc, cnt, [])
  | c :: rest, acc, cnt =>
    if isDigit c then dtoi rest (acc * 10 + (c.toNat - 48)) (cnt + 1)
    else (acc, cnt, c :: rest)

/-- One iteration of the loop of Go `net.parseIPv4`: a decimal field of at
least one digit, at most `0xFF`, and with no leading zero unless it is `0`. -/
def parseOctet (s : List Char) : Option (Fin 256 × List Char) :=
  match dtoi s 0 0 with
  | (n, cnt, rest) =>
    if cnt = 0 then none
    else if h : n < 256 then
      if decide (1 < cnt) && decide (s.head? = some '0') then none
      else some (⟨n, h⟩, rest)
    else none

/-- A separating dot, as `parseIPv4` requires before fields 2 to 4. -/
def expectDot : List Char → Option (List Char)
  | '.' :: rest => some rest
  | _ => none

/-- Go `net.parseIPv4` on the characters of the string. -/
def parseIPv4 (s : List Char) : Option IP :=
  match parseOctet s with
  | none => none
  | some (a, s1) =>
    match expectDot s1 with
    | none => none
    | some s1 =>
      match parseOctet s1 with
      | none => none
      | some (b, s2) =>
        match expectDot s2 with
        | none => none
        | some s2 =>
          match parseOctet s2 with
          | none => none
          | some (c, s3) =>
            match expectDot s3 with
            | none => none
            | some s3 =>
              match parseOctet s3 with
              | none => none
              | some (d, s4) => if s4 = [] then some ⟨a, b, c, d⟩ else none

/-- Go `net.ParseIP`, restricted to the IPv4 dotted-decimal form: the addresses
of this model are IPv4, so IPv6 text gives `none` (Go's `nil`). -/
def ParseIP (s : String) : Option IP := parseIPv4 s.data

/-- Input on which `dtoi` stops at once: the end of the text, or a non-digit. -/
def stops (s : List Char) : Prop := s = [] ∨ ∃ c r, s = c :: r ∧ isDigit c = false

/-! ## Configuration records (`internal/config`) -/

/-- Go `config.VNIConfig`: a single overlay instance. -/
structure VNIConfig where
  ID : Nat
  Community : String
  Device : String
  UnderlayInterface : String
deriving DecidableEq, Repr

/-! ## Errors -/

/-- The errors the embedded code returns. -/
inductive Error where
  /-- Go `netlink.LinkNotFoundError`. -/
  | linkNotFound
  /-- "link %s exists but is not vxlan". -/
  | notVxlan (dev : String)
  /-- "vxlan link not ready". -/
  | linkNotReady
  /-- "list fdb: %w". -/
  | listFDB
  /-- "invalid dst ip %q". -/
  | invalidDst (dst : String)
  /-- "add fdb %s: %w". -/
  | addFDB (dst : String)
  /-- "del fdb %s: %w". -/
  | delFDB (dst : String)
  /-- Kernel `ENOENT`: no such neighbour entry. -/
  | noEntry
  /-- A nil pointer dereference (a Go run-time panic). -/
  | nilDeref
  /-- "format must be ASN:VALUE". -/
  | communityFormat
  /-- "asn: %w" from `strconv.ParseUint`. -/
  | communityASN
  /-- "value: %w" from `strconv.ParseUint`. -/
  | communityValue
  /-- "duplicate community %s across VNIs". -/
  | duplicateCommunity (c : String)
  /-- "local IP must be IPv4", or no usable address on the interface. -/
  | localIP
  /-- "connect gobgp at %s: %w". -/
  | connect
  /-- A failed RPC to the routing daemon. -/
  | rpc
  /-- "add path for local membership: %w". -/
  | addPath
  /-- "at least one VNI must be configured or communityAsn must be set". -/
  | noVNI
  /-- "vni id must be > 0". -/
  | vniIDZero
  /-- "vni %d missing community and communityAsn not set". -/
  | vniMissingCommunity (id : Nat)
  /-- "vni %d invalid community %q: %w". -/
  | vniInvalidCommunity (id : Nat) (community : String)
  /-- "node.localAddress must be IPv4 when set". -/
  | localAddressNotIPv4
  /-- "read config: %w" or "parse config: %w". -/
  | loadConfig
deriving DecidableEq, Repr

/-! ## The kernel as seen through `vishvananda/netlink` -/

/-- Go `netlink.Vxlan`: a link of VXLAN kind. -/
structure Vxlan where
  Name : String
  Index : Nat
  VxlanId : Int
deriving DecidableEq, Repr

/-- Go `netlink.Link`: a VXLAN link, or a link of any other kind. -/
inductive Link where
  | vxlan (vx : Vxlan)
  | other (Name : String) (Index : Nat)
deriving DecidableEq, Repr

/-- The interface name, `l.Attrs().Name`. -/
def Link.Name : Link → String
  | .vxlan vx => vx.Name
  | .other n _ => n

/-- Go `netlink.Neigh`, with the fields the agent reads or writes. -/
structure Neigh where
  LinkIndex : Nat
  Family : Nat
  State : Nat
  Flags : Nat
  IP : Option IP
  HardwareAddr : Option (List Nat)
deriving DecidableEq, Repr

/-- Go `syscall.AF_BRIDGE`. -/
def AF_BRIDGE : Nat := 7
/-- Go `netlink.NUD_PERMANENT`. -/
def NUD_PERMANENT : Nat := 128
/-- Go `netlink.NTF_SELF`. -/
def NTF_SELF : Nat := 2

/-- A mutating netlink call, as recorded in the kernel's call log. -/
inductive NetlinkCall where
  | NeighAppend (n : Neigh)
  | NeighDel (n : Neigh)
deriving DecidableEq, Repr

/-- The kernel state the agent observes: the links of the host, the bridge
neighbour (FDB) table, and the log of the mutating calls issued so far. -/
structure Kernel where
  links : List Link
  neigh : List Neigh
  calls : List NetlinkCall
deriving DecidableEq, Repr

/-- Go `netlink.LinkByName`. -/
def Kernel.LinkByName (k : Kernel) (name : String) : Except Error Link :=
  match k.links.find? (fun l => decide (l.Name = name)) with
  | some l => .ok l
  | none => .error .linkNotFound

/-- Go `netlink.LinkList`. -/
def Kernel.LinkList (k : Kernel) : Except Error (List Link) := .ok k.links

/-- Go `netlink.NeighList(linkIndex, family)`. -/
def Kernel.NeighList (k : Kernel) (linkIndex family : Nat) : Except Error (List Neigh) :=
  .ok (k.neigh.filter (fun n => decide (n.LinkIndex = linkIndex) && decide (n.Family = family)))

/-- The identity of an FDB entry: device, family, MAC and destination. -/
def Neigh.sameEntry (n e : Neigh) : Bool :=
  decide (e.LinkIndex = n.LinkIndex) && decide (e.Family = n.Family)
    && decide (e.HardwareAddr = n.HardwareAddr) && decide (e.IP = n.IP)

/-- Go `netlink.NeighAppend` (`NLM_F_CREATE|NLM_F_APPEND`): adds the entry; an
entry that is already there is left as it is. -/
def Kernel.NeighAppend (k : Kernel) (n : Neigh) : Kernel × Option Error :=
  if k.neigh.any n.sameEntry then
    ({ k with calls := k.calls ++ [.NeighAppend n] }, none)
  else
    ({ k with neigh := k.neigh ++ [n], calls := k.calls ++ [.NeighAppend n] }, none)

/-- Go `netlink.NeighDel`: removes the entry, `ENOENT` when there is none. -/
def Kernel.NeighDel (k : Kernel) (n : Neigh) : Kernel × Option Error :=
  if k.neigh.any n.sameEntry then
    ({ k with neigh := k.neigh.filter (fun e => !n.sameEntry e),
              calls := k.calls ++ [.NeighDel n] }, none)
  else
    ({ k with calls := k.calls ++ [.NeighDel n] }, some .noEntry)

/-! ## The VXLAN manager (`internal/vxlan/manager.go`) -/

/-- The all-zero MAC of a flood entry. -/
def broadcastMAC : List Nat := [0, 0, 0, 0, 0, 0]

/-- Go `vxlan.Manager`: owns one VXLAN interface and its FDB entries. -/
structure Manager where
  cfg : VNIConfig
  port : Nat
  localIP : IP
  link : Option Vxlan
  linkOnce : Bool
deriving DecidableEq, Repr

/-- Go `vxlan.NewManager`. -/
def NewManager (cfg : VNIConfig) (port : Nat) (localIP : IP) : Manager :=
  { cfg := cfg, port := port, localIP := localIP, link := none, linkOnce := false }

/-- Go `Manager.LoadLink`: verifies the VXLAN interface exists and refreshes the
cached handle. -/
def Manager.LoadLink (m : Manager) (k : Kernel) : Manager × Option Error :=
  match k.LinkByName m.cfg.Device with
  | .error e => ({ m with link := none, linkOnce := false }, some e)
  | .ok (.vxlan vx) => ({ m with link := some vx, linkOnce := true }, none)
  | .ok (.other _ _) => (m, some (.notVxlan m.cfg.Device))

/-- The byte-wise comparison with `broadcastMAC` in `currentFDB`. -/
def macMatch (hw : List Nat) : Bool :=
  (List.range broadcastMAC.length).all
    (fun i => decide (hw.getD i 0 = broadcastMAC.getD i 0))

/-- The body of the loop over the neighbours in `currentFDB`. -/
def currentFDBStep (res : List String) (n : Neigh) : List String :=
  match n.IP, n.HardwareAddr with
  | some ip, some hw =>
    if hw.length ≠ broadcastMAC.length then res
    else if !macMatch hw then res
    else setInsert res ip.String
  | _, _ => res

/-- Go `Manager.currentFDB`: the destinations of the all-zero-MAC entries. -/
def Manager.currentFDB (m : Manager) (k : Kernel) : List String × Option Error :=
  match m.link with
  | none => ([], some .linkNotReady)
  | some link =>
    match k.NeighList link.Index AF_BRIDGE with
    | .error _ => ([], some .listFDB)
    | .ok neigh => (neigh.foldl currentFDBStep [], none)

/-- Go `Manager.add`: append one flood entry. -/
def Manager.add (m : Manager) (dst : String) (k : Kernel) : Kernel × Option Error :=
  match ParseIP dst with
  | none => (k, some (.invalidDst dst))
  | some ip =>
    match m.link with
    | none => (k, some .nilDeref)
    | some link =>
      match k.NeighAppend
        { LinkIndex := link.Index, State := NUD_PERMANENT, Family := AF_BRIDGE,
          Flags := NTF_SELF, IP := some ip, HardwareAddr := some broadcastMAC } with
      | (k1, some _) => (k1, some (.addFDB dst))
      | (k1, none) => (k1, none)

/-- Go `Manager.del`: delete one flood entry. -/
def Manager.del (m : Manager) (dst : String) (k : Kernel) : Kernel × Option Error :=
  match ParseIP dst with
  | none => (k, some (.invalidDst dst))
  | some ip =>
    match m.link with
    | none => (k, some .nilDeref)
    | some link =>
      match k.NeighDel
        { LinkIndex := link.Index, State := 0, Family := AF_BRIDGE,
          Flags := NTF_SELF, IP := some ip, HardwareAddr := some broadcastMAC } with
      | (k1, some _) => (k1, some (.delFDB dst))
      | (k1, none) => (k1, none)

/-- The first loop of `SyncFDB`: `for dst := range desired`, adding what is not
in `current`; stops at the first error. -/
def Manager.addMissing (m : Manager) (current : List String) :
    List String → Kernel → Kernel × Option Error
  | [], k => (k, none)
  | dst :: rest, k =>
    if dst ∈ current then m.addMissing current rest k
    else
      match m.add dst k with
      | (k1, some e) => (k1, some e)
      | (k1, none) => m.addMissing current rest k1

/-- The second loop of `SyncFDB`: `for dst := range current`, deleting what is
not in `desired`; stops at the first error. -/
def Manager.delStale (m : Manager) (desired : List String) :
    List String → Kernel → Kernel × Option Error
  | [], k => (k, none)
  | dst :: rest, k =>
    if dst ∈ desired then m.delStale desired rest k
    else
      match m.del dst k with
      | (k1, some e) => (k1, some e)
      | (k1, none) => m.delStale desired rest k1

/-- Go `Manager.SyncFDB`: drives the FDB to the desired remote VTEPs.  `iter`
is the order in which the Go runtime ranges over the map `current`. -/
def Manager.SyncFDB (iter : List String → List String) (m : Manager)
    (desired : List String) (k : Kernel) : Manager × Kernel × Option Error :=
  match m.LoadLink k with
  | (m1, some e) => (m1, k, some e)
  | (m1, none) =>
    match m1.currentFDB k with
    | (_, some e) => (m1, k, some e)
    | (current, none) =>
      match m1.addMissing current desired k with
      | (k1, some e) => (m1, k1, some e)
      | (k1, none) =>
        match m1.delStale desired (iter current) k1 with
        | (k2, some e) => (m1, k2, some e)
        | (k2, none) => (m1, k2, none)

/-! ### Vocabulary for the FDB theorems -/

/-- The flood entry `Manager.add` appends for destination `ip` on link `idx`. -/
def floodEntry (idx : Nat) (ip : IP) : Neigh :=
  { LinkIndex := idx, State := NUD_PERMANENT, Family := AF_BRIDGE,
    Flags := NTF_SELF, IP := some ip, HardwareAddr := some broadcastMAC }

/-- The entry description `Manager.del` hands to `NeighDel`. -/
def floodKey (idx : Nat) (ip : IP) : Neigh :=
  { LinkIndex := idx, State := 0, Family := AF_BRIDGE,
    Flags := NTF_SELF, IP := some ip, HardwareAddr := some broadcastMAC }

/-- Does the entry carry the all-zero MAC. -/
def Neigh.zeroMAC (n : Neigh) : Bool := decide (n.HardwareAddr = some broadcastMAC)

/-- The neighbour entry a mutating netlink call is about. -/
def NetlinkCall.neigh : NetlinkCall → Neigh
  | .NeighAppend n => n
  | .NeighDel n => n

/-- The destinations of the all-zero-MAC bridge entries of link `idx`. -/
def floodIPs (idx : Nat) (neigh : List Neigh) : List IP :=
  neigh.filterMap (fun n =>
    if n.LinkIndex = idx ∧ n.Family = AF_BRIDGE ∧ n.HardwareAddr = some broadcastMAC
    then n.IP else none)

/-- Kernel `k1` differs from `k` at most in all-zero-MAC entries: the links and
every entry with another MAC are the same, and each call logged in between is
about an all-zero-MAC entry. -/
def FloodOnly (k k1 : Kernel) : Prop :=
  k1.links = k.links ∧
  k1.neigh.filter (fun n => !n.zeroMAC) = k.neigh.filter (fun n => !n.zeroMAC) ∧
  ∃ new, k1.calls = k.calls ++ new ∧ ∀ c ∈ new, c.neigh.zeroMAC = true

/-! ### Example data: scenario 6 of the specification -/

/-- A VXLAN link `vxlan100` with interface index 5 and VNI 100. -/
def exVxlan : Vxlan := { Name := "vxlan100", Index := 5, VxlanId := 100 }

/-- The peer address `10.0.0.9`. -/
def exPeer9 : IP := ⟨10, 0, 0, 9⟩

/-- The peer address `10.0.0.10`. -/
def exPeer10 : IP := ⟨10, 0, 0, 10⟩

/-- A learned unicast entry: a permanent entry with a non-zero MAC. -/
def exUnicastEntry : Neigh :=
  { LinkIndex := 5, Family := AF_BRIDGE, State := NUD_PERMANENT, Flags := NTF_SELF,
    IP := some ⟨10, 0, 0, 7⟩, HardwareAddr := some [2, 0, 0, 0, 0, 1] }

/-- A kernel whose FDB holds the unicast entry and a flood entry for `10.0.0.9`. -/
def exKernel : Kernel :=
  { links := [Link.vxlan exVxlan]
    neigh := [exUnicastEntry, floodEntry 5 exPeer9]
    calls := [] }

/-- The manager of VNI 100 on device `vxlan100`. -/
def exManager : Manager :=
  NewManager { ID := 100, Community := "65000:100", Device := "vxlan100",
               UnderlayInterface := "eth0" } 4789 ⟨10, 0, 0, 1⟩

/-! ## Communities (`internal/config/config.go`) -/

/-- Go `config.GoBGPConfig`; the timeout is a number of nanoseconds. -/
structure GoBGPConfig where
  Address : String
  Timeout : Nat
deriving DecidableEq, Repr

/-- Go `config.NodeConfig`: local interface settings. -/
structure NodeConfig where
  LocalAddress : String
  LocalInterface : String
  VXLANPort : Nat
  SkipLinkCleanup : Bool
  AutoRecreateVxlan : Bool
deriving DecidableEq, Repr

/-- Go `config.Config`: the top-level configuration of the agent. -/
structure Config where
  LogLevel : String
  AdvertiseSelf : Bool
  CommunityASN : Nat
  GoBGP : GoBGPConfig
  Node : NodeConfig
  VNIs : List VNIConfig
deriving DecidableEq, Repr

/-- Go `strings.Split(s, sep)` for a one-character separator, on the
characters of the string: the fields between the separators (one field when
there is no separator). -/
def splitOn (sep : Char) : List Char → List (List Char)
  | [] => [[]]
  | c :: rest =>
    if c = sep then [] :: splitOn sep rest
    else
      match splitOn sep rest with
      | [] => [[c]]
      | f :: fs => (c :: f) :: fs

/-- The value of a run of decimal digits, most significant first. -/
def digitsValue (s : List Char) : Nat :=
  s.foldl (fun n c => n * 10 + (c.toNat - 48)) 0

/-- Go `strconv.ParseUint(s, 10, bitSize)`: a non-empty run of decimal digits
whose value fits in `bitSize` bits; `none` stands for its syntax and range
errors. -/
def ParseUint (s : List Char) (bitSize : Nat) : Option Nat :=
  if s = [] then none
  else if s.all isDigit then
    if digitsValue s < 2 ^ bitSize then some (digitsValue s) else none
  else none

/-- Go `config.ParseCommunity`: parses "ASN:VALUE" into a `uint32`. -/
def ParseCommunity (raw : String) : Except Error Nat :=
  match splitOn ':' raw.data with
  | [p0, p1] =>
    match ParseUint p0 16 with
    | none => .error .communityASN
    | some asn =>
      match ParseUint p1 16 with
      | none => .error .communityValue
      | some val => .ok ((asn <<< 16 ||| val) % 2 ^ 32)
  | _ => .error .communityFormat

/-- Go `fmt.Sprintf("%d:%d", a, b)` for unsigned integers. -/
def sprintfCommunity (a b : Nat) : String :=
  String.mk (Nat.toDigits 10 a ++ (':' :: Nat.toDigits 10 b))

/-! ## BGP paths and the routing daemon (`gobgp` API) -/

/-- Go `api.Family`. -/
structure Family where
  Afi : Nat
  Safi : Nat
deriving DecidableEq, Repr

/-- Go `api.Family_AFI_IP`. -/
def Family_AFI_IP : Nat := 1
/-- Go `api.Family_SAFI_UNICAST`. -/
def Family_SAFI_UNICAST : Nat := 1

/-- The native NLRI `apiutil.GetNativeNlri` decodes: an `IPAddrPrefix` with its
length and prefix (a `net.IP`, `none` being Go's nil), or another kind. -/
inductive Nlri where
  | IPAddrPrefix (Length : Nat) (Prefix : Option IP)
  | other
deriving DecidableEq, Repr

/-- The native path attributes `apiutil.GetNativePathAttributes` decodes. -/
inductive PathAttr where
  | Origin (value : Nat)
  | NextHop (value : Option IP)
  | Communities (Value : List Nat)
  | other
deriving DecidableEq, Repr

/-- Go `api.Path`, seen through the decoders of `apiutil`: `Nlri` is the
result of `GetNativeNlri` and `Pattrs` that of `GetNativePathAttributes`,
`none` standing for a decoding error.  The age of the path is left out. -/
structure Path where
  Family : Option Family
  Nlri : Option Nlri
  Pattrs : Option (List PathAttr)
  IsWithdraw : Bool
deriving DecidableEq, Repr

/-- Go `net.IP.String` on a possibly nil address. -/
def netIPString : Option IP → String
  | some ip => ip.String
  | none => "<nil>"

/-- An RPC issued to the routing daemon. -/
inductive RPC where
  | AddPath (p : Path)
  | DeletePath (p : Path)
  | ListPath
deriving DecidableEq, Repr

/-- The routing daemon as the agent sees it.  `fails n` tells whether the RPC
issued after `n` earlier ones fails; `listPath n` is what a `ListPath` issued
after `n` earlier RPCs streams before it ends (by `io.EOF` or by an error):
one entry per response, its destination being nil (`none`) or a list of
paths.  `calls` logs the RPCs issued so far. -/
structure Daemon where
  fails : Nat → Bool
  listPath : Nat → List (Option (List (Option Path)))
  calls : List RPC

/-- Unary RPC `DeletePath` on the global table. -/
def Daemon.DeletePath (d : Daemon) (p : Path) : Daemon × Option Error :=
  ({ d with calls := d.calls ++ [.DeletePath p] },
    if d.fails d.calls.length then some .rpc else none)

/-- Unary RPC `AddPath` on the global table. -/
def Daemon.AddPath (d : Daemon) (p : Path) : Daemon × Option Error :=
  ({ d with calls := d.calls ++ [.AddPath p] },
    if d.fails d.calls.length then some .rpc else none)

/-- Streaming RPC `ListPath` for the IPv4-unicast global table. -/
def Daemon.ListPath (d : Daemon) :
    Daemon × Except Error (List (Option (List (Option Path)))) :=
  ({ d with calls := d.calls ++ [.ListPath] },
    if d.fails d.calls.length then .error .rpc else .ok (d.listPath d.calls.length))

/-- The environment of the agent: the kernel and the routing daemon. -/
structure World where
  kernel : Kernel
  daemon : Daemon

/-! ## The agent (`internal/agent/agent.go`) -/

/-- Go `agent.Agent`.  The managers are held by pointer in Go; here a call
that mutates a manager writes it back under its key. -/
structure Agent where
  cfg : Config
  localIP : IP
  communityToVNI : List (Nat × VNIConfig)
  idToVNI : List (Nat × VNIConfig)
  vxlanManagers : List (Nat × Manager)
  dynamicVNI : Bool
  vniOnline : List (Nat × Bool)
  desired : List (Nat × List String)
  localPath : Option Path
  localComms : List Nat
deriving DecidableEq, Repr

/-- What `New` needs from the host: Go's IPv6 text parser followed by `To4`
(`none`: not IPv6 text; `some none`: an IPv6 address with no 4-byte form;
`some (some ip)`: an IPv4-mapped address), the result of
`netutil.IPv4ForInterface` per interface name, and whether dialling the daemon
succeeds. -/
structure Host where
  parseIPv6 : String → Option (Option IP)
  IPv4ForInterface : String → Except Error IP
  dial : Bool

/-- The loop of `New` over the static VNI table. -/
def New.register (port : Nat) (localIP : IP) :
    List VNIConfig →
    List (Nat × VNIConfig) × List (Nat × VNIConfig) × List (Nat × Manager) →
    Except Error (List (Nat × VNIConfig) × List (Nat × VNIConfig) × List (Nat × Manager))
  | [], acc => .ok acc
  | v :: rest, (communityToVNI, idToVNI, vxManagers) =>
    match ParseCommunity v.Community with
    | .error e => .error e
    | .ok val =>
      if (mapGet communityToVNI val).isSome then .error (.duplicateCommunity v.Community)
      else New.register port localIP rest
        (mapSet communityToVNI val v, mapSet idToVNI v.ID v,
         mapSet vxManagers v.ID (NewManager v port localIP))

/-- The first lines of `New`: the local address, from the configuration or
from the interface, which must be IPv4. -/
def New.localIP (h : Host) (cfg : Config) : Except Error IP :=
  match ParseIP cfg.Node.LocalAddress with
  | some ip => .ok ip
  | none =>
    match h.parseIPv6 cfg.Node.LocalAddress with
    | some (some ip) => .ok ip
    | some none => .error .localIP
    | none => h.IPv4ForInterface cfg.Node.LocalInterface

/-- Go `agent.New`: constructs the agent and prepares static state. -/
def New (h : Host) (cfg : Config) : Except Error Agent :=
  match New.localIP h cfg with
  | .error e => .error e
  | .ok localIP =>
    let dynamicVNI := decide (cfg.VNIs.length = 0)
    match (if !dynamicVNI then New.register cfg.Node.VXLANPort localIP cfg.VNIs ([], [], [])
           else .ok ([], [], [])) with
    | .error e => .error e
    | .ok (communityToVNI, idToVNI, vxManagers) =>
      if h.dial then
        .ok { cfg := cfg, localIP := localIP, communityToVNI := communityToVNI,
              idToVNI := idToVNI, vxlanManagers := vxManagers, dynamicVNI := dynamicVNI,
              vniOnline := [], desired := [], localPath := none, localComms := [] }
      else .error .connect

/-- Go `extractCommunities`: the values of all communities attributes. -/
def extractCommunities (p : Path) : Except Error (List Nat) :=
  match p.Pattrs with
  | none => .error .rpc
  | some attrs =>
    .ok (attrs.foldl (fun res attr =>
      match attr with
      | .Communities value => res ++ value
      | _ => res) [])

/-- The body of the loop over the communities of one path in `consumePaths`. -/
def consumeComm (communityToVNI : List (Nat × VNIConfig)) (isWithdraw : Bool) (ip : String)
    (st : List (Nat × List String) × List Nat) (comm : Nat) :
    List (Nat × List String) × List Nat :=
  match mapGet communityToVNI comm with
  | none => st
  | some vniCfg =>
    let desired :=
      match mapGet st.1 vniCfg.ID with
      | none => mapSet st.1 vniCfg.ID []
      | some _ => st.1
    let set := (mapGet desired vniCfg.ID).getD []
    let desired :=
      if isWithdraw then mapSet desired vniCfg.ID (setDelete set ip)
      else mapSet desired vniCfg.ID (setInsert set ip)
    (desired, setInsert st.2 vniCfg.ID)

/-- The body of the loop over the paths in `consumePaths`. -/
def consumePath (a : Agent) (st : List (Nat × List String) × List Nat) (p : Option Path) :
    List (Nat × List String) × List Nat :=
  match p with
  | none => st
  | some p =>
    match p.Family with
    | none => st
    | some family =>
      if family.Afi ≠ Family_AFI_IP ∨ family.Safi ≠ Family_SAFI_UNICAST then st
      else
        match p.Nlri with
        | some (.IPAddrPrefix length pfx) =>
          if length ≠ 32 then st
          else
            let ip := netIPString pfx
            if ip = a.localIP.String then st
            else
              match extractCommunities p with
              | .error _ => st
              | .ok comms => comms.foldl (consumeComm a.communityToVNI p.IsWithdraw ip) st
        | _ => st

/-- Go `Agent.consumePaths`: folds a batch of paths into `desired` and returns
the new `desired` together with the set of touched VNIs. -/
def Agent.consumePaths (a : Agent) (paths : List (Option Path))
    (desired : List (Nat × List String)) : List (Nat × List String) × List Nat :=
  paths.foldl (consumePath a) (desired, [])

/-- Go `Agent.getOnline`. -/
def Agent.getOnline (a : Agent) (vni : Nat) : Bool × Bool :=
  match mapGet a.vniOnline vni with
  | some val => (val, true)
  | none => (false, false)

/-- Go `Agent.setOnline`. -/
def Agent.setOnline (a : Agent) (vni : Nat) (online : Bool) : Agent :=
  { a with vniOnline := mapSet a.vniOnline vni online }

/-- Go `Agent.snapshotDesired`: a copy of `desired[vni]`, nil when empty. -/
def Agent.snapshotDesired (a : Agent) (vni : Nat) : List String :=
  match mapGet a.desired vni with
  | none => []
  | some src => if src.length = 0 then [] else src

/-- Go `newCommunityPath`: the local /32 with origin, next hop and, when there
are any, the communities. -/
def newCommunityPath (pfx : String) (communities : List Nat) : Except Error Path :=
  let nlri := Nlri.IPAddrPrefix 32 (ParseIP pfx)
  let attrs := [PathAttr.Origin 0, PathAttr.NextHop (ParseIP pfx)]
  let attrs := if communities.length > 0 then attrs ++ [PathAttr.Communities communities]
               else attrs
  .ok { Family := some { Afi := Family_AFI_IP, Safi := Family_SAFI_UNICAST },
        Nlri := some nlri, Pattrs := some attrs, IsWithdraw := false }

/-- Go `sort.Slice(comms, func(i, j int) bool { return comms[i] < comms[j] })`:
the ascending rearrangement of the values. -/
def sortSlice (comms : List Nat) : List Nat := comms.insertionSort (fun x y => x ≤ y)

/-- The body of the loop of `collectLocalCommunities` over the online table. -/
def collectStep (idToVNI : List (Nat × VNIConfig)) (comms : List Nat) (e : Nat × Bool) :
    List Nat :=
  if !e.2 then comms
  else
    match mapGet idToVNI e.1 with
    | none => comms
    | some cfg =>
      match ParseCommunity cfg.Community with
      | .ok comm => comms ++ [comm]
      | .error _ => comms

/-- Go `Agent.collectLocalCommunities`; `iter` is the order in which the Go
runtime ranges over a map. -/
def Agent.collectLocalCommunities (iter : (α : Type) → List α → List α) (a : Agent) :
    List Nat :=
  sortSlice ((iter _ a.vniOnline).foldl (collectStep a.idToVNI) [])

/-- Go `equalComms`. -/
def equalComms (a b : List Nat) : Bool :=
  if a.length ≠ b.length then false
  else (List.range a.length).all (fun i => decide (a.getD i 0 = b.getD i 0))

/-- Go `Agent.updateLocalPath`: publishes a single local /32 path carrying all
active VNI communities. -/
def Agent.updateLocalPath (iter : (α : Type) → List α → List α) (a : Agent) (d : Daemon) :
    Agent × Daemon × Option Error :=
  let comms := a.collectLocalCommunities iter
  if equalComms a.localComms comms then (a, d, none)
  else
    let oldPath := a.localPath
    let a := { a with localComms := comms }
    let d :=
      match oldPath with
      | some p => (d.DeletePath p).1
      | none => d
    if comms.length = 0 then ({ a with localPath := none }, d, none)
    else
      match newCommunityPath a.localIP.String comms with
      | .error e => (a, d, some e)
      | .ok path =>
        match d.AddPath path with
        | (d, some _) => (a, d, some .addPath)
        | (d, none) => ({ a with localPath := some path }, d, none)

/-- Go `Agent.ensureVNI`: probes the link of the VNI and returns whether the
VNI is online; on a change of the online state it republishes the local
path. -/
def Agent.ensureVNI (iter : (α : Type) → List α → List α) (a : Agent) (w : World)
    (vni : Nat) : Agent × World × Bool :=
  match mapGet a.vxlanManagers vni with
  | none => (a, w, false)
  | some mgr =>
    match mgr.LoadLink w.kernel with
    | (mgr, none) =>
      let a := { a with vxlanManagers := mapSet a.vxlanManagers vni mgr }
      if !(a.getOnline vni).1 then
        let a := a.setOnline vni true
        match a.updateLocalPath iter w.daemon with
        | (a, d, _) => (a, { w with daemon := d }, true)
      else (a, w, true)
    | (mgr, some _) =>
      let a := { a with vxlanManagers := mapSet a.vxlanManagers vni mgr }
      if (a.getOnline vni).1 then
        let a := a.setOnline vni false
        match a.updateLocalPath iter w.daemon with
        | (a, d, _) => (a, { w with daemon := d }, false)
      else (a, w, false)

/-- The body of the loop of `advertiseSelf` over the configured VNIs. -/
def advertiseSelfStep (k : Kernel) (a : Agent) (v : VNIConfig) : Agent :=
  match mapGet a.vxlanManagers v.ID with
  | some mgr =>
    match mgr.LoadLink k with
    | (mgr, err) =>
      let a := { a with vxlanManagers := mapSet a.vxlanManagers v.ID mgr }
      if err.isSome && !a.cfg.Node.AutoRecreateVxlan then a.setOnline v.ID false
      else a.setOnline v.ID true
  | none => a.setOnline v.ID true

/-- Go `Agent.advertiseSelf`. -/
def Agent.advertiseSelf (iter : (α : Type) → List α → List α) (a : Agent) (w : World) :
    Agent × World × Option Error :=
  let a := a.cfg.VNIs.foldl (advertiseSelfStep w.kernel) a
  match a.updateLocalPath iter w.daemon with
  | (a, d, err) => (a, { w with daemon := d }, err)

/-- The body of the reconciliation loop shared by `watchOnce`,
`refreshDynamicVNIs` and `pollVxlan`: for a VNI with a manager, probe it and,
when it is online, sync its FDB with a snapshot of `desired`. -/
def reconcileVNI (iter : (α : Type) → List α → List α) (st : Agent × World) (vni : Nat) :
    Agent × World :=
  match mapGet st.1.vxlanManagers vni with
  | none => st
  | some _ =>
    match st.1.ensureVNI iter st.2 vni with
    | (a, w, false) => (a, w)
    | (a, w, true) =>
      match mapGet a.vxlanManagers vni with
      | none => (a, w)
      | some mgr =>
        match mgr.SyncFDB (iter String) (iter String (a.snapshotDesired vni)) w.kernel with
        | (mgr, k, _) =>
          ({ a with vxlanManagers := mapSet a.vxlanManagers vni mgr }, { w with kernel := k })

/-- The body of the receive loop of `resyncRIB`. -/
def resyncStep (iter : (α : Type) → List α → List α) (a : Agent)
    (st : List (Nat × List String) × List Nat) (resp : Option (List (Option Path))) :
    List (Nat × List String) × List Nat :=
  match resp with
  | none => st
  | some paths =>
    if paths.length = 0 then st
    else
      match a.consumePaths paths st.1 with
      | (desired, touched) => (desired, (iter Nat touched).foldl setInsert st.2)

/-- Go `Agent.resyncRIB`: rebuilds `desired` from a full snapshot of the RIB and
returns the touched VNIs. -/
def Agent.resyncRIB (iter : (α : Type) → List α → List α) (a : Agent) (d : Daemon) :
    Agent × Daemon × List Nat :=
  match d.ListPath with
  | (d, .error _) => (a, d, [])
  | (d, .ok stream) =>
    match stream.foldl (resyncStep iter a) ([], []) with
    | (desired, touched) => ({ a with desired := desired }, d, touched)

/-- The conversion `uint32(vx.VxlanId)`. -/
def vniOf (vx : Vxlan) : Nat := (vx.VxlanId % 4294967296).toNat

/-- The body of the scan of `refreshDynamicVNIs` over the links of the host:
the state is the agent, the set `present` and the flag `created`. -/
def discoverStep (st : Agent × List Nat × Bool) (l : Link) : Agent × List Nat × Bool :=
  match l with
  | .other _ _ => st
  | .vxlan vx =>
    let a := st.1
    let vni := vniOf vx
    if vni = 0 then st
    else
      let present := setInsert st.2.1 vni
      let community := sprintfCommunity a.cfg.CommunityASN vni
      match ParseCommunity community with
      | .error _ => (a, present, st.2.2)
      | .ok commVal =>
        if (mapGet a.idToVNI vni).isSome then (a, present, st.2.2)
        else
          let vniCfg : VNIConfig :=
            { ID := vni, Community := community, Device := vx.Name,
              UnderlayInterface := a.cfg.Node.LocalInterface }
          ({ a with idToVNI := mapSet a.idToVNI vni vniCfg,
                    communityToVNI := mapSet a.communityToVNI commVal vniCfg,
                    vxlanManagers := mapSet a.vxlanManagers vni
                      (NewManager vniCfg a.cfg.Node.VXLANPort a.localIP) },
           present, true)

/-- The loop `for comm, cfg := range a.communityToVNI` of the removal: deletes
the first entry met whose configuration has the id, then stops. -/
def deleteFirstWithID (vni : Nat) (visit : List (Nat × VNIConfig))
    (communityToVNI : List (Nat × VNIConfig)) : List (Nat × VNIConfig) :=
  match visit.find? (fun e => decide (e.2.ID = vni)) with
  | some e => mapDelete communityToVNI e.1
  | none => communityToVNI

/-- The body of the removal loop of `refreshDynamicVNIs` over the missing
VNIs. -/
def unregisterVNI (iter : (α : Type) → List α → List α) (st : Agent × World) (vni : Nat) :
    Agent × World :=
  match st.1.ensureVNI iter st.2 vni with
  | (a, w, _) =>
    ({ a with idToVNI := mapDelete a.idToVNI vni,
              communityToVNI := deleteFirstWithID vni (iter _ a.communityToVNI) a.communityToVNI,
              vxlanManagers := mapDelete a.vxlanManagers vni,
              desired := mapDelete a.desired vni }, w)

/-- Go `Agent.refreshDynamicVNIs`: registers the VXLAN links found on the host
and unregisters the VNIs whose link is gone. -/
def Agent.refreshDynamicVNIs (iter : (α : Type) → List α → List α) (a : Agent) (w : World) :
    Agent × World :=
  match w.kernel.LinkList with
  | .error _ => (a, w)
  | .ok links =>
    match links.foldl discoverStep (a, [], false) with
    | (a, present, created) =>
      let st : Agent × World :=
        if created then
          match a.resyncRIB iter w.daemon with
          | (a, d, touched) =>
            (iter Nat touched).foldl (reconcileVNI iter) (a, { w with daemon := d })
        else (a, w)
      let missing := ((iter _ st.1.vxlanManagers).map Prod.fst).filter
        (fun vni => decide (vni ∉ present))
      missing.foldl (unregisterVNI iter) st

/-- One delivered batch in `watchOnce`: fold the paths into `desired`, then
reconcile every touched VNI. -/
def Agent.watchBatch (iter : (α : Type) → List α → List α) (a : Agent) (w : World)
    (paths : List (Option Path)) : Agent × World :=
  match a.consumePaths paths a.desired with
  | (desired, touched) =>
    (iter Nat touched).foldl (reconcileVNI iter) ({ a with desired := desired }, w)

/-- One tick of `Agent.pollVxlan`. -/
def Agent.pollTick (iter : (α : Type) → List α → List α) (a : Agent) (w : World) :
    Agent × World :=
  let st : Agent × World := if a.dynamicVNI then a.refreshDynamicVNIs iter w else (a, w)
  ((iter _ st.1.vxlanManagers).map Prod.fst).foldl (reconcileVNI iter) st

/-- The agent states the program can reach: the state `New` builds, followed
by any number of the steps `Run` and its goroutines perform, each in an
arbitrary environment and with an arbitrary map iteration order. -/
inductive Reachable : Agent → Prop where
  | new (h : Host) (cfg : Config) (a : Agent) : New h cfg = .ok a → Reachable a
  | refresh (iter : (α : Type) → List α → List α) (a : Agent) (w : World) :
      Reachable a → a.dynamicVNI = true → Reachable (a.refreshDynamicVNIs iter w).1
  | ensure (iter : (α : Type) → List α → List α) (a : Agent) (w : World) (vni : Nat) :
      Reachable a → Reachable (a.ensureVNI iter w vni).1
  | advertise (iter : (α : Type) → List α → List α) (a : Agent) (w : World) :
      Reachable a → Reachable (a.advertiseSelf iter w).1
  | watch (iter : (α : Type) → List α → List α) (a : Agent) (w : World)
      (paths : List (Option Path)) :
      Reachable a → Reachable (a.watchBatch iter w paths).1
  | poll (iter : (α : Type) → List α → List α) (a : Agent) (w : World) :
      Reachable a → Reachable (a.pollTick iter w).1

/-! ### Vocabulary for the route decoder theorems -/

/-- No set of the `desired` map contains the string `loc`. -/
def NoLocal (loc : String) (desired : List (Nat × List String)) : Prop :=
  ∀ e ∈ desired, loc ∉ e.2

/-- A sequence of batches folded into `desired` by `consumePaths`, one after the
other; each batch comes with the community registry in force when it is
consumed (dynamic discovery changes the registry between batches). -/
def consumeBatches (a : Agent)
    (batches : List (List (Nat × VNIConfig) × List (Option Path)))
    (desired : List (Nat × List String)) : List (Nat × List String) :=
  batches.foldl
    (fun d b => (({ a with communityToVNI := b.1 } : Agent).consumePaths b.2 d).1) desired

/-- The communities of a path, none when they cannot be extracted. -/
def communitiesOf (p : Path) : List Nat :=
  match extractCommunities p with
  | .ok comms => comms
  | .error _ => []

/-- The path is filtered out by the decoder: it is nil, or its family is not
IPv4 unicast, or its NLRI is not a /32 prefix, or its prefix is the local
address, or none of its communities is registered. -/
def Agent.filtersOut (a : Agent) (p : Option Path) : Prop :=
  match p with
  | none => True
  | some p =>
    p.Family ≠ some { Afi := Family_AFI_IP, Safi := Family_SAFI_UNICAST } ∨
    (∀ pfx, p.Nlri ≠ some (.IPAddrPrefix 32 pfx)) ∨
    (∃ length pfx, p.Nlri = some (.IPAddrPrefix length pfx) ∧
      netIPString pfx = a.localIP.String) ∨
    (∀ c ∈ communitiesOf p, mapGet a.communityToVNI c = none)

/-- Two VNIs (100 and 200) registered under communities `65000:100` and
`65000:200`, local address `10.0.0.1`: the static setup of scenarios 3 and 4. -/
def exAgent : Agent :=
  { cfg := { LogLevel := "info", AdvertiseSelf := true, CommunityASN := 0,
             GoBGP := { Address := "127.0.0.1:50051", Timeout := 5000000000 },
             Node := { LocalAddress := "10.0.0.1", LocalInterface := "eth0", VXLANPort := 4789,
                       SkipLinkCleanup := false, AutoRecreateVxlan := false },
             VNIs := [{ ID := 100, Community := "65000:100", Device := "vxlan100",
                        UnderlayInterface := "eth0" },
                      { ID := 200, Community := "65000:200", Device := "vxlan200",
                        UnderlayInterface := "eth0" }] }
    localIP := ⟨10, 0, 0, 1⟩
    communityToVNI :=
      [(4259840100, { ID := 100, Community := "65000:100", Device := "vxlan100",
                      UnderlayInterface := "eth0" }),
       (4259840200, { ID := 200, Community := "65000:200", Device := "vxlan200",
                      UnderlayInterface := "eth0" })]
    idToVNI :=
      [(100, { ID := 100, Community := "65000:100", Device := "vxlan100",
               UnderlayInterface := "eth0" }),
       (200, { ID := 200, Community := "65000:200", Device := "vxlan200",
               UnderlayInterface := "eth0" })]
    vxlanManagers :=
      [(100, NewManager { ID := 100, Community := "65000:100", Device := "vxlan100",
                          UnderlayInterface := "eth0" } 4789 ⟨10, 0, 0, 1⟩),
       (200, NewManager { ID := 200, Community := "65000:200", Device := "vxlan200",
                          UnderlayInterface := "eth0" } 4789 ⟨10, 0, 0, 1⟩)]
    dynamicVNI := false
    vniOnline := []
    desired := []
    localPath := none
    localComms := [] }

/-- A /32 path for `ip` carrying the given communities. -/
def exPath (ip : IP) (comms : List Nat) (withdraw : Bool) : Path :=
  { Family := some { Afi := Family_AFI_IP, Safi := Family_SAFI_UNICAST }
    Nlri := some (.IPAddrPrefix 32 (some ip))
    Pattrs := some [.Origin 0, .NextHop (some ip), .Communities comms]
    IsWithdraw := withdraw }

/-- The update a path asks for has been applied to `desired[id]`: the set
exists and, for a withdrawal, does not contain `ip`, else contains it. -/
def Settled (withdraw : Bool) (ip : String) (desired : List (Nat × List String))
    (id : Nat) : Prop :=
  ∃ s, mapGet desired id = some s ∧ (withdraw = true → ip ∉ s) ∧ (withdraw = false → ip ∈ s)

/-- A batch in which every path is filtered out: a nil path, a path of another
family, a /24, the local /32, a path with an unknown community and a path with
no community at all. -/
def exFilteredBatch : List (Option Path) :=
  [none,
   some { exPath ⟨10, 0, 0, 5⟩ [4259840100] false with Family := some { Afi := 2, Safi := 1 } },
   some { exPath ⟨10, 0, 0, 5⟩ [4259840100] false with
          Nlri := some (.IPAddrPrefix 24 (some ⟨10, 0, 0, 0⟩)) },
   some (exPath ⟨10, 0, 0, 1⟩ [4259840100] false),
   some (exPath ⟨10, 0, 0, 5⟩ [4259840999] false),
   some (exPath ⟨10, 0, 0, 5⟩ [] true)]

/-! ### Vocabulary for the local advertisement theorems -/

/-- Distinct registered VNIs have distinct community values. -/
def RegistryInjective (idToVNI : List (Nat × VNIConfig)) : Prop :=
  ∀ v1 v2 cfg1 cfg2 c, mapGet idToVNI v1 = some cfg1 → mapGet idToVNI v2 = some cfg2 →
    ParseCommunity cfg1.Community = .ok c → ParseCommunity cfg2.Community = .ok c → v1 = v2

/-- Every registered VNI carries the community derived from `asn` and its id,
as dynamic discovery registers it. -/
def DerivedRegistry (asn : Nat) (idToVNI : List (Nat × VNIConfig)) : Prop :=
  ∀ v cfg, mapGet idToVNI v = some cfg → cfg.Community = sprintfCommunity asn v

/-- The registry of `New`: every configuration under an id carries that id and
is the one registered under its own community value. -/
def StaticRegistry (communityToVNI idToVNI : List (Nat × VNIConfig)) : Prop :=
  ∀ id cfg, mapGet idToVNI id = some cfg →
    cfg.ID = id ∧ ∃ val, ParseCommunity cfg.Community = .ok val ∧
      mapGet communityToVNI val = some cfg

/-- The invariant of the VNI registry: derived communities in dynamic mode,
distinct community values in static mode. -/
def RegistryInv (a : Agent) : Prop :=
  (a.dynamicVNI = true → DerivedRegistry a.cfg.CommunityASN a.idToVNI) ∧
  (a.dynamicVNI = false → RegistryInjective a.idToVNI)

/-- Agent `b` has the configuration, the mode and the VNI registry of `a`. -/
def SameRegistry (a b : Agent) : Prop :=
  b.cfg = a.cfg ∧ b.dynamicVNI = a.dynamicVNI ∧ b.idToVNI = a.idToVNI

/-- Agent `b` has the configuration and the mode of `a`, and its registry is
derived when that of `a` is. -/
def KeepsDerived (a b : Agent) : Prop :=
  b.cfg = a.cfg ∧ b.dynamicVNI = a.dynamicVNI ∧
  (DerivedRegistry a.cfg.CommunityASN a.idToVNI →
    DerivedRegistry a.cfg.CommunityASN b.idToVNI)

/-- The community an entry of the online table contributes to the local
advertisement, if any: that of an online VNI whose configuration resolves and
whose community parses. -/
def communityOfOnline (idToVNI : List (Nat × VNIConfig)) (e : Nat × Bool) : Option Nat :=
  if e.2 then
    match mapGet idToVNI e.1 with
    | none => none
    | some cfg =>
      match ParseCommunity cfg.Community with
      | .ok comm => some comm
      | .error _ => none
  else none

/-- A host on which the daemon can be dialled and the address is configured. -/
def exHost : Host :=
  { parseIPv6 := fun _ => none
    IPv4ForInterface := fun _ => .error .localIP
    dial := true }

/-- A map iteration order: the reverse of the list. -/
def exReverse : (α : Type) → List α → List α := fun _ l => l.reverse

/-- The path the agent publishes for itself: the local /32 with origin 0 (IGP),
the local address as next hop, and the communities. -/
def localCommunityPath (ip : IP) (comms : List Nat) : Path :=
  { Family := some { Afi := Family_AFI_IP, Safi := Family_SAFI_UNICAST }
    Nlri := some (.IPAddrPrefix 32 (some ip))
    Pattrs := some [.Origin 0, .NextHop (some ip), .Communities comms]
    IsWithdraw := false }

/-- A daemon that fails every RPC. -/
def exDaemonFail : Daemon :=
  { fails := fun _ => true, listPath := fun _ => [], calls := [] }

/-- A daemon that serves every RPC and has an empty RIB. -/
def exDaemon : Daemon :=
  { fails := fun _ => false, listPath := fun _ => [], calls := [] }

/-- Scenario 4, first half: both VNIs online, nothing published yet. -/
def exBothOnline : Agent :=
  { exAgent with vniOnline := [(100, true), (200, true)] }

/-- Scenario 4, second half: both communities published, then VNI 200 marked
offline. -/
def exOneOffline : Agent :=
  { exAgent with
    vniOnline := [(100, true), (200, false)]
    localComms := [4259840100, 4259840200]
    localPath := some (localCommunityPath ⟨10, 0, 0, 1⟩ [4259840100, 4259840200]) }

/-! ### Example data: dynamic mode, an interface re-created under its name -/

/-- A map iteration order: the list as it is. -/
def exListOrder : (α : Type) → List α → List α := fun _ l => l

/-- Dynamic mode: no static VNI, communities derived from ASN 65000. -/
def exDynConfig : Config :=
  { LogLevel := "info", AdvertiseSelf := true, CommunityASN := 65000,
    GoBGP := { Address := "127.0.0.1:50051", Timeout := 5000000000 },
    Node := { LocalAddress := "10.0.0.1", LocalInterface := "eth0", VXLANPort := 4789,
              SkipLinkCleanup := false, AutoRecreateVxlan := false },
    VNIs := [] }

/-- The agent `New` builds from `exDynConfig`. -/
def exDynStart : Agent :=
  { cfg := exDynConfig, localIP := ⟨10, 0, 0, 1⟩, communityToVNI := [], idToVNI := [],
    vxlanManagers := [], dynamicVNI := true, vniOnline := [], desired := [],
    localPath := none, localComms := [] }

/-- A host whose only link is the VXLAN interface `vx0` with the given index
and VNI; the daemon serves every RPC. -/
def exWorldVx0 (index : Nat) (vni : Int) : World :=
  { kernel := { links := [Link.vxlan { Name := "vx0", Index := index, VxlanId := vni }],
                neigh := [], calls := [] }
    daemon := exDaemon }

/-- The agent after it discovered `vx0` with VNI 100 and found it online: VNI
100 is registered, online, and its community `65000:100` is published. -/
def exDynRegistered : Agent :=
  (((exDynStart.refreshDynamicVNIs exListOrder (exWorldVx0 5 100)).1).ensureVNI
    exListOrder (exWorldVx0 5 100) 100).1

/-- VNI `v` is out of the registry: absent from `idToVNI`, `vxlanManagers` and
`desired`. -/
def Unregistered (v : Nat) (a : Agent) : Prop :=
  mapGet a.idToVNI v = none ∧ mapGet a.vxlanManagers v = none ∧ mapGet a.desired v = none

/-! ### The community text format, as the specification words it -/

/-- The ten decimal digits. -/
def decimalDigits : List Char := ['0', '1', '2', '3', '4', '5', '6', '7', '8', '9']

/-- The fields of a text split on a separator, joined again with it. -/
def joinSep (sep : Char) : List (List Char) → List Char
  | [] => []
  | [f] => f
  | f :: g :: fs => f ++ sep :: joinSep sep (g :: fs)

/-- A non-empty string of decimal digits, with no sign. -/
def IsDecimalField (f : List Char) : Prop := f ≠ [] ∧ ∀ c ∈ f, c ∈ decimalDigits

/-- The number a string of decimal digits denotes: each digit counts for its
rank among the ten digits times the power of ten of its position. -/
def decimalValue : List Char → Nat
  | [] => 0
  | c :: rest => decimalDigits.indexOf c * 10 ^ rest.length + decimalValue rest

/-- Splitting the text on ':' yields exactly the two fields `f0` and `f1`, each
a non-empty string of decimal digits whose value is at most 65535. -/
def CommunityFields (s : String) (f0 f1 : List Char) : Prop :=
  s.data = f0 ++ ':' :: f1 ∧ ':' ∉ f0 ∧ ':' ∉ f1 ∧
  IsDecimalField f0 ∧ IsDecimalField f1 ∧ decimalValue f0 ≤ 65535 ∧ decimalValue f1 ≤ 65535

/-! ## Validation of the configuration (`internal/config/config.go`) -/

/-- Go `net.ParseIP(s)` followed by `To4()`: `none` when `ParseIP` returns nil,
`some none` for an address with no 4-byte form, `some (some ip)` for an IPv4
address (dotted decimal, or the IPv4-mapped IPv6 text the host parser
accepts). -/
def netParseIPTo4 (h : Host) (s : String) : Option (Option IP) :=
  match ParseIP s with
  | some ip => some (some ip)
  | none => h.parseIPv6 s

/-- Go `fmt.Sprintf("vxlan%d", id)`. -/
def sprintfDevice (id : Nat) : String :=
  String.mk ("vxlan".data ++ Nat.toDigits 10 id)

/-- The loop of `applyDefaults` over the VNIs. -/
def applyDefaultsVNI (communityASN : Nat) (localInterface : String) (v : VNIConfig) :
    VNIConfig :=
  let v := if v.Device = "" then { v with Device := sprintfDevice v.ID } else v
  let v := if v.UnderlayInterface = "" then { v with UnderlayInterface := localInterface }
           else v
  if v.Community = "" ∧ communityASN ≠ 0 then
    { v with Community := sprintfCommunity communityASN v.ID }
  else v

/-- Go `config.applyDefaults`. -/
def applyDefaults (cfg : Config) : Config :=
  let cfg := if cfg.LogLevel = "" then { cfg with LogLevel := "info" } else cfg
  let cfg := if cfg.GoBGP.Address = "" then
      { cfg with GoBGP := { cfg.GoBGP with Address := "127.0.0.1:50051" } } else cfg
  let cfg := if cfg.GoBGP.Timeout = 0 then
      { cfg with GoBGP := { cfg.GoBGP with Timeout := 5000000000 } } else cfg
  let cfg := if cfg.CommunityASN = 0 then { cfg with CommunityASN := 0 } else cfg
  let cfg := if cfg.Node.LocalInterface = "" then
      { cfg with Node := { cfg.Node with LocalInterface := "eth0" } } else cfg
  let cfg := if cfg.Node.VXLANPort = 0 then
      { cfg with Node := { cfg.Node with VXLANPort := 4789 } } else cfg
  { cfg with VNIs := cfg.VNIs.map (applyDefaultsVNI cfg.CommunityASN cfg.Node.LocalInterface) }

/-- The loop of `Validate` over the VNIs: the first error, if any. -/
def Config.validateVNIs (communityASN : Nat) : List VNIConfig → Option Error
  | [] => none
  | v :: rest =>
    if v.ID = 0 then some .vniIDZero
    else if v.Community = "" then
      if communityASN = 0 then some (.vniMissingCommunity v.ID)
      else Config.validateVNIs communityASN rest
    else
      match ParseCommunity v.Community with
      | .error _ => some (.vniInvalidCommunity v.ID v.Community)
      | .ok _ => Config.validateVNIs communityASN rest

/-- Go `Config.Validate`: basic sanity checks; `none` is Go's nil error.  The
host supplies the IPv6 half of `net.ParseIP`. -/
def Config.Validate (h : Host) (c : Config) : Option Error :=
  if c.VNIs.length = 0 then
    if c.CommunityASN = 0 then some .noVNI
    else none
  else
    match Config.validateVNIs c.CommunityASN c.VNIs with
    | some e => some e
    | none =>
      if c.Node.LocalAddress ≠ "" then
        match netParseIPTo4 h c.Node.LocalAddress with
        | some (some _) => none
        | _ => some .localAddressNotIPv4
      else none

/-- Go `config.Load` from the result of reading and unmarshalling the file:
applies the defaults, then validates. -/
def Load (h : Host) (parsed : Except Error Config) : Except Error Config :=
  match parsed with
  | .error _ => .error .loadConfig
  | .ok cfg =>
    let cfg := applyDefaults cfg
    match cfg.Validate h with
    | some e => .error e
    | none => .ok cfg

/-- The local address is set and is not a valid IPv4 address: `net.ParseIP`
returns nil (an unparsable string) or an address with no 4-byte form (an IPv6
address). -/
def BadLocalAddress (h : Host) (c : Config) : Prop :=
  c.Node.LocalAddress ≠ "" ∧ ∀ ip, netParseIPTo4 h c.Node.LocalAddress ≠ some (some ip)

/-- A host with an IPv4 address on `eth0`, whose IPv6 parser knows `2001:db8::1`. -/
def exHostEth0 : Host :=
  { parseIPv6 := fun s => if s = "2001:db8::1" then some none else none
    IPv4ForInterface := fun name => if name = "eth0" then .ok ⟨10, 0, 0, 1⟩ else .error .localIP
    dial := true }

/-- A dynamic-mode configuration file as unmarshalled: `communityAsn: 65000`,
no VNI, and the given `node.localAddress`. -/
def exDynFile (localAddress : String) : Config :=
  { LogLevel := "", AdvertiseSelf := true, CommunityASN := 65000,
    GoBGP := { Address := "", Timeout := 0 },
    Node := { LocalAddress := localAddress, LocalInterface := "", VXLANPort := 0,
              SkipLinkCleanup := false, AutoRecreateVxlan := false },
    VNIs := [] }

/-- The same file with one static VNI. -/
def exStaticFile (localAddress : String) : Config :=
  { exDynFile localAddress with
    VNIs := [{ ID := 100, Community := "", Device := "", UnderlayInterface := "" }] }

/-! ## The online table and `node.autoRecreateVxlan` -/

/-- The agent with `node.autoRecreateVxlan` set to `b`, all else equal. -/
def Agent.withAutoRecreate (a : Agent) (b : Bool) : Agent :=
  { a with cfg := { a.cfg with Node := { a.cfg.Node with AutoRecreateVxlan := b } } }

/-- A world in which `vxlan100` exists as a VXLAN interface and `vxlan200`
does not exist. -/
def exWorldOne : World := { kernel := exKernel, daemon := exDaemon }

/-! # Theorems -/

/-! ## Text form of IPv4 addresses -/

theorem digitChar_toNat (d : Nat) (h : d < 10) : (digitChar d).toNat = 48 + d := by
  interval_cases d <;> rfl

theorem isDigit_digitChar (d : Nat) (h : d < 10) : isDigit (digitChar d) = true := by
  interval_cases d <;> rfl

theorem digitChar_ne_zero (d : Nat) (h : d < 10) (h0 : d ≠ 0) : digitChar d ≠ '0' := by
  interval_cases d <;> first | contradiction | decide

theorem dtoi_stops (s : List Char) (hs : stops s) (acc cnt : Nat) :
    dtoi s acc cnt = (acc, cnt, s) := by
  rcases hs with rfl | ⟨c, r, rfl, hc⟩
  · rfl
  · simp [dtoi, hc]

theorem dtoi_digit (d : Nat) (h : d < 10) (s : List Char) (acc cnt : Nat) :
    dtoi (digitChar d :: s) acc cnt = dtoi s (acc * 10 + d) (cnt + 1) := by
  simp [dtoi, isDigit_digitChar d h, digitChar_toNat d h]

theorem parseOctet_ubtoa (v : Nat) (h : v < 256) (rest : List Char) (hs : stops rest) :
    parseOctet (ubtoa v ++ rest) = some (⟨v, h⟩, rest) := by
  unfold ubtoa
  by_cases h1 : v < 10
  · simp only [h1, if_true, List.singleton_append]
    unfold parseOctet
    rw [dtoi_digit v h1, dtoi_stops rest hs]
    simp [h]
  · by_cases h2 : v < 100
    · simp only [h1, h2, if_true, if_false, List.cons_append, List.nil_append]
      unfold parseOctet
      have ha : v / 10 < 10 := by omega
      have hb : v % 10 < 10 := by omega
      rw [dtoi_digit _ ha, dtoi_digit _ hb, dtoi_stops rest hs]
      have hv : (0 * 10 + v / 10) * 10 + v % 10 = v := by omega
      have hne : digitChar (v / 10) ≠ '0' := digitChar_ne_zero _ ha (by omega)
      simp [h, hne]
      omega
    · simp only [h1, h2, if_false, List.cons_append, List.nil_append]
      unfold parseOctet
      have ha : v / 100 < 10 := by omega
      have hb : v / 10 % 10 < 10 := by omega
      have hc : v % 10 < 10 := by omega
      rw [dtoi_digit _ ha, dtoi_digit _ hb, dtoi_digit _ hc, dtoi_stops rest hs]
      have hv : ((0 * 10 + v / 100) * 10 + v / 10 % 10) * 10 + v % 10 = v := by omega
      have hne : digitChar (v / 100) ≠ '0' := digitChar_ne_zero _ ha (by omega)
      simp [h, hne]
      omega

theorem stops_dot (r : List Char) : stops ('.' :: r) := Or.inr ⟨'.', r, rfl, by decide⟩

theorem ParseIP_String (ip : IP) : ParseIP ip.String = some ip := by
  obtain ⟨a, b, c, d⟩ := ip
  simp only [ParseIP, IP.String, parseIPv4]
  rw [parseOctet_ubtoa a.val a.isLt _ (stops_dot _)]
  simp only [expectDot]
  rw [parseOctet_ubtoa b.val b.isLt _ (stops_dot _)]
  simp only [expectDot]
  rw [parseOctet_ubtoa c.val c.isLt _ (stops_dot _)]
  simp only [expectDot]
  have := parseOctet_ubtoa d.val d.isLt [] (Or.inl rfl)
  rw [List.append_nil] at this
  rw [this]
  simp

theorem IP.String_injective (a b : IP) (h : a.String = b.String) : a = b := by
  have := ParseIP_String a
  rw [h, ParseIP_String] at this
  exact (Option.some.inj this).symm

/-! ## The VXLAN manager -/

theorem macMatch_iff (hw : List Nat) (hlen : hw.length = broadcastMAC.length) :
    macMatch hw = true ↔ hw = broadcastMAC := by
  match hw, hlen with
  | [a, b, c, d, e, f], _ =>
    simp [macMatch, broadcastMAC, List.range, List.range.loop, List.getD]

theorem mem_setInsert {κ : Type} [DecidableEq κ] (s : List κ) (k x : κ) :
    x ∈ setInsert s k ↔ x ∈ s ∨ x = k := by
  unfold setInsert
  split
  · constructor
    · exact Or.inl
    · rintro (h | rfl)
      · exact h
      · assumption
  · simp

theorem nodup_setInsert {κ : Type} [DecidableEq κ] (s : List κ) (k : κ) (h : s.Nodup) :
    (setInsert s k).Nodup := by
  unfold setInsert
  split
  · exact h
  · rw [List.nodup_append]
    refine ⟨h, List.nodup_singleton k, ?_⟩
    intro a ha hb
    simp at hb
    subst hb
    contradiction

/-- What one step of the `currentFDB` loop adds, if anything. -/
theorem currentFDBStep_eq (res : List String) (n : Neigh) :
    currentFDBStep res n =
      match n.IP with
      | some ip => if n.HardwareAddr = some broadcastMAC then setInsert res ip.String else res
      | none => res := by
  unfold currentFDBStep
  cases hip : n.IP with
  | none => simp
  | some ip =>
    cases hhw : n.HardwareAddr with
    | none => simp
    | some hw =>
      by_cases hlen : hw.length = broadcastMAC.length
      · have := macMatch_iff hw hlen
        by_cases hm : hw = broadcastMAC
        · subst hm
          simp [(macMatch_iff broadcastMAC rfl).mpr rfl]
        · have h2 : macMatch hw = false := by
            cases h : macMatch hw
            · rfl
            · exact absurd (this.mp h) hm
          simp [hlen, h2, hm]
      · have hm : hw ≠ broadcastMAC := fun h => hlen (by rw [h])
        simp [hlen, hm]

theorem mem_foldl_currentFDBStep (l : List Neigh) (res : List String) (s : String) :
    s ∈ l.foldl currentFDBStep res ↔
      s ∈ res ∨ ∃ n ∈ l, n.HardwareAddr = some broadcastMAC ∧
        ∃ ip, n.IP = some ip ∧ s = ip.String := by
  induction l generalizing res with
  | nil => simp
  | cons n rest ih =>
    rw [List.foldl_cons, ih, currentFDBStep_eq]
    cases hip : n.IP with
    | none => simp [hip]
    | some ip =>
      by_cases hm : n.HardwareAddr = some broadcastMAC
      · simp only [hm, if_true, mem_setInsert, List.mem_cons, exists_eq_or_imp, hip,
          Option.some.injEq, true_and, exists_eq_left']
        tauto
      · simp [hm, hip]

theorem nodup_foldl_currentFDBStep (l : List Neigh) (res : List String) (h : res.Nodup) :
    (l.foldl currentFDBStep res).Nodup := by
  induction l generalizing res with
  | nil => exact h
  | cons n rest ih =>
    rw [List.foldl_cons]
    apply ih
    rw [currentFDBStep_eq]
    cases n.IP with
    | none => exact h
    | some ip =>
      dsimp only
      split
      · exact nodup_setInsert _ _ h
      · exact h

theorem mem_floodIPs (idx : Nat) (neigh : List Neigh) (ip : IP) :
    ip ∈ floodIPs idx neigh ↔
      ∃ n ∈ neigh, n.LinkIndex = idx ∧ n.Family = AF_BRIDGE ∧
        n.HardwareAddr = some broadcastMAC ∧ n.IP = some ip := by
  unfold floodIPs
  rw [List.mem_filterMap]
  constructor
  · rintro ⟨n, hn, h⟩
    split at h
    · next hc => exact ⟨n, hn, hc.1, hc.2.1, hc.2.2, h⟩
    · cases h
  · rintro ⟨n, hn, h1, h2, h3, h4⟩
    exact ⟨n, hn, by simp [h1, h2, h3, h4]⟩

/-- With a cached link, `currentFDB` succeeds and lists the text of the flood
destinations of that link. -/
theorem currentFDB_spec (m : Manager) (k : Kernel) (vx : Vxlan) (hl : m.link = some vx) :
    (m.currentFDB k).2 = none ∧ (m.currentFDB k).1.Nodup ∧
      ∀ s, s ∈ (m.currentFDB k).1 ↔ ∃ ip ∈ floodIPs vx.Index k.neigh, s = ip.String := by
  unfold Manager.currentFDB Kernel.NeighList
  simp only [hl]
  refine ⟨trivial, nodup_foldl_currentFDBStep _ _ List.nodup_nil, ?_⟩
  intro s
  rw [mem_foldl_currentFDBStep]
  simp only [List.not_mem_nil, false_or, List.mem_filter, Bool.and_eq_true, decide_eq_true_eq,
    mem_floodIPs]
  constructor
  · rintro ⟨n, ⟨hn, h1, h2⟩, h3, ip, h4, h5⟩
    exact ⟨ip, ⟨n, hn, h1, h2, h3, h4⟩, h5⟩
  · rintro ⟨ip, ⟨n, hn, h1, h2, h3, h4⟩, h5⟩
    exact ⟨n, ⟨hn, h1, h2⟩, h3, ip, h4, h5⟩

theorem FloodOnly.unchanged (k : Kernel) : FloodOnly k k :=
  ⟨rfl, rfl, [], by simp, by simp⟩

theorem FloodOnly.andThen {k k1 k2 : Kernel} (h1 : FloodOnly k k1) (h2 : FloodOnly k1 k2) :
    FloodOnly k k2 := by
  obtain ⟨a1, b1, n1, c1, d1⟩ := h1
  obtain ⟨a2, b2, n2, c2, d2⟩ := h2
  refine ⟨a2.trans a1, b2.trans b1, n1 ++ n2, by rw [c2, c1, List.append_assoc], ?_⟩
  intro c hc
  rcases List.mem_append.mp hc with h | h
  · exact d1 c h
  · exact d2 c h

theorem sameEntry_iff (n e : Neigh) :
    n.sameEntry e = true ↔ e.LinkIndex = n.LinkIndex ∧ e.Family = n.Family ∧
      e.HardwareAddr = n.HardwareAddr ∧ e.IP = n.IP := by
  simp [Neigh.sameEntry, and_assoc]

theorem NeighAppend_floodOnly (k : Kernel) (n : Neigh) (hn : n.zeroMAC = true) :
    FloodOnly k (k.NeighAppend n).1 := by
  unfold Kernel.NeighAppend
  split
  · exact ⟨rfl, rfl, [.NeighAppend n], rfl, by simpa [NetlinkCall.neigh] using hn⟩
  · refine ⟨rfl, ?_, [.NeighAppend n], rfl, by simpa [NetlinkCall.neigh] using hn⟩
    simp [List.filter_append, hn]

theorem NeighDel_floodOnly (k : Kernel) (n : Neigh) (hn : n.zeroMAC = true) :
    FloodOnly k (k.NeighDel n).1 := by
  unfold Kernel.NeighDel
  split
  · refine ⟨rfl, ?_, [.NeighDel n], rfl, by simpa [NetlinkCall.neigh] using hn⟩
    simp only [List.filter_filter]
    apply List.filter_congr
    intro e _
    cases hz : e.zeroMAC
    · have : n.sameEntry e = false := by
        cases hs : n.sameEntry e
        · rfl
        · have h1 := ((sameEntry_iff n e).mp hs).2.2.1
          simp only [Neigh.zeroMAC, decide_eq_true_eq, decide_eq_false_iff_not] at hn hz
          rw [h1] at hz
          exact absurd hn hz
      simp [this]
    · simp
  · exact ⟨rfl, rfl, [.NeighDel n], rfl, by simpa [NetlinkCall.neigh] using hn⟩

theorem add_floodOnly (m : Manager) (dst : String) (k : Kernel) :
    FloodOnly k (m.add dst k).1 := by
  unfold Manager.add
  cases ParseIP dst with
  | none => exact FloodOnly.unchanged k
  | some ip =>
    cases m.link with
    | none => exact FloodOnly.unchanged k
    | some link =>
      have h := NeighAppend_floodOnly k (floodEntry link.Index ip) (by simp [Neigh.zeroMAC, floodEntry])
      simp only [floodEntry] at h
      dsimp only
      split <;> simp_all

theorem del_floodOnly (m : Manager) (dst : String) (k : Kernel) :
    FloodOnly k (m.del dst k).1 := by
  unfold Manager.del
  cases ParseIP dst with
  | none => exact FloodOnly.unchanged k
  | some ip =>
    cases m.link with
    | none => exact FloodOnly.unchanged k
    | some link =>
      have h := NeighDel_floodOnly k (floodKey link.Index ip) (by simp [Neigh.zeroMAC, floodKey])
      simp only [floodKey] at h
      dsimp only
      split <;> simp_all

theorem addMissing_floodOnly (m : Manager) (current desired : List String) (k : Kernel) :
    FloodOnly k (m.addMissing current desired k).1 := by
  induction desired generalizing k with
  | nil => exact FloodOnly.unchanged k
  | cons dst rest ih =>
    unfold Manager.addMissing
    split
    · exact ih k
    · have h := add_floodOnly m dst k
      split
      · next k1 e heq => rw [heq] at h; exact h
      · next k1 heq => rw [heq] at h; exact h.andThen (ih k1)

theorem delStale_floodOnly (m : Manager) (desired l : List String) (k : Kernel) :
    FloodOnly k (m.delStale desired l k).1 := by
  induction l generalizing k with
  | nil => exact FloodOnly.unchanged k
  | cons dst rest ih =>
    unfold Manager.delStale
    split
    · exact ih k
    · have h := del_floodOnly m dst k
      split
      · next k1 e heq => rw [heq] at h; exact h
      · next k1 heq => rw [heq] at h; exact h.andThen (ih k1)

/-- Whatever the desired set and whatever happens on the way, `SyncFDB` changes
nothing but all-zero-MAC entries. -/
theorem SyncFDB_floodOnly (iter : List String → List String) (m : Manager)
    (desired : List String) (k : Kernel) :
    FloodOnly k (m.SyncFDB iter desired k).2.1 := by
  unfold Manager.SyncFDB
  split
  · exact FloodOnly.unchanged k
  · next m1 _ =>
    split
    · exact FloodOnly.unchanged k
    · next current _ =>
      have h1 := addMissing_floodOnly m1 current desired k
      split
      · next k1 e heq => rw [heq] at h1; exact h1
      · next k1 heq =>
        rw [heq] at h1
        have h2 := delStale_floodOnly m1 desired (iter current) k1
        split
        · next k2 e heq2 => rw [heq2] at h2; exact h1.andThen h2
        · next k2 heq2 => rw [heq2] at h2; exact h1.andThen h2

theorem add_eq (m : Manager) (k : Kernel) (vx : Vxlan) (hl : m.link = some vx) (ip : IP) :
    m.add ip.String k = ((k.NeighAppend (floodEntry vx.Index ip)).1, none) := by
  have h2 : (k.NeighAppend (floodEntry vx.Index ip)).2 = none := by
    unfold Kernel.NeighAppend
    split <;> rfl
  unfold Manager.add
  rw [ParseIP_String]
  simp only [hl]
  change (match k.NeighAppend (floodEntry vx.Index ip) with
    | (k1, some _) => (k1, some (Error.addFDB ip.String))
    | (k1, none) => (k1, none)) = _
  rcases hr : k.NeighAppend (floodEntry vx.Index ip) with ⟨k1, e⟩
  rw [hr] at h2
  simp only at h2
  subst h2
  rfl

theorem NeighAppend_calls (k : Kernel) (n : Neigh) :
    (k.NeighAppend n).1.calls = k.calls ++ [.NeighAppend n] := by
  unfold Kernel.NeighAppend
  split <;> rfl

theorem any_sameEntry_floodEntry (idx : Nat) (ip : IP) (neigh : List Neigh) :
    neigh.any (floodEntry idx ip).sameEntry = true ↔ ip ∈ floodIPs idx neigh := by
  rw [List.any_eq_true, mem_floodIPs]
  constructor
  · rintro ⟨e, he, hs⟩
    obtain ⟨h1, h2, h3, h4⟩ := (sameEntry_iff _ e).mp hs
    exact ⟨e, he, h1, h2, h3, h4⟩
  · rintro ⟨e, he, h1, h2, h3, h4⟩
    exact ⟨e, he, (sameEntry_iff _ e).mpr ⟨h1, h2, h3, h4⟩⟩

theorem any_sameEntry_floodKey (idx : Nat) (ip : IP) (neigh : List Neigh) :
    neigh.any (floodKey idx ip).sameEntry = true ↔ ip ∈ floodIPs idx neigh := by
  rw [List.any_eq_true, mem_floodIPs]
  constructor
  · rintro ⟨e, he, hs⟩
    obtain ⟨h1, h2, h3, h4⟩ := (sameEntry_iff _ e).mp hs
    exact ⟨e, he, h1, h2, h3, h4⟩
  · rintro ⟨e, he, h1, h2, h3, h4⟩
    exact ⟨e, he, (sameEntry_iff _ e).mpr ⟨h1, h2, h3, h4⟩⟩

theorem NeighAppend_floodIPs (k : Kernel) (idx : Nat) (ip ip1 : IP) :
    ip1 ∈ floodIPs idx (k.NeighAppend (floodEntry idx ip)).1.neigh ↔
      ip1 ∈ floodIPs idx k.neigh ∨ ip1 = ip := by
  unfold Kernel.NeighAppend
  split
  · next h =>
    have := (any_sameEntry_floodEntry idx ip k.neigh).mp h
    constructor
    · exact Or.inl
    · rintro (h1 | rfl)
      · exact h1
      · exact this
  · simp only [mem_floodIPs, List.mem_append, List.mem_singleton]
    constructor
    · rintro ⟨n, hn | rfl, h1, h2, h3, h4⟩
      · exact Or.inl ⟨n, hn, h1, h2, h3, h4⟩
      · right
        simp only [floodEntry, Option.some.injEq] at h4
        exact h4.symm
    · rintro (⟨n, hn, h⟩ | rfl)
      · exact ⟨n, Or.inl hn, h⟩
      · exact ⟨floodEntry idx ip1, Or.inr rfl, rfl, rfl, rfl, rfl⟩

theorem del_eq (m : Manager) (k : Kernel) (vx : Vxlan) (hl : m.link = some vx) (ip : IP)
    (hmem : ip ∈ floodIPs vx.Index k.neigh) :
    m.del ip.String k =
      ({ k with neigh := k.neigh.filter (fun e => !(floodKey vx.Index ip).sameEntry e),
                calls := k.calls ++ [.NeighDel (floodKey vx.Index ip)] }, none) := by
  unfold Manager.del
  rw [ParseIP_String]
  have h := (any_sameEntry_floodKey vx.Index ip k.neigh).mpr hmem
  simp only [floodKey] at h
  simp only [hl, floodKey]
  unfold Kernel.NeighDel
  rw [if_pos h]

theorem filter_floodKey_floodIPs (neigh : List Neigh) (idx : Nat) (ip ip1 : IP) :
    ip1 ∈ floodIPs idx (neigh.filter (fun e => !(floodKey idx ip).sameEntry e)) ↔
      ip1 ∈ floodIPs idx neigh ∧ ip1 ≠ ip := by
  simp only [mem_floodIPs, List.mem_filter, Bool.not_eq_true', ne_eq]
  constructor
  · rintro ⟨n, ⟨hn, hs⟩, h1, h2, h3, h4⟩
    refine ⟨⟨n, hn, h1, h2, h3, h4⟩, ?_⟩
    rintro rfl
    have : (floodKey idx ip1).sameEntry n = true := (sameEntry_iff _ n).mpr ⟨h1, h2, h3, h4⟩
    rw [this] at hs
    cases hs
  · rintro ⟨⟨n, hn, h1, h2, h3, h4⟩, hne⟩
    refine ⟨n, ⟨hn, ?_⟩, h1, h2, h3, h4⟩
    cases hs : (floodKey idx ip).sameEntry n
    · rfl
    · have h5 := ((sameEntry_iff _ n).mp hs).2.2.2
      rw [h4] at h5
      simp only [floodKey, Option.some.injEq] at h5
      exact absurd h5 hne

theorem mem_map_String (ip : IP) (l : List IP) : ip.String ∈ l.map IP.String ↔ ip ∈ l := by
  rw [List.mem_map]
  constructor
  · rintro ⟨a, ha, h⟩
    rw [← IP.String_injective a ip h]
    exact ha
  · intro h
    exact ⟨ip, h, rfl⟩

/-- The first loop of `SyncFDB` on canonical destinations: it succeeds, logs
one append per desired destination missing from `current`, and adds exactly
those to the flood destinations. -/
theorem addMissing_spec (m : Manager) (vx : Vxlan) (hl : m.link = some vx)
    (current : List String) (dips : List IP) (k : Kernel) :
    (m.addMissing current (dips.map IP.String) k).2 = none ∧
    (m.addMissing current (dips.map IP.String) k).1.calls = k.calls ++
      (dips.filter (fun ip => decide (ip.String ∉ current))).map
        (fun ip => NetlinkCall.NeighAppend (floodEntry vx.Index ip)) ∧
    ∀ ip1, ip1 ∈ floodIPs vx.Index (m.addMissing current (dips.map IP.String) k).1.neigh ↔
      ip1 ∈ floodIPs vx.Index k.neigh ∨ (ip1 ∈ dips ∧ ip1.String ∉ current) := by
  induction dips generalizing k with
  | nil => simp [Manager.addMissing]
  | cons ip rest ih =>
    rw [List.map_cons]
    unfold Manager.addMissing
    by_cases hc : ip.String ∈ current
    · rw [if_pos hc]
      obtain ⟨h1, h2, h3⟩ := ih k
      refine ⟨h1, ?_, ?_⟩
      · rw [h2]
        simp [List.filter_cons, hc]
      · intro ip1
        rw [h3]
        constructor
        · rintro (h | ⟨h, h'⟩)
          · exact Or.inl h
          · exact Or.inr ⟨List.mem_cons_of_mem _ h, h'⟩
        · rintro (h | ⟨h, h'⟩)
          · exact Or.inl h
          · rcases List.mem_cons.mp h with rfl | h
            · exact absurd hc h'
            · exact Or.inr ⟨h, h'⟩
    · rw [if_neg hc, add_eq m k vx hl ip]
      dsimp only
      obtain ⟨h1, h2, h3⟩ := ih (k.NeighAppend (floodEntry vx.Index ip)).1
      refine ⟨h1, ?_, ?_⟩
      · rw [h2, NeighAppend_calls]
        simp [List.filter_cons, hc]
      · intro ip1
        rw [h3, NeighAppend_floodIPs]
        constructor
        · rintro ((h | rfl) | ⟨h, h'⟩)
          · exact Or.inl h
          · exact Or.inr ⟨List.mem_cons_self _ _, hc⟩
          · exact Or.inr ⟨List.mem_cons_of_mem _ h, h'⟩
        · rintro (h | ⟨h, h'⟩)
          · exact Or.inl (Or.inl h)
          · rcases List.mem_cons.mp h with rfl | h
            · exact Or.inl (Or.inr rfl)
            · exact Or.inr ⟨h, h'⟩

/-- The second loop of `SyncFDB` over distinct destinations that are on the
link: it succeeds, logs one delete per destination not desired, and removes
exactly those from the flood destinations. -/
theorem delStale_spec (m : Manager) (vx : Vxlan) (hl : m.link = some vx)
    (desired : List String) (l : List IP) (k : Kernel) (hnd : l.Nodup)
    (hin : ∀ ip ∈ l, ip.String ∉ desired → ip ∈ floodIPs vx.Index k.neigh) :
    (m.delStale desired (l.map IP.String) k).2 = none ∧
    (m.delStale desired (l.map IP.String) k).1.calls = k.calls ++
      (l.filter (fun ip => decide (ip.String ∉ desired))).map
        (fun ip => NetlinkCall.NeighDel (floodKey vx.Index ip)) ∧
    ∀ ip1, ip1 ∈ floodIPs vx.Index (m.delStale desired (l.map IP.String) k).1.neigh ↔
      ip1 ∈ floodIPs vx.Index k.neigh ∧ ¬ (ip1 ∈ l ∧ ip1.String ∉ desired) := by
  induction l generalizing k with
  | nil => simp [Manager.delStale]
  | cons ip rest ih =>
    rw [List.map_cons]
    unfold Manager.delStale
    have hnd' := (List.nodup_cons.mp hnd).2
    have hnot := (List.nodup_cons.mp hnd).1
    by_cases hc : ip.String ∈ desired
    · rw [if_pos hc]
      obtain ⟨h1, h2, h3⟩ := ih k hnd' (fun a ha => hin a (List.mem_cons_of_mem _ ha))
      refine ⟨h1, ?_, ?_⟩
      · rw [h2]
        simp [List.filter_cons, hc]
      · intro ip1
        rw [h3]
        constructor
        · rintro ⟨h, h'⟩
          refine ⟨h, ?_⟩
          rintro ⟨hm, hd⟩
          rcases List.mem_cons.mp hm with rfl | hm
          · exact hd hc
          · exact h' ⟨hm, hd⟩
        · rintro ⟨h, h'⟩
          exact ⟨h, fun ⟨hm, hd⟩ => h' ⟨List.mem_cons_of_mem _ hm, hd⟩⟩
    · rw [if_neg hc, del_eq m k vx hl ip (hin ip (List.mem_cons_self _ _) hc)]
      dsimp only
      have hin' : ∀ a ∈ rest, a.String ∉ desired → a ∈ floodIPs vx.Index
          (k.neigh.filter (fun e => !(floodKey vx.Index ip).sameEntry e)) := by
        intro a ha hd
        rw [filter_floodKey_floodIPs]
        refine ⟨hin a (List.mem_cons_of_mem _ ha) hd, ?_⟩
        rintro rfl
        exact hnot ha
      obtain ⟨h1, h2, h3⟩ := ih
        { k with neigh := k.neigh.filter (fun e => !(floodKey vx.Index ip).sameEntry e),
                 calls := k.calls ++ [.NeighDel (floodKey vx.Index ip)] } hnd' hin'
      refine ⟨h1, ?_, ?_⟩
      · rw [h2]
        simp [List.filter_cons, hc]
      · intro ip1
        rw [h3, filter_floodKey_floodIPs]
        constructor
        · rintro ⟨⟨h, hne⟩, h'⟩
          refine ⟨h, ?_⟩
          rintro ⟨hm, hd⟩
          rcases List.mem_cons.mp hm with rfl | hm
          · exact hne rfl
          · exact h' ⟨hm, hd⟩
        · rintro ⟨h, h'⟩
          refine ⟨⟨h, ?_⟩, fun ⟨hm, hd⟩ => h' ⟨List.mem_cons_of_mem _ hm, hd⟩⟩
          rintro rfl
          exact h' ⟨List.mem_cons_self _ _, hc⟩

theorem map_String_filterMap_ParseIP (l : List String) (h : ∀ s ∈ l, ∃ ip : IP, s = ip.String) :
    (l.filterMap ParseIP).map IP.String = l := by
  induction l with
  | nil => rfl
  | cons s rest ih =>
    obtain ⟨ip, rfl⟩ := h s (List.mem_cons_self _ _)
    rw [List.filterMap_cons, ParseIP_String]
    simp only [List.map_cons]
    rw [ih (fun a ha => h a (List.mem_cons_of_mem _ ha))]

theorem LoadLink_vxlan (m : Manager) (k : Kernel) (vx : Vxlan)
    (hlink : k.LinkByName m.cfg.Device = .ok (.vxlan vx)) :
    m.LoadLink k = ({ m with link := some vx, linkOnce := true }, none) := by
  unfold Manager.LoadLink
  rw [hlink]

/-- A complete run of `SyncFDB` on a link that resolves, with canonical desired
destinations: the result, the calls it logs and the flood destinations
afterwards. -/
theorem SyncFDB_spec (iter : List String → List String) (hiter : ∀ l, (iter l).Perm l)
    (m : Manager) (k : Kernel) (vx : Vxlan)
    (hlink : k.LinkByName m.cfg.Device = .ok (.vxlan vx)) (dips : List IP) :
    ∃ (curIPs delIPs : List IP) (k2 : Kernel),
      m.SyncFDB iter (dips.map IP.String) k =
        ({ m with link := some vx, linkOnce := true }, k2, none) ∧
      (({ m with link := some vx, linkOnce := true } : Manager).currentFDB k).1
        = curIPs.map IP.String ∧
      curIPs.Nodup ∧
      (∀ ip, ip ∈ curIPs ↔ ip ∈ floodIPs vx.Index k.neigh) ∧
      delIPs.Perm (curIPs.filter (fun ip => decide (ip.String ∉ dips.map IP.String))) ∧
      k2.calls = k.calls ++
        (dips.filter (fun ip => decide (ip.String ∉ curIPs.map IP.String))).map
          (fun ip => NetlinkCall.NeighAppend (floodEntry vx.Index ip)) ++
        delIPs.map (fun ip => NetlinkCall.NeighDel (floodKey vx.Index ip)) ∧
      ∀ ip, ip ∈ floodIPs vx.Index k2.neigh ↔ ip ∈ dips := by
  obtain ⟨hc1, hc2, hc3⟩ :=
    currentFDB_spec ({ m with link := some vx, linkOnce := true } : Manager) k vx rfl
  generalize hm1 : ({ m with link := some vx, linkOnce := true } : Manager) = m1 at hc1 hc2 hc3
  have hl1 : m1.link = some vx := by rw [← hm1]
  generalize hcur : (m1.currentFDB k).1 = cur at hc2 hc3
  have hcanon : ∀ s ∈ cur, ∃ ip : IP, s = ip.String := fun s hs =>
    let ⟨ip, _, h⟩ := (hc3 s).mp hs
    ⟨ip, h⟩
  have hcurmap := map_String_filterMap_ParseIP cur hcanon
  have hitercanon : ∀ s ∈ iter cur, ∃ ip : IP, s = ip.String := fun s hs =>
    hcanon s ((hiter cur).mem_iff.mp hs)
  have hitermap := map_String_filterMap_ParseIP (iter cur) hitercanon
  have hcurnd : (cur.filterMap ParseIP).Nodup := by
    apply List.Nodup.of_map IP.String
    rw [hcurmap]
    exact hc2
  have hperm : ((iter cur).filterMap ParseIP).Perm (cur.filterMap ParseIP) :=
    (hiter cur).filterMap ParseIP
  have hiternd : ((iter cur).filterMap ParseIP).Nodup := hperm.nodup_iff.mpr hcurnd
  have hcurmem : ∀ ip, ip ∈ cur.filterMap ParseIP ↔ ip ∈ floodIPs vx.Index k.neigh := by
    intro ip
    rw [← mem_map_String, hcurmap, hc3]
    constructor
    · rintro ⟨ip1, h1, h2⟩
      rw [IP.String_injective _ _ h2]
      exact h1
    · intro h
      exact ⟨ip, h, rfl⟩
  obtain ⟨ha1, ha2, ha3⟩ := addMissing_spec m1 vx hl1 cur dips k
  generalize hk1 : m1.addMissing cur (dips.map IP.String) k = r1 at ha1 ha2 ha3
  obtain ⟨k1, e1⟩ := r1
  simp only at ha1 ha2 ha3
  subst ha1
  have hin : ∀ ip ∈ (iter cur).filterMap ParseIP, ip.String ∉ dips.map IP.String →
      ip ∈ floodIPs vx.Index k1.neigh := by
    intro ip hip _
    rw [ha3]
    exact Or.inl ((hcurmem ip).mp (hperm.mem_iff.mp hip))
  obtain ⟨hd1, hd2, hd3⟩ :=
    delStale_spec m1 vx hl1 (dips.map IP.String) ((iter cur).filterMap ParseIP) k1 hiternd hin
  rw [hitermap] at hd1 hd2 hd3
  generalize hk2 : m1.delStale (dips.map IP.String) (iter cur) k1 = r2 at hd1 hd2 hd3
  obtain ⟨k2, e2⟩ := r2
  simp only at hd1 hd2 hd3
  subst hd1
  refine ⟨cur.filterMap ParseIP,
    ((iter cur).filterMap ParseIP).filter (fun ip => decide (ip.String ∉ dips.map IP.String)),
    k2, ?_, hcurmap.symm, hcurnd, hcurmem, hperm.filter _, ?_, ?_⟩
  · unfold Manager.SyncFDB
    rw [LoadLink_vxlan m k vx hlink, hm1]
    simp only
    have hcf : m1.currentFDB k = (cur, none) := by
      rw [← hcur]
      exact Prod.ext rfl hc1
    rw [hcf]
    simp only
    rw [hk1]
    simp only
    rw [hk2]
  · rw [hd2, ha2, hcurmap]
  · intro ip
    rw [hd3, ha3]
    constructor
    · rintro ⟨h | ⟨h, _⟩, hn⟩
      · by_contra hnot
        apply hn
        refine ⟨hperm.mem_iff.mpr ((hcurmem ip).mpr h), ?_⟩
        rw [mem_map_String]
        exact hnot
      · exact h
    · intro h
      refine ⟨?_, fun ⟨_, hn⟩ => hn ((mem_map_String ip dips).mpr h)⟩
      by_cases hc : ip.String ∈ cur
      · left
        rw [← hcurmem, ← mem_map_String, hcurmap]
        exact hc
      · exact Or.inr ⟨h, hc⟩

/-! ## C1 and C2: reconciliation of the FDB -/

/-- C1 (FDB convergence).  For every desired set of canonical IPv4 strings
(the text of the addresses `dips`), every kernel state `k` in which the device
of the manager resolves as a VXLAN link, and every order `iter` in which the
map `current` is ranged over, `SyncFDB` returns without error and afterwards
`currentFDB` succeeds and yields exactly the desired strings. -/
theorem syncFDB_converges (iter : List String → List String)
    (hiter : ∀ l, (iter l).Perm l) (m : Manager) (k : Kernel) (vx : Vxlan)
    (hlink : k.LinkByName m.cfg.Device = .ok (.vxlan vx)) (dips : List IP) :
    (m.SyncFDB iter (dips.map IP.String) k).2.2 = none ∧
    ((m.SyncFDB iter (dips.map IP.String) k).1.currentFDB
      (m.SyncFDB iter (dips.map IP.String) k).2.1).2 = none ∧
    ∀ s, s ∈ ((m.SyncFDB iter (dips.map IP.String) k).1.currentFDB
      (m.SyncFDB iter (dips.map IP.String) k).2.1).1 ↔ s ∈ dips.map IP.String := by
  obtain ⟨curIPs, delIPs, k2, hrun, _, _, _, _, _, hfl⟩ :=
    SyncFDB_spec iter hiter m k vx hlink dips
  rw [hrun]
  obtain ⟨h1, _, h3⟩ :=
    currentFDB_spec ({ m with link := some vx, linkOnce := true } : Manager) k2 vx rfl
  refine ⟨rfl, h1, ?_⟩
  intro s
  rw [h3, List.mem_map]
  constructor
  · rintro ⟨ip, hip, rfl⟩
    exact ⟨ip, (hfl ip).mp hip, rfl⟩
  · rintro ⟨ip, hip, rfl⟩
    exact ⟨ip, (hfl ip).mpr hip, rfl⟩

/-- Witness of C1: the FDB of scenario 6 (a non-zero-MAC entry and a flood
entry for `10.0.0.9`), desired `10.0.0.10`, the map ranged over in reverse. -/
theorem syncFDB_converges_witness :
    exKernel.LinkByName exManager.cfg.Device = .ok (.vxlan exVxlan) ∧
    (exManager.SyncFDB List.reverse ([exPeer10].map IP.String) exKernel).2.2 = none ∧
    ((exManager.SyncFDB List.reverse ([exPeer10].map IP.String) exKernel).1.currentFDB
      (exManager.SyncFDB List.reverse ([exPeer10].map IP.String) exKernel).2.1).2 = none ∧
    ∀ s, s ∈ ((exManager.SyncFDB List.reverse ([exPeer10].map IP.String) exKernel).1.currentFDB
      (exManager.SyncFDB List.reverse ([exPeer10].map IP.String) exKernel).2.1).1 ↔
        s ∈ [exPeer10].map IP.String :=
  ⟨rfl, syncFDB_converges List.reverse (fun l => List.reverse_perm l) exManager exKernel
    exVxlan rfl [exPeer10]⟩

/-- The first loop of `SyncFDB` logs appends only. -/
theorem addMissing_calls (m : Manager) (current desired : List String) (k : Kernel) :
    ∃ ns : List Neigh,
      (m.addMissing current desired k).1.calls = k.calls ++ ns.map NetlinkCall.NeighAppend := by
  induction desired generalizing k with
  | nil => exact ⟨[], by simp [Manager.addMissing]⟩
  | cons dst rest ih =>
    unfold Manager.addMissing
    split
    · exact ih k
    · unfold Manager.add
      cases ParseIP dst with
      | none => exact ⟨[], by simp⟩
      | some ip =>
        cases m.link with
        | none => exact ⟨[], by simp⟩
        | some link =>
          dsimp only
          have hc := NeighAppend_calls k
            { LinkIndex := link.Index, State := NUD_PERMANENT, Family := AF_BRIDGE,
              Flags := NTF_SELF, IP := some ip, HardwareAddr := some broadcastMAC }
          rcases hr : k.NeighAppend
            { LinkIndex := link.Index, State := NUD_PERMANENT, Family := AF_BRIDGE,
              Flags := NTF_SELF, IP := some ip, HardwareAddr := some broadcastMAC } with ⟨k1, e⟩
          rw [hr] at hc
          cases e with
          | some e =>
            exact ⟨[floodEntry link.Index ip], by simpa [floodEntry] using hc⟩
          | none =>
            dsimp only
            obtain ⟨ns, hns⟩ := ih k1
            refine ⟨floodEntry link.Index ip :: ns, ?_⟩
            rw [hns]
            simp only at hc
            rw [hc]
            simp [floodEntry]

/-- The first loop of `SyncFDB` returns an error when a destination that is not
in `current` is not the text of an IP address. -/
theorem addMissing_invalid (m : Manager) (current desired : List String) (k : Kernel)
    (dst : String) (hd : dst ∈ desired) (hc : dst ∉ current) (hp : ParseIP dst = none) :
    (m.addMissing current desired k).2 ≠ none := by
  induction desired generalizing k with
  | nil => cases hd
  | cons d rest ih =>
    unfold Manager.addMissing
    by_cases hdc : d ∈ current
    · rw [if_pos hdc]
      rcases List.mem_cons.mp hd with heq | hin
      · exact absurd (heq ▸ hdc) hc
      · exact ih k hin
    · rw [if_neg hdc]
      rcases hr : m.add d k with ⟨k1, e⟩
      cases e with
      | some e => simp
      | none =>
        dsimp only
        rcases List.mem_cons.mp hd with heq | hin
        · subst heq
          unfold Manager.add at hr
          rw [hp] at hr
          cases hr
        · exact ih k1 hin

/-- When `LoadLink` fails, `SyncFDB` returns its error and does not touch the
kernel. -/
theorem SyncFDB_no_link (iter : List String → List String) (m : Manager)
    (desired : List String) (k : Kernel) (e : Error) (h : (m.LoadLink k).2 = some e) :
    (m.SyncFDB iter desired k).2.1 = k ∧ (m.SyncFDB iter desired k).2.2 = some e := by
  unfold Manager.SyncFDB
  rcases hr : m.LoadLink k with ⟨m1, e1⟩
  rw [hr] at h
  simp only at h
  subst h
  exact ⟨rfl, rfl⟩

/-- When the link resolves and a desired destination outside `current` is not
the text of an IP address, `SyncFDB` returns an error and logs appends only:
the deleting loop is not reached. -/
theorem SyncFDB_invalid (iter : List String → List String) (m : Manager)
    (desired : List String) (k : Kernel) (vx : Vxlan)
    (hlink : k.LinkByName m.cfg.Device = .ok (.vxlan vx))
    (dst : String) (hd : dst ∈ desired)
    (hc : dst ∉ ((m.LoadLink k).1.currentFDB k).1) (hp : ParseIP dst = none) :
    (m.SyncFDB iter desired k).2.2 ≠ none ∧
    ∃ ns : List Neigh,
      (m.SyncFDB iter desired k).2.1.calls = k.calls ++ ns.map NetlinkCall.NeighAppend := by
  unfold Manager.SyncFDB
  rw [LoadLink_vxlan m k vx hlink] at hc ⊢
  dsimp only
  rcases hcur : ({ m with link := some vx, linkOnce := true } : Manager).currentFDB k
    with ⟨current, e⟩
  rw [hcur] at hc
  cases e with
  | some e => exact ⟨by simp, [], by simp⟩
  | none =>
    dsimp only
    have h1 := addMissing_invalid { m with link := some vx, linkOnce := true } current desired k
      dst hd hc hp
    obtain ⟨ns, h2⟩ := addMissing_calls { m with link := some vx, linkOnce := true } current
      desired k
    rcases hr : ({ m with link := some vx, linkOnce := true } : Manager).addMissing current
      desired k with ⟨k1, e1⟩
    rw [hr] at h1 h2
    cases e1 with
    | none => exact absurd rfl h1
    | some e1 => exact ⟨by simp, ns, h2⟩

/-- C2 (only flood entries are touched).  For every desired set, every kernel
state and every iteration order, whatever `SyncFDB` does it changes nothing but
all-zero-MAC entries: every entry with another MAC is left as it was and every
call it issues is an append or a delete of an all-zero-MAC entry
(`FloodOnly`).  When moreover the device resolves as a VXLAN link and the
desired set is a set of canonical IPv4 strings (the text of the distinct
addresses `dips`), then with `current` the text of the distinct flood
destinations `curIPs` of the link, the calls it issues are: one append per
address of `dips` whose text is not in `current`, followed by one delete per
address of a permutation `delIPs` of the addresses of `curIPs` whose text is
not desired, and it returns no error.  When `LoadLink` fails (the device is
missing or is not a VXLAN link), it returns that error and issues no call.
When the device resolves and a desired destination outside `current` is not
the text of an IP address, it returns an error and issues appends only, no
delete. -/
theorem syncFDB_touches_only_flood_entries (iter : List String → List String) (m : Manager)
    (desired : List String) (k : Kernel) :
    FloodOnly k (m.SyncFDB iter desired k).2.1 ∧
    (∀ (vx : Vxlan) (dips : List IP), (∀ l, (iter l).Perm l) →
      k.LinkByName m.cfg.Device = .ok (.vxlan vx) →
      desired = dips.map IP.String → dips.Nodup →
      ∃ curIPs delIPs : List IP,
        ((m.LoadLink k).1.currentFDB k).1 = curIPs.map IP.String ∧
        curIPs.Nodup ∧
        (∀ ip, ip ∈ curIPs ↔ ip ∈ floodIPs vx.Index k.neigh) ∧
        delIPs.Perm (curIPs.filter (fun ip => decide (ip.String ∉ desired))) ∧
        (dips.filter (fun ip => decide (ip.String ∉ curIPs.map IP.String))).Nodup ∧
        delIPs.Nodup ∧
        (m.SyncFDB iter desired k).2.2 = none ∧
        (m.SyncFDB iter desired k).2.1.calls = k.calls ++
          (dips.filter (fun ip => decide (ip.String ∉ curIPs.map IP.String))).map
            (fun ip => NetlinkCall.NeighAppend (floodEntry vx.Index ip)) ++
          delIPs.map (fun ip => NetlinkCall.NeighDel (floodKey vx.Index ip))) ∧
    (∀ e, (m.LoadLink k).2 = some e →
      (m.SyncFDB iter desired k).2.1 = k ∧ (m.SyncFDB iter desired k).2.2 = some e) ∧
    (∀ (vx : Vxlan) (dst : String), k.LinkByName m.cfg.Device = .ok (.vxlan vx) →
      dst ∈ desired → dst ∉ ((m.LoadLink k).1.currentFDB k).1 → ParseIP dst = none →
      (m.SyncFDB iter desired k).2.2 ≠ none ∧
      ∃ ns : List Neigh,
        (m.SyncFDB iter desired k).2.1.calls = k.calls ++ ns.map NetlinkCall.NeighAppend) := by
  refine ⟨SyncFDB_floodOnly iter m desired k, ?_, SyncFDB_no_link iter m desired k,
    fun vx dst hlink hd hc hp => SyncFDB_invalid iter m desired k vx hlink dst hd hc hp⟩
  intro vx dips hiter hlink hdes hnd
  subst hdes
  obtain ⟨curIPs, delIPs, k2, hrun, hcur, hcnd, hcmem, hperm, hcalls, _⟩ :=
    SyncFDB_spec iter hiter m k vx hlink dips
  refine ⟨curIPs, delIPs, ?_, hcnd, hcmem, hperm, hnd.filter _, ?_, ?_, ?_⟩
  · rw [LoadLink_vxlan m k vx hlink]
    exact hcur
  · exact hperm.nodup_iff.mpr (hcnd.filter _)
  · rw [hrun]
  · rw [hrun]
    exact hcalls

/-- Witness of C2 on scenario 6: one append for `10.0.0.10`, one delete for
`10.0.0.9`, the non-zero-MAC entry untouched. -/
theorem syncFDB_touches_only_flood_entries_witness :
    (exManager.SyncFDB List.reverse ["10.0.0.10"] exKernel).2.1.calls =
      [NetlinkCall.NeighAppend (floodEntry 5 exPeer10),
       NetlinkCall.NeighDel (floodKey 5 exPeer9)] ∧
    (exManager.SyncFDB List.reverse ["10.0.0.10"] exKernel).2.1.neigh =
      [exUnicastEntry, floodEntry 5 exPeer10] ∧
    ∃ curIPs delIPs : List IP,
      ((exManager.LoadLink exKernel).1.currentFDB exKernel).1 = curIPs.map IP.String ∧
      curIPs.Nodup ∧
      (∀ ip, ip ∈ curIPs ↔ ip ∈ floodIPs exVxlan.Index exKernel.neigh) ∧
      delIPs.Perm (curIPs.filter (fun ip => decide (ip.String ∉ ["10.0.0.10"]))) ∧
      ([exPeer10].filter (fun ip => decide (ip.String ∉ curIPs.map IP.String))).Nodup ∧
      delIPs.Nodup ∧
      (exManager.SyncFDB List.reverse ["10.0.0.10"] exKernel).2.2 = none ∧
      (exManager.SyncFDB List.reverse ["10.0.0.10"] exKernel).2.1.calls = exKernel.calls ++
        ([exPeer10].filter (fun ip => decide (ip.String ∉ curIPs.map IP.String))).map
          (fun ip => NetlinkCall.NeighAppend (floodEntry exVxlan.Index ip)) ++
        delIPs.map (fun ip => NetlinkCall.NeighDel (floodKey exVxlan.Index ip)) :=
  ⟨by decide, by decide,
    (syncFDB_touches_only_flood_entries List.reverse exManager ["10.0.0.10"] exKernel).2.1
      exVxlan [exPeer10] (fun l => List.reverse_perm l) rfl (by decide) (by decide)⟩

/-- C2, where the statement fails.  On the kernel of scenario 6 (`current` is
`10.0.0.9`) with the desired set `<nil>` (the text of a nil prefix, which
`consumePaths` can put in a desired set): `10.0.0.9` is in `current` and not
desired and `<nil>` is desired and not in `current`, yet `SyncFDB` returns
"invalid dst ip" from the adding loop and issues neither a delete nor an
append.  With the desired set `10.0.0.10`, `<nil>` it appends `10.0.0.10` and
still deletes nothing.  With the device missing it returns "link not found"
and issues no call although `10.0.0.10` is desired. -/
theorem syncFDB_error_skips_delete :
    (exManager.LoadLink exKernel).1.currentFDB exKernel = (["10.0.0.9"], none) ∧
    "10.0.0.9" ∉ ["<nil>"] ∧
    netIPString none = "<nil>" ∧
    (exManager.SyncFDB (fun l => l) ["<nil>"] exKernel).2.2
      = some (Error.invalidDst "<nil>") ∧
    (exManager.SyncFDB (fun l => l) ["<nil>"] exKernel).2.1.calls = [] ∧
    (exManager.SyncFDB (fun l => l) ["<nil>"] exKernel).2.1.neigh = exKernel.neigh ∧
    (exManager.SyncFDB (fun l => l) ["10.0.0.10", "<nil>"] exKernel).2.2
      = some (Error.invalidDst "<nil>") ∧
    (exManager.SyncFDB (fun l => l) ["10.0.0.10", "<nil>"] exKernel).2.1.calls
      = [NetlinkCall.NeighAppend (floodEntry 5 exPeer10)] ∧
    (exManager.SyncFDB (fun l => l) ["10.0.0.10"] { exKernel with links := [] }).2.2
      = some Error.linkNotFound ∧
    (exManager.SyncFDB (fun l => l) ["10.0.0.10"] { exKernel with links := [] }).2.1.calls
      = [] := by
  refine ⟨by decide, by decide, rfl, by decide, by decide, by decide, by decide, by decide,
    by decide, by decide⟩

/-! ## Go maps -/

theorem mapGet_mapSet_self {ν : Type} (m : List (Nat × ν)) (k : Nat) (v : ν) :
    mapGet (mapSet m k v) k = some v := by
  induction m with
  | nil => simp [mapSet, mapGet]
  | cons e rest ih =>
    obtain ⟨k1, v1⟩ := e
    unfold mapSet
    by_cases h : k1 = k
    · simp [h, mapGet]
    · simp [h, mapGet, ih]

theorem mapGet_mapSet_ne {ν : Type} (m : List (Nat × ν)) (k k1 : Nat) (v : ν) (h : k1 ≠ k) :
    mapGet (mapSet m k v) k1 = mapGet m k1 := by
  induction m with
  | nil =>
    have : ¬ k = k1 := fun e => h e.symm
    simp [mapSet, mapGet, this]
  | cons e rest ih =>
    obtain ⟨k2, v2⟩ := e
    unfold mapSet
    by_cases h2 : k2 = k
    · subst h2
      have : ¬ k2 = k1 := fun e => h e.symm
      simp [mapGet, this]
    · by_cases h3 : k2 = k1
      · subst h3
        simp [h2, mapGet]
      · simp [h2, h3, mapGet, ih]

theorem mem_of_mapGet {ν : Type} (m : List (Nat × ν)) (k : Nat) (v : ν)
    (h : mapGet m k = some v) : (k, v) ∈ m := by
  induction m with
  | nil => simp [mapGet] at h
  | cons e rest ih =>
    obtain ⟨k1, v1⟩ := e
    unfold mapGet at h
    by_cases h1 : k1 = k
    · simp only [h1, if_true, Option.some.injEq] at h
      subst h1 h
      exact List.mem_cons_self _ _
    · simp only [h1, if_false] at h
      exact List.mem_cons_of_mem _ (ih h)

theorem mem_mapSet {ν : Type} (m : List (Nat × ν)) (k : Nat) (v : ν) (e : Nat × ν)
    (h : e ∈ mapSet m k v) : e ∈ m ∨ e = (k, v) := by
  induction m with
  | nil =>
    simp only [mapSet, List.mem_singleton] at h
    exact Or.inr h
  | cons e1 rest ih =>
    obtain ⟨k1, v1⟩ := e1
    unfold mapSet at h
    by_cases h1 : k1 = k
    · simp only [h1, if_true, List.mem_cons] at h
      rcases h with h | h
      · exact Or.inr h
      · exact Or.inl (List.mem_cons_of_mem _ h)
    · simp only [h1, if_false, List.mem_cons] at h
      rcases h with h | h
      · exact Or.inl (h ▸ List.mem_cons_self _ _)
      · rcases ih h with h | h
        · exact Or.inl (List.mem_cons_of_mem _ h)
        · exact Or.inr h

theorem mapSet_of_mapGet {ν : Type} (m : List (Nat × ν)) (k : Nat) (v : ν)
    (h : mapGet m k = some v) : mapSet m k v = m := by
  induction m with
  | nil => simp [mapGet] at h
  | cons e rest ih =>
    obtain ⟨k1, v1⟩ := e
    unfold mapGet at h
    unfold mapSet
    by_cases h1 : k1 = k
    · simp only [h1, if_true, Option.some.injEq] at h
      subst h1 h
      simp
    · simp only [h1, if_false] at h
      simp [h1, ih h]

theorem mapSet_mapSet {ν : Type} (m : List (Nat × ν)) (k : Nat) (v v1 : ν) :
    mapSet (mapSet m k v) k v1 = mapSet m k v1 := by
  induction m with
  | nil => simp [mapSet]
  | cons e rest ih =>
    obtain ⟨k1, v2⟩ := e
    by_cases h1 : k1 = k
    · simp [mapSet, h1]
    · simp [mapSet, h1, ih]

theorem mapGet_mapDelete_self {ν : Type} (m : List (Nat × ν)) (k : Nat) :
    mapGet (mapDelete m k) k = none := by
  induction m with
  | nil => rfl
  | cons e rest ih =>
    obtain ⟨k1, v1⟩ := e
    unfold mapDelete
    by_cases h1 : k1 = k
    · simp [h1, ih]
    · simp [h1, mapGet, ih]

theorem mapGet_mapDelete_ne {ν : Type} (m : List (Nat × ν)) (k k1 : Nat) (h : k1 ≠ k) :
    mapGet (mapDelete m k) k1 = mapGet m k1 := by
  induction m with
  | nil => rfl
  | cons e rest ih =>
    obtain ⟨k2, v2⟩ := e
    unfold mapDelete
    by_cases h2 : k2 = k
    · subst h2
      have : ¬ k2 = k1 := fun e => h e.symm
      simp [mapGet, this, ih]
    · by_cases h3 : k2 = k1
      · subst h3
        simp [h2, mapGet]
      · simp [h2, mapGet, h3, ih]

theorem mem_setDelete {κ : Type} [DecidableEq κ] (s : List κ) (k x : κ) :
    x ∈ setDelete s k ↔ x ∈ s ∧ x ≠ k := by
  simp [setDelete]

theorem setDelete_of_not_mem {κ : Type} [DecidableEq κ] (s : List κ) (k : κ) (h : k ∉ s) :
    setDelete s k = s := by
  unfold setDelete
  rw [List.filter_eq_self]
  intro x hx
  simp only [ne_eq, decide_eq_true_eq]
  rintro rfl
  exact h hx

theorem setInsert_of_mem {κ : Type} [DecidableEq κ] (s : List κ) (k : κ) (h : k ∈ s) :
    setInsert s k = s := by
  simp [setInsert, h]

/-! ## The route decoder `consumePaths` -/

/-- The update `consumePaths` applies to one set: removal on a withdrawal,
insertion otherwise. -/
theorem consumeComm_registered (c2v : List (Nat × VNIConfig)) (wd : Bool) (ip : String)
    (st : List (Nat × List String) × List Nat) (comm : Nat) (cfg : VNIConfig)
    (h : mapGet c2v comm = some cfg) :
    consumeComm c2v wd ip st comm =
      (mapSet st.1 cfg.ID
        (if wd then setDelete ((mapGet st.1 cfg.ID).getD []) ip
         else setInsert ((mapGet st.1 cfg.ID).getD []) ip),
       setInsert st.2 cfg.ID) := by
  unfold consumeComm
  rw [h]
  cases hg : mapGet st.1 cfg.ID with
  | none =>
    simp only [hg, mapGet_mapSet_self, Option.getD_some, Option.getD_none, mapSet_mapSet]
    cases wd <;> simp
  | some s =>
    simp only [hg, Option.getD_some]
    cases wd <;> simp

theorem consumeComm_unregistered (c2v : List (Nat × VNIConfig)) (wd : Bool) (ip : String)
    (st : List (Nat × List String) × List Nat) (comm : Nat)
    (h : mapGet c2v comm = none) : consumeComm c2v wd ip st comm = st := by
  unfold consumeComm
  rw [h]

/-- The running path of `consumePath`: an accepted path folds its communities. -/
theorem consumePath_accepted (a : Agent) (st : List (Nat × List String) × List Nat)
    (p : Path) (pfx : Option IP) (comms : List Nat)
    (hf : p.Family = some { Afi := Family_AFI_IP, Safi := Family_SAFI_UNICAST })
    (hn : p.Nlri = some (.IPAddrPrefix 32 pfx))
    (hl : netIPString pfx ≠ a.localIP.String)
    (hc : extractCommunities p = .ok comms) :
    consumePath a st (some p) =
      comms.foldl (consumeComm a.communityToVNI p.IsWithdraw (netIPString pfx)) st := by
  unfold consumePath
  simp [hf, hn, hl, hc]

/-- Whatever a path is, `consumePath` either leaves the state alone or folds
the communities of a /32 whose text differs from the local address. -/
theorem consumePath_cases (a : Agent) (st : List (Nat × List String) × List Nat)
    (p : Option Path) :
    consumePath a st p = st ∨
    ∃ (q : Path) (pfx : Option IP) (comms : List Nat), p = some q ∧
      q.Family = some { Afi := Family_AFI_IP, Safi := Family_SAFI_UNICAST } ∧
      q.Nlri = some (.IPAddrPrefix 32 pfx) ∧
      netIPString pfx ≠ a.localIP.String ∧ extractCommunities q = .ok comms ∧
      consumePath a st p =
        comms.foldl (consumeComm a.communityToVNI q.IsWithdraw (netIPString pfx)) st := by
  cases p with
  | none => exact Or.inl rfl
  | some q =>
    cases hf : q.Family with
    | none => left; simp [consumePath, hf]
    | some family =>
      by_cases hfam : family.Afi ≠ Family_AFI_IP ∨ family.Safi ≠ Family_SAFI_UNICAST
      · left; simp only [consumePath, hf, hfam, if_true]
      · have hfam2 : family = { Afi := Family_AFI_IP, Safi := Family_SAFI_UNICAST } := by
          obtain ⟨x, y⟩ := family
          simp only [ne_eq, not_or, not_not] at hfam
          simp only [Family.mk.injEq]
          exact hfam
        cases hn : q.Nlri with
        | none => left; simp [consumePath, hf, hfam, hn]
        | some nlri =>
          cases nlri with
          | other => left; simp [consumePath, hf, hfam, hn]
          | IPAddrPrefix length pfx =>
            by_cases hlen : length ≠ 32
            · left; simp [consumePath, hf, hfam, hn, hlen]
            · simp only [ne_eq, not_not] at hlen
              subst hlen
              by_cases hloc : netIPString pfx = a.localIP.String
              · left; simp [consumePath, hf, hfam, hn, hloc]
              · cases hc : extractCommunities q with
                | error e => left; simp [consumePath, hf, hfam, hn, hloc, hc]
                | ok comms =>
                  right
                  rw [hfam2] at hf
                  exact ⟨q, pfx, comms, rfl, hf, hn, hloc, hc,
                    consumePath_accepted a st q pfx comms hf hn hloc hc⟩

theorem consumeComm_noLocal (c2v : List (Nat × VNIConfig)) (wd : Bool) (ip loc : String)
    (hne : ip ≠ loc) (st : List (Nat × List String) × List Nat) (comm : Nat)
    (h : NoLocal loc st.1) : NoLocal loc (consumeComm c2v wd ip st comm).1 := by
  cases hreg : mapGet c2v comm with
  | none => rw [consumeComm_unregistered _ _ _ _ _ hreg]; exact h
  | some cfg =>
    rw [consumeComm_registered _ _ _ _ _ _ hreg]
    intro e he
    rcases mem_mapSet _ _ _ _ he with he | rfl
    · exact h e he
    · have hS : loc ∉ (mapGet st.1 cfg.ID).getD [] := by
        cases hg : mapGet st.1 cfg.ID with
        | none => simp
        | some s => exact h _ (mem_of_mapGet _ _ _ hg)
      dsimp only
      cases wd
      · simp only [Bool.false_eq_true, if_false, mem_setInsert]
        rintro (h1 | h1)
        · exact hS h1
        · exact hne h1.symm
      · simp only [if_true, mem_setDelete]
        exact fun h1 => hS h1.1

theorem foldl_consumeComm_noLocal (c2v : List (Nat × VNIConfig)) (wd : Bool) (ip loc : String)
    (hne : ip ≠ loc) (comms : List Nat) (st : List (Nat × List String) × List Nat)
    (h : NoLocal loc st.1) :
    NoLocal loc (comms.foldl (consumeComm c2v wd ip) st).1 := by
  induction comms generalizing st with
  | nil => exact h
  | cons c rest ih => exact ih _ (consumeComm_noLocal c2v wd ip loc hne st c h)

theorem consumePath_noLocal (a : Agent) (st : List (Nat × List String) × List Nat)
    (p : Option Path) (h : NoLocal a.localIP.String st.1) :
    NoLocal a.localIP.String (consumePath a st p).1 := by
  rcases consumePath_cases a st p with heq | ⟨q, pfx, comms, _, _, _, hloc, _, heq⟩
  · rw [heq]; exact h
  · rw [heq]
    exact foldl_consumeComm_noLocal _ _ _ _ hloc comms st h

theorem foldl_consumePath_noLocal (a : Agent) (paths : List (Option Path))
    (st : List (Nat × List String) × List Nat) (h : NoLocal a.localIP.String st.1) :
    NoLocal a.localIP.String (paths.foldl (consumePath a) st).1 := by
  induction paths generalizing st with
  | nil => exact h
  | cons p rest ih => exact ih _ (consumePath_noLocal a st p h)

theorem consumePaths_noLocal (a : Agent) (paths : List (Option Path))
    (desired : List (Nat × List String)) (h : NoLocal a.localIP.String desired) :
    NoLocal a.localIP.String (a.consumePaths paths desired).1 :=
  foldl_consumePath_noLocal a paths (desired, []) h

/-! ## C3: self-exclusion -/

/-- C3 (self-exclusion).  Starting from a `desired` map in which no set
contains the text of the agent's local IPv4 address, after any sequence of
path batches folded in by `consumePaths` (whatever the paths, local /32 with
registered communities included, and whatever the registry in force for each
batch) no set of `desired` contains it: neither any entry of the map nor what
a lookup `desired[v]` returns. -/
theorem desired_never_contains_local (a : Agent)
    (batches : List (List (Nat × VNIConfig) × List (Option Path)))
    (desired : List (Nat × List String)) (h : NoLocal a.localIP.String desired) :
    NoLocal a.localIP.String (consumeBatches a batches desired) ∧
    ∀ v s, mapGet (consumeBatches a batches desired) v = some s → a.localIP.String ∉ s := by
  have key : NoLocal a.localIP.String (consumeBatches a batches desired) := by
    unfold consumeBatches
    induction batches generalizing desired with
    | nil => exact h
    | cons b rest ih =>
      rw [List.foldl_cons]
      exact ih _ (consumePaths_noLocal ({ a with communityToVNI := b.1 } : Agent) b.2 desired h)
  exact ⟨key, fun v s hv => key _ (mem_of_mapGet _ _ _ hv)⟩

/-- Witness of C3: the local `10.0.0.1/32` is advertised and then withdrawn
with both registered communities, next to a real peer. -/
theorem desired_never_contains_local_witness :
    NoLocal exAgent.localIP.String [] ∧
    consumeBatches exAgent
      [(exAgent.communityToVNI,
        [some (exPath ⟨10, 0, 0, 1⟩ [4259840100, 4259840200] false),
         some (exPath ⟨10, 0, 0, 2⟩ [4259840100] false)]),
       (exAgent.communityToVNI,
        [some (exPath ⟨10, 0, 0, 1⟩ [4259840100, 4259840200] true)])] []
      = [(100, ["10.0.0.2"])] ∧
    (NoLocal exAgent.localIP.String (consumeBatches exAgent
      [(exAgent.communityToVNI,
        [some (exPath ⟨10, 0, 0, 1⟩ [4259840100, 4259840200] false),
         some (exPath ⟨10, 0, 0, 2⟩ [4259840100] false)]),
       (exAgent.communityToVNI,
        [some (exPath ⟨10, 0, 0, 1⟩ [4259840100, 4259840200] true)])] []) ∧
    ∀ v s, mapGet (consumeBatches exAgent
      [(exAgent.communityToVNI,
        [some (exPath ⟨10, 0, 0, 1⟩ [4259840100, 4259840200] false),
         some (exPath ⟨10, 0, 0, 2⟩ [4259840100] false)]),
       (exAgent.communityToVNI,
        [some (exPath ⟨10, 0, 0, 1⟩ [4259840100, 4259840200] true)])] []) v = some s →
      exAgent.localIP.String ∉ s) :=
  ⟨fun _ he => absurd he (List.not_mem_nil _), by decide,
    desired_never_contains_local exAgent _ [] (fun _ he => absurd he (List.not_mem_nil _))⟩

theorem consumeComm_settles (c2v : List (Nat × VNIConfig)) (wd : Bool) (ip : String)
    (st : List (Nat × List String) × List Nat) (comm : Nat) (cfg : VNIConfig)
    (h : mapGet c2v comm = some cfg) :
    Settled wd ip (consumeComm c2v wd ip st comm).1 cfg.ID ∧
    cfg.ID ∈ (consumeComm c2v wd ip st comm).2 := by
  rw [consumeComm_registered _ _ _ _ _ _ h]
  refine ⟨⟨_, mapGet_mapSet_self _ _ _, ?_, ?_⟩, (mem_setInsert _ _ _).mpr (Or.inr rfl)⟩
  · intro hw
    simp [hw, mem_setDelete]
  · intro hw
    simp [hw, mem_setInsert]

theorem consumeComm_settled_mono (c2v : List (Nat × VNIConfig)) (wd : Bool) (ip : String)
    (st : List (Nat × List String) × List Nat) (comm : Nat) (id : Nat)
    (h : Settled wd ip st.1 id) : Settled wd ip (consumeComm c2v wd ip st comm).1 id := by
  cases hreg : mapGet c2v comm with
  | none => rw [consumeComm_unregistered _ _ _ _ _ hreg]; exact h
  | some cfg =>
    by_cases hid : cfg.ID = id
    · subst hid
      exact (consumeComm_settles c2v wd ip st comm cfg hreg).1
    · rw [consumeComm_registered _ _ _ _ _ _ hreg]
      obtain ⟨s, hs, h1, h2⟩ := h
      refine ⟨s, ?_, h1, h2⟩
      dsimp only
      rw [mapGet_mapSet_ne _ _ _ _ (fun e => hid e.symm)]
      exact hs

theorem consumeComm_touched_mono (c2v : List (Nat × VNIConfig)) (wd : Bool) (ip : String)
    (st : List (Nat × List String) × List Nat) (comm : Nat) (id : Nat)
    (h : id ∈ st.2) : id ∈ (consumeComm c2v wd ip st comm).2 := by
  cases hreg : mapGet c2v comm with
  | none => rw [consumeComm_unregistered _ _ _ _ _ hreg]; exact h
  | some cfg =>
    rw [consumeComm_registered _ _ _ _ _ _ hreg]
    exact (mem_setInsert _ _ _).mpr (Or.inl h)

theorem consumeComm_fixed (c2v : List (Nat × VNIConfig)) (wd : Bool) (ip : String)
    (st : List (Nat × List String) × List Nat) (comm : Nat)
    (h : ∀ cfg, mapGet c2v comm = some cfg → Settled wd ip st.1 cfg.ID) :
    (consumeComm c2v wd ip st comm).1 = st.1 := by
  cases hreg : mapGet c2v comm with
  | none => rw [consumeComm_unregistered _ _ _ _ _ hreg]
  | some cfg =>
    rw [consumeComm_registered _ _ _ _ _ _ hreg]
    obtain ⟨s, hs, h1, h2⟩ := h cfg hreg
    dsimp only
    rw [hs, Option.getD_some]
    cases wd
    · simp only [Bool.false_eq_true, if_false]
      rw [setInsert_of_mem s ip (h2 rfl)]
      exact mapSet_of_mapGet _ _ _ hs
    · simp only [if_true]
      rw [setDelete_of_not_mem s ip (h1 rfl)]
      exact mapSet_of_mapGet _ _ _ hs

theorem foldl_consumeComm_mono (c2v : List (Nat × VNIConfig)) (wd : Bool) (ip : String)
    (comms : List Nat) (st : List (Nat × List String) × List Nat) (id : Nat) :
    (Settled wd ip st.1 id → Settled wd ip (comms.foldl (consumeComm c2v wd ip) st).1 id) ∧
    (id ∈ st.2 → id ∈ (comms.foldl (consumeComm c2v wd ip) st).2) := by
  induction comms generalizing st with
  | nil => exact ⟨fun h => h, fun h => h⟩
  | cons c rest ih =>
    rw [List.foldl_cons]
    exact ⟨fun h => (ih _).1 (consumeComm_settled_mono c2v wd ip st c id h),
      fun h => (ih _).2 (consumeComm_touched_mono c2v wd ip st c id h)⟩

/-- After the loop over the communities of a path, every registered community
of the path has had the update applied to the set of its VNI, and its VNI is
in the touched set. -/
theorem foldl_consumeComm_settles (c2v : List (Nat × VNIConfig)) (wd : Bool) (ip : String)
    (comms : List Nat) (st : List (Nat × List String) × List Nat)
    (c : Nat) (hc : c ∈ comms) (cfg : VNIConfig) (hreg : mapGet c2v c = some cfg) :
    Settled wd ip (comms.foldl (consumeComm c2v wd ip) st).1 cfg.ID ∧
    cfg.ID ∈ (comms.foldl (consumeComm c2v wd ip) st).2 := by
  induction comms generalizing st with
  | nil => cases hc
  | cons c0 rest ih =>
    rw [List.foldl_cons]
    rcases List.mem_cons.mp hc with rfl | hin
    · have h0 := consumeComm_settles c2v wd ip st c cfg hreg
      have hm := foldl_consumeComm_mono c2v wd ip rest (consumeComm c2v wd ip st c) cfg.ID
      exact ⟨hm.1 h0.1, hm.2 h0.2⟩
    · exact ih _ hin

theorem foldl_consumeComm_fixed (c2v : List (Nat × VNIConfig)) (wd : Bool) (ip : String)
    (comms : List Nat) (st : List (Nat × List String) × List Nat)
    (h : ∀ c ∈ comms, ∀ cfg, mapGet c2v c = some cfg → Settled wd ip st.1 cfg.ID) :
    (comms.foldl (consumeComm c2v wd ip) st).1 = st.1 := by
  induction comms generalizing st with
  | nil => rfl
  | cons c rest ih =>
    rw [List.foldl_cons]
    have h1 := consumeComm_fixed c2v wd ip st c (h c (List.mem_cons_self _ _))
    rw [ih (consumeComm c2v wd ip st c)
      (fun c1 hc1 cfg hreg => h1 ▸ h c1 (List.mem_cons_of_mem _ hc1) cfg hreg)]
    exact h1

/-- A batch of one path is one run of the loop body. -/
theorem consumePaths_single (a : Agent) (p : Option Path) (desired : List (Nat × List String)) :
    a.consumePaths [p] desired = consumePath a (desired, []) p := rfl

/-! ## C4: withdrawal idempotence -/

/-- C4 (withdrawal idempotence).  For every agent (so every registry), every
`desired` map and every withdrawal path `p`, consuming the batch `[p]` a second
time leaves `desired` exactly as the first time left it. -/
theorem withdrawal_idempotent (a : Agent) (desired : List (Nat × List String)) (p : Path)
    (hw : p.IsWithdraw = true) :
    (a.consumePaths [some p] (a.consumePaths [some p] desired).1).1 =
      (a.consumePaths [some p] desired).1 := by
  rw [consumePaths_single, consumePaths_single]
  rcases consumePath_cases a (desired, []) (some p) with heq | ⟨q, pfx, comms, hq, hf, hn, hloc, hc, heq⟩
  · rw [heq]
    simp only
    rw [heq]
  · cases hq
    rw [heq, consumePath_accepted a _ p pfx comms hf hn hloc hc, hw]
    apply foldl_consumeComm_fixed
    intro c hcm cfg hreg
    exact (foldl_consumeComm_settles a.communityToVNI true (netIPString pfx) comms (desired, [])
      c hcm cfg hreg).1

/-- Witness of C4: withdrawing `10.0.0.2` from VNI 100 twice. -/
theorem withdrawal_idempotent_witness :
    (exPath ⟨10, 0, 0, 2⟩ [4259840100] true).IsWithdraw = true ∧
    (exAgent.consumePaths [some (exPath ⟨10, 0, 0, 2⟩ [4259840100] true)]
      [(100, ["10.0.0.2", "10.0.0.3"])]).1 = [(100, ["10.0.0.3"])] ∧
    (exAgent.consumePaths [some (exPath ⟨10, 0, 0, 2⟩ [4259840100] true)]
      (exAgent.consumePaths [some (exPath ⟨10, 0, 0, 2⟩ [4259840100] true)]
        [(100, ["10.0.0.2", "10.0.0.3"])]).1).1 =
      (exAgent.consumePaths [some (exPath ⟨10, 0, 0, 2⟩ [4259840100] true)]
        [(100, ["10.0.0.2", "10.0.0.3"])]).1 :=
  ⟨rfl, by decide,
    withdrawal_idempotent exAgent [(100, ["10.0.0.2", "10.0.0.3"])]
      (exPath ⟨10, 0, 0, 2⟩ [4259840100] true) rfl⟩

/-! ## C5: community fan-out -/

/-- Applying the update of a path to a set a second time changes nothing. -/
theorem setUpdate_idem (wd : Bool) (ip : String) (s : List String) :
    (if wd then setDelete (if wd then setDelete s ip else setInsert s ip) ip
     else setInsert (if wd then setDelete s ip else setInsert s ip) ip) =
      (if wd then setDelete s ip else setInsert s ip) := by
  cases wd
  · simp only [Bool.false_eq_true, if_false]
    exact setInsert_of_mem _ _ ((mem_setInsert _ _ _).mpr (Or.inr rfl))
  · simp only [if_true]
    exact setDelete_of_not_mem _ _ (fun h => ((mem_setDelete _ _ _).mp h).2 rfl)

/-- A set on which the update of the path changes nothing is left as it is by
one turn of the loop over the communities. -/
theorem consumeComm_stable (c2v : List (Nat × VNIConfig)) (wd : Bool) (ip : String)
    (st : List (Nat × List String) × List Nat) (comm : Nat) (id : Nat) (t : List String)
    (ht : mapGet st.1 id = some t)
    (hfix : (if wd then setDelete t ip else setInsert t ip) = t) :
    mapGet (consumeComm c2v wd ip st comm).1 id = some t := by
  cases hreg : mapGet c2v comm with
  | none => rw [consumeComm_unregistered _ _ _ _ _ hreg]; exact ht
  | some cfg =>
    rw [consumeComm_registered _ _ _ _ _ _ hreg]
    dsimp only
    by_cases hid : cfg.ID = id
    · rw [hid, mapGet_mapSet_self, ht, Option.getD_some, hfix]
    · rw [mapGet_mapSet_ne _ _ _ _ (fun e => hid e.symm)]
      exact ht

theorem foldl_consumeComm_stable (c2v : List (Nat × VNIConfig)) (wd : Bool) (ip : String)
    (comms : List Nat) (st : List (Nat × List String) × List Nat) (id : Nat) (t : List String)
    (ht : mapGet st.1 id = some t)
    (hfix : (if wd then setDelete t ip else setInsert t ip) = t) :
    mapGet (comms.foldl (consumeComm c2v wd ip) st).1 id = some t := by
  induction comms generalizing st with
  | nil => exact ht
  | cons c rest ih =>
    rw [List.foldl_cons]
    exact ih _ (consumeComm_stable c2v wd ip st c id t ht hfix)

/-- After the loop over the communities of a path, the set of the VNI of every
registered community of the path is the set it was before with the address
inserted (advertisement) or removed (withdrawal); a VNI with no set before
counts as the empty set. -/
theorem foldl_consumeComm_exact (c2v : List (Nat × VNIConfig)) (wd : Bool) (ip : String)
    (comms : List Nat) (st : List (Nat × List String) × List Nat)
    (c : Nat) (hc : c ∈ comms) (cfg : VNIConfig) (hreg : mapGet c2v c = some cfg) :
    mapGet (comms.foldl (consumeComm c2v wd ip) st).1 cfg.ID =
      some (if wd then setDelete ((mapGet st.1 cfg.ID).getD []) ip
            else setInsert ((mapGet st.1 cfg.ID).getD []) ip) := by
  induction comms generalizing st with
  | nil => cases hc
  | cons c0 rest ih =>
    rw [List.foldl_cons]
    cases hreg0 : mapGet c2v c0 with
    | none =>
      rw [consumeComm_unregistered _ _ _ _ _ hreg0]
      rcases List.mem_cons.mp hc with heq | hin
      · rw [heq, hreg0] at hreg
        cases hreg
      · exact ih st hin
    | some cfg0 =>
      by_cases hid : cfg0.ID = cfg.ID
      · apply foldl_consumeComm_stable
        · rw [consumeComm_registered _ _ _ _ _ _ hreg0]
          dsimp only
          rw [hid, mapGet_mapSet_self]
        · exact setUpdate_idem wd ip _
      · rcases List.mem_cons.mp hc with heq | hin
        · rw [heq, hreg0] at hreg
          cases hreg
          exact absurd rfl hid
        · have h := ih (consumeComm c2v wd ip st c0) hin
          rw [h, consumeComm_registered _ _ _ _ _ _ hreg0]
          dsimp only
          rw [mapGet_mapSet_ne _ _ _ _ (fun e => hid e.symm)]

/-- C5 (community fan-out).  For every accepted path `p` (IPv4 unicast, /32,
prefix text different from the local address, communities extracted) that
carries two communities `c1` and `c2` registered to the VNI configurations
`cfg1` and `cfg2`, consuming the batch `[p]` applies the same update to both
VNIs: both ids are in the returned touched set, and the set of each of the two
VNIs afterwards is the set it was before (the empty set when there was none)
with the address inserted when `p` is an advertisement and removed when `p` is
a withdrawal.  So the address is in both sets after an advertisement and in
neither after a withdrawal, and every other member of either set is kept and
none is added. -/
theorem community_fan_out (a : Agent) (desired : List (Nat × List String)) (p : Path)
    (pfx : Option IP) (comms : List Nat) (c1 c2 : Nat) (cfg1 cfg2 : VNIConfig)
    (hf : p.Family = some { Afi := Family_AFI_IP, Safi := Family_SAFI_UNICAST })
    (hn : p.Nlri = some (.IPAddrPrefix 32 pfx))
    (hl : netIPString pfx ≠ a.localIP.String)
    (hc : extractCommunities p = .ok comms)
    (h1 : c1 ∈ comms) (h2 : c2 ∈ comms)
    (hr1 : mapGet a.communityToVNI c1 = some cfg1)
    (hr2 : mapGet a.communityToVNI c2 = some cfg2) :
    cfg1.ID ∈ (a.consumePaths [some p] desired).2 ∧
    cfg2.ID ∈ (a.consumePaths [some p] desired).2 ∧
    mapGet (a.consumePaths [some p] desired).1 cfg1.ID =
      some (if p.IsWithdraw then setDelete ((mapGet desired cfg1.ID).getD []) (netIPString pfx)
            else setInsert ((mapGet desired cfg1.ID).getD []) (netIPString pfx)) ∧
    mapGet (a.consumePaths [some p] desired).1 cfg2.ID =
      some (if p.IsWithdraw then setDelete ((mapGet desired cfg2.ID).getD []) (netIPString pfx)
            else setInsert ((mapGet desired cfg2.ID).getD []) (netIPString pfx)) ∧
    ∃ s1 s2, mapGet (a.consumePaths [some p] desired).1 cfg1.ID = some s1 ∧
      mapGet (a.consumePaths [some p] desired).1 cfg2.ID = some s2 ∧
      (p.IsWithdraw = false → netIPString pfx ∈ s1 ∧ netIPString pfx ∈ s2) ∧
      (p.IsWithdraw = true → netIPString pfx ∉ s1 ∧ netIPString pfx ∉ s2) ∧
      (p.IsWithdraw = false → ∀ x,
        (x ∈ s1 ↔ x ∈ (mapGet desired cfg1.ID).getD [] ∨ x = netIPString pfx) ∧
        (x ∈ s2 ↔ x ∈ (mapGet desired cfg2.ID).getD [] ∨ x = netIPString pfx)) ∧
      (p.IsWithdraw = true → ∀ x,
        (x ∈ s1 ↔ x ∈ (mapGet desired cfg1.ID).getD [] ∧ x ≠ netIPString pfx) ∧
        (x ∈ s2 ↔ x ∈ (mapGet desired cfg2.ID).getD [] ∧ x ≠ netIPString pfx)) := by
  rw [consumePaths_single, consumePath_accepted a _ p pfx comms hf hn hl hc]
  obtain ⟨_, ht1⟩ := foldl_consumeComm_settles a.communityToVNI p.IsWithdraw
    (netIPString pfx) comms (desired, []) c1 h1 cfg1 hr1
  obtain ⟨_, ht2⟩ := foldl_consumeComm_settles a.communityToVNI p.IsWithdraw
    (netIPString pfx) comms (desired, []) c2 h2 cfg2 hr2
  have he1 := foldl_consumeComm_exact a.communityToVNI p.IsWithdraw (netIPString pfx) comms
    (desired, []) c1 h1 cfg1 hr1
  have he2 := foldl_consumeComm_exact a.communityToVNI p.IsWithdraw (netIPString pfx) comms
    (desired, []) c2 h2 cfg2 hr2
  refine ⟨ht1, ht2, he1, he2, _, _, he1, he2, ?_, ?_, ?_, ?_⟩
  · intro h
    simp [h, mem_setInsert]
  · intro h
    simp [h, mem_setDelete]
  · intro h x
    simp [h, mem_setInsert]
  · intro h x
    simp [h, mem_setDelete]

/-- Witness of C5: scenario 3, `10.0.0.3/32` with communities `65000:100` and
`65000:200`, consumed when VNI 100 already floods to `10.0.0.2` and VNI 200 has
no set yet: `10.0.0.3` joins both sets and `10.0.0.2` stays in the set of VNI
100. -/
theorem community_fan_out_witness :
    (exAgent.consumePaths [some (exPath ⟨10, 0, 0, 3⟩ [4259840100, 4259840200] false)]
        [(100, ["10.0.0.2"])]) =
      ([(100, ["10.0.0.2", "10.0.0.3"]), (200, ["10.0.0.3"])], [100, 200]) ∧
    (exAgent.consumePaths [some (exPath ⟨10, 0, 0, 3⟩ [4259840100, 4259840200] true)]
        [(100, ["10.0.0.2", "10.0.0.3"]), (200, ["10.0.0.3"])]) =
      ([(100, ["10.0.0.2"]), (200, [])], [100, 200]) ∧
    mapGet (exAgent.consumePaths
        [some (exPath ⟨10, 0, 0, 3⟩ [4259840100, 4259840200] false)]
        [(100, ["10.0.0.2"])]).1 100 =
      some (setInsert ["10.0.0.2"] "10.0.0.3") ∧
    mapGet (exAgent.consumePaths
        [some (exPath ⟨10, 0, 0, 3⟩ [4259840100, 4259840200] false)]
        [(100, ["10.0.0.2"])]).1 200 =
      some (setInsert [] "10.0.0.3") :=
  have h := community_fan_out exAgent [(100, ["10.0.0.2"])]
      (exPath ⟨10, 0, 0, 3⟩ [4259840100, 4259840200] false)
      (some ⟨10, 0, 0, 3⟩) [4259840100, 4259840200] 4259840100 4259840200
      { ID := 100, Community := "65000:100", Device := "vxlan100", UnderlayInterface := "eth0" }
      { ID := 200, Community := "65000:200", Device := "vxlan200", UnderlayInterface := "eth0" }
      rfl rfl (by decide) rfl (by decide) (by decide) rfl rfl
  ⟨by decide, by decide, h.2.2.1, h.2.2.2.1⟩

/-! ## C6: the filter -/

theorem consumePath_filtered (a : Agent) (st : List (Nat × List String) × List Nat)
    (p : Option Path) (h : a.filtersOut p) : consumePath a st p = st := by
  rcases consumePath_cases a st p with heq | ⟨q, pfx, comms, hq, hf, hn, hloc, hc, heq⟩
  · exact heq
  · subst hq
    rw [heq]
    simp only [Agent.filtersOut] at h
    rcases h with h | h | ⟨len, pfx1, h, h'⟩ | h
    · exact absurd hf h
    · exact absurd hn (h pfx)
    · rw [hn] at h
      simp only [Option.some.injEq, Nlri.IPAddrPrefix.injEq] at h
      rw [← h.2] at h'
      exact absurd h' hloc
    · have hco : communitiesOf q = comms := by simp [communitiesOf, hc]
      rw [hco] at h
      clear heq hco hc
      induction comms generalizing st with
      | nil => rfl
      | cons c rest ih =>
        rw [List.foldl_cons, consumeComm_unregistered _ _ _ _ _ (h c (List.mem_cons_self _ _))]
        exact ih st (fun c1 hc1 => h c1 (List.mem_cons_of_mem _ hc1))

/-- C6 (community filter).  For every batch in which each path is filtered out
(nil, or family not IPv4 unicast, or NLRI not a /32 prefix, or prefix equal to
the local address, or no community that is a key of `communityToVNI`, the case
of no communities included), `consumePaths` returns an empty touched set and
leaves `desired` unchanged. -/
theorem filtered_batch_touches_nothing (a : Agent) (paths : List (Option Path))
    (desired : List (Nat × List String)) (h : ∀ p ∈ paths, a.filtersOut p) :
    a.consumePaths paths desired = (desired, []) := by
  unfold Agent.consumePaths
  induction paths with
  | nil => rfl
  | cons p rest ih =>
    rw [List.foldl_cons, consumePath_filtered a _ p (h p (List.mem_cons_self _ _))]
    exact ih (fun q hq => h q (List.mem_cons_of_mem _ hq))

/-- Witness of C6: a batch of six filtered paths leaves a non-empty `desired`
as it is. -/
theorem filtered_batch_touches_nothing_witness :
    (∀ p ∈ exFilteredBatch, exAgent.filtersOut p) ∧
    exAgent.consumePaths exFilteredBatch [(100, ["10.0.0.2"])] = ([(100, ["10.0.0.2"])], []) :=
  have h : ∀ p ∈ exFilteredBatch, exAgent.filtersOut p := by
    intro p hp
    simp only [exFilteredBatch, List.mem_cons, List.mem_singleton, List.not_mem_nil,
      or_false] at hp
    rcases hp with rfl | rfl | rfl | rfl | rfl | rfl
    · trivial
    · exact Or.inl (by decide)
    · exact Or.inr (Or.inl (fun pfx => by simp [exPath]))
    · exact Or.inr (Or.inr (Or.inl ⟨32, some ⟨10, 0, 0, 1⟩, rfl, by decide⟩))
    · exact Or.inr (Or.inr (Or.inr (by decide)))
    · exact Or.inr (Or.inr (Or.inr (by decide)))
  ⟨h, filtered_batch_touches_nothing exAgent exFilteredBatch [(100, ["10.0.0.2"])] h⟩

/-! ## Communities: formatting and parsing -/

theorem isDigit_natDigitChar (d : Nat) (h : d < 10) :
    isDigit (Nat.digitChar d) = true ∧ (Nat.digitChar d).toNat - 48 = d := by
  interval_cases d <;> exact ⟨rfl, rfl⟩

theorem digitsValue_append (l : List Char) (c : Char) :
    digitsValue (l ++ [c]) = digitsValue l * 10 + (c.toNat - 48) := by
  simp [digitsValue, List.foldl_append]

/-- The decimal text `Nat.toDigits` produces: in front of the accumulator it
puts a non-empty run of digits whose value is the number. -/
theorem toDigitsCore_spec (fuel n : Nat) (ds : List Char) (h : n < fuel) :
    ∃ pre, Nat.toDigitsCore 10 fuel n ds = pre ++ ds ∧ pre ≠ [] ∧
      (∀ c ∈ pre, isDigit c = true) ∧ digitsValue pre = n := by
  induction fuel generalizing n ds with
  | zero => omega
  | succ fuel ih =>
    have hd := isDigit_natDigitChar (n % 10) (Nat.mod_lt _ (by decide))
    unfold Nat.toDigitsCore
    by_cases h0 : n / 10 = 0
    · simp only [h0, if_true]
      refine ⟨[Nat.digitChar (n % 10)], rfl, by simp, ?_, ?_⟩
      · intro c hc
        rw [List.mem_singleton.mp hc]
        exact hd.1
      · simp only [digitsValue, List.foldl_cons, List.foldl_nil, hd.2]
        omega
    · simp only [h0, if_false]
      obtain ⟨pre, h1, h2, h3, h4⟩ := ih (n / 10) (Nat.digitChar (n % 10) :: ds) (by omega)
      refine ⟨pre ++ [Nat.digitChar (n % 10)], ?_, by simp, ?_, ?_⟩
      · rw [h1]
        simp
      · intro c hc
        rcases List.mem_append.mp hc with hc | hc
        · exact h3 c hc
        · rw [List.mem_singleton.mp hc]
          exact hd.1
      · rw [digitsValue_append, h4, hd.2]
        omega

theorem toDigits_spec (n : Nat) :
    Nat.toDigits 10 n ≠ [] ∧ (∀ c ∈ Nat.toDigits 10 n, isDigit c = true) ∧
      digitsValue (Nat.toDigits 10 n) = n := by
  obtain ⟨pre, h1, h2, h3, h4⟩ := toDigitsCore_spec (n + 1) n [] (Nat.lt_succ_self n)
  unfold Nat.toDigits
  rw [h1, List.append_nil]
  exact ⟨h2, h3, h4⟩

theorem ParseUint_toDigits (n bitSize : Nat) :
    ParseUint (Nat.toDigits 10 n) bitSize = if n < 2 ^ bitSize then some n else none := by
  obtain ⟨h1, h2, h3⟩ := toDigits_spec n
  unfold ParseUint
  rw [if_neg h1, h3]
  have : (Nat.toDigits 10 n).all isDigit = true := List.all_eq_true.mpr h2
  rw [if_pos this]

theorem splitOn_cons_ne (sep c : Char) (l : List Char) (h : c ≠ sep) :
    splitOn sep (c :: l) =
      match splitOn sep l with
      | [] => [[c]]
      | f :: fs => (c :: f) :: fs := by
  rw [splitOn, if_neg h]

theorem splitOn_no_sep (sep : Char) (l : List Char) (h : ∀ c ∈ l, c ≠ sep) :
    splitOn sep l = [l] := by
  induction l with
  | nil => rfl
  | cons c rest ih =>
    rw [splitOn_cons_ne sep c rest (h c (List.mem_cons_self _ _)),
      ih (fun x hx => h x (List.mem_cons_of_mem _ hx))]

theorem splitOn_append (sep : Char) (l r : List Char) (h : ∀ c ∈ l, c ≠ sep) :
    splitOn sep (l ++ sep :: r) = l :: splitOn sep r := by
  induction l with
  | nil => rw [List.nil_append, splitOn, if_pos rfl]
  | cons c rest ih =>
    rw [List.cons_append, splitOn_cons_ne sep c _ (h c (List.mem_cons_self _ _)),
      ih (fun x hx => h x (List.mem_cons_of_mem _ hx))]

theorem isDigit_ne_colon (c : Char) (h : isDigit c = true) : c ≠ ':' := by
  rintro rfl
  revert h
  decide

/-- What `ParseCommunity` makes of a community derived with `"%d:%d"`. -/
theorem ParseCommunity_sprintf (asn vni : Nat) :
    ParseCommunity (sprintfCommunity asn vni) =
      if asn < 65536 then
        if vni < 65536 then .ok ((asn <<< 16 ||| vni) % 2 ^ 32) else .error .communityValue
      else .error .communityASN := by
  unfold ParseCommunity sprintfCommunity
  simp only
  rw [splitOn_append ':' _ _ (fun c hc => isDigit_ne_colon c ((toDigits_spec asn).2.1 c hc)),
    splitOn_no_sep ':' _ (fun c hc => isDigit_ne_colon c ((toDigits_spec vni).2.1 c hc))]
  simp only [ParseUint_toDigits]
  by_cases h1 : asn < 65536
  · by_cases h2 : vni < 65536
    · simp [h1, h2]
    · simp [h1, h2]
  · simp [h1]

theorem shiftLeft_or_eq (asn vni : Nat) (h : vni < 65536) :
    asn <<< 16 ||| vni = 65536 * asn + vni := by
  rw [Nat.shiftLeft_eq, Nat.mul_comm]
  exact (Nat.mul_add_lt_is_or (i := 16) h asn).symm

/-- Communities derived from one ASN and two VNIs are equal only when the VNIs
are. -/
theorem ParseCommunity_sprintf_injective (asn v1 v2 c : Nat)
    (h1 : ParseCommunity (sprintfCommunity asn v1) = .ok c)
    (h2 : ParseCommunity (sprintfCommunity asn v2) = .ok c) : v1 = v2 := by
  rw [ParseCommunity_sprintf] at h1 h2
  by_cases ha : asn < 65536
  · by_cases hv1 : v1 < 65536
    · by_cases hv2 : v2 < 65536
      · simp only [ha, hv1, hv2, if_true, Except.ok.injEq] at h1 h2
        rw [shiftLeft_or_eq asn v1 hv1] at h1
        rw [shiftLeft_or_eq asn v2 hv2] at h2
        omega
      · simp [ha, hv2] at h2
    · simp [ha, hv1] at h1
  · simp [ha] at h1

/-! ## The VNI registry along the run of the agent -/

theorem SameRegistry.self (a : Agent) : SameRegistry a a := ⟨rfl, rfl, rfl⟩

theorem SameRegistry.step {a b c : Agent} (h1 : SameRegistry a b) (h2 : SameRegistry b c) :
    SameRegistry a c :=
  ⟨h2.1.trans h1.1, h2.2.1.trans h1.2.1, h2.2.2.trans h1.2.2⟩

theorem SameRegistry.toKeeps {a b : Agent} (h : SameRegistry a b) : KeepsDerived a b :=
  ⟨h.1, h.2.1, fun hd => h.2.2 ▸ hd⟩

theorem KeepsDerived.chain {a b c : Agent} (h1 : KeepsDerived a b) (h2 : KeepsDerived b c) :
    KeepsDerived a c :=
  ⟨h2.1.trans h1.1, h2.2.1.trans h1.2.1, fun hd => h1.1 ▸ h2.2.2 (h1.1.symm ▸ h1.2.2 hd)⟩

theorem foldl_sameRegistry {β ω : Type} (f : Agent × ω → β → Agent × ω)
    (hf : ∀ st x, SameRegistry st.1 (f st x).1) (l : List β) (st : Agent × ω) :
    SameRegistry st.1 (l.foldl f st).1 := by
  induction l generalizing st with
  | nil => exact SameRegistry.self _
  | cons x rest ih => exact (hf st x).step (ih (f st x))

theorem foldl_keepsDerived {β ω : Type} (f : Agent × ω → β → Agent × ω)
    (hf : ∀ st x, KeepsDerived st.1 (f st x).1) (l : List β) (st : Agent × ω) :
    KeepsDerived st.1 (l.foldl f st).1 := by
  induction l generalizing st with
  | nil => exact (SameRegistry.self _).toKeeps
  | cons x rest ih => exact (hf st x).chain (ih (f st x))

theorem updateLocalPath_sameRegistry (iter : (α : Type) → List α → List α) (a : Agent)
    (d : Daemon) : SameRegistry a (a.updateLocalPath iter d).1 := by
  unfold Agent.updateLocalPath
  dsimp only
  repeat' split
  all_goals exact ⟨rfl, rfl, rfl⟩

theorem ensureVNI_sameRegistry (iter : (α : Type) → List α → List α) (a : Agent) (w : World)
    (vni : Nat) : SameRegistry a (a.ensureVNI iter w vni).1 := by
  unfold Agent.ensureVNI
  split
  · exact SameRegistry.self a
  · split
    · dsimp only
      split
      · exact SameRegistry.step ⟨rfl, rfl, rfl⟩ (updateLocalPath_sameRegistry iter _ w.daemon)
      · exact ⟨rfl, rfl, rfl⟩
    · dsimp only
      split
      · exact SameRegistry.step ⟨rfl, rfl, rfl⟩ (updateLocalPath_sameRegistry iter _ w.daemon)
      · exact ⟨rfl, rfl, rfl⟩

theorem reconcileVNI_sameRegistry (iter : (α : Type) → List α → List α) (st : Agent × World)
    (vni : Nat) : SameRegistry st.1 (reconcileVNI iter st vni).1 := by
  unfold reconcileVNI
  split
  · exact SameRegistry.self _
  · have h := ensureVNI_sameRegistry iter st.1 st.2 vni
    split
    · next a w heq =>
      rw [heq] at h
      exact h
    · next a w heq =>
      rw [heq] at h
      split
      · exact h
      · exact h.step ⟨rfl, rfl, rfl⟩

theorem advertiseSelfStep_sameRegistry (k : Kernel) (a : Agent) (v : VNIConfig) :
    SameRegistry a (advertiseSelfStep k a v) := by
  unfold advertiseSelfStep
  split
  · dsimp only
    split <;> exact ⟨rfl, rfl, rfl⟩
  · exact ⟨rfl, rfl, rfl⟩

theorem advertiseSelf_sameRegistry (iter : (α : Type) → List α → List α) (a : Agent)
    (w : World) : SameRegistry a (a.advertiseSelf iter w).1 := by
  unfold Agent.advertiseSelf
  have h1 : ∀ (l : List VNIConfig) (b : Agent),
      SameRegistry b (l.foldl (advertiseSelfStep w.kernel) b) := by
    intro l
    induction l with
    | nil => exact fun b => SameRegistry.self b
    | cons v rest ih =>
      exact fun b => (advertiseSelfStep_sameRegistry w.kernel b v).step (ih _)
  exact (h1 a.cfg.VNIs a).step (updateLocalPath_sameRegistry iter _ w.daemon)

theorem resyncRIB_sameRegistry (iter : (α : Type) → List α → List α) (a : Agent) (d : Daemon) :
    SameRegistry a (a.resyncRIB iter d).1 := by
  unfold Agent.resyncRIB
  split
  · exact SameRegistry.self a
  · exact ⟨rfl, rfl, rfl⟩

theorem watchBatch_sameRegistry (iter : (α : Type) → List α → List α) (a : Agent) (w : World)
    (paths : List (Option Path)) : SameRegistry a (a.watchBatch iter w paths).1 := by
  unfold Agent.watchBatch
  exact SameRegistry.step (b := { a with desired := (a.consumePaths paths a.desired).1 })
    ⟨rfl, rfl, rfl⟩
    (foldl_sameRegistry (reconcileVNI iter) (reconcileVNI_sameRegistry iter) _ _)

theorem derived_mapSet (asn : Nat) (m : List (Nat × VNIConfig)) (vni : Nat) (cfg : VNIConfig)
    (hc : cfg.Community = sprintfCommunity asn vni) (h : DerivedRegistry asn m) :
    DerivedRegistry asn (mapSet m vni cfg) := by
  intro v c hv
  by_cases hvv : v = vni
  · subst hvv
    rw [mapGet_mapSet_self] at hv
    cases hv
    exact hc
  · rw [mapGet_mapSet_ne _ _ _ _ hvv] at hv
    exact h v c hv

theorem derived_mapDelete (asn : Nat) (m : List (Nat × VNIConfig)) (vni : Nat)
    (h : DerivedRegistry asn m) : DerivedRegistry asn (mapDelete m vni) := by
  intro v c hv
  by_cases hvv : v = vni
  · subst hvv
    rw [mapGet_mapDelete_self] at hv
    cases hv
  · rw [mapGet_mapDelete_ne _ _ _ hvv] at hv
    exact h v c hv

theorem discoverStep_keepsDerived (st : Agent × List Nat × Bool) (l : Link) :
    KeepsDerived st.1 (discoverStep st l).1 := by
  unfold discoverStep
  split
  · exact (SameRegistry.self _).toKeeps
  · dsimp only
    split
    · exact (SameRegistry.self _).toKeeps
    · split
      · exact (SameRegistry.self _).toKeeps
      · split
        · exact (SameRegistry.self _).toKeeps
        · exact ⟨rfl, rfl, fun hd => derived_mapSet _ _ _ _ rfl hd⟩

theorem unregisterVNI_keepsDerived (iter : (α : Type) → List α → List α) (st : Agent × World)
    (vni : Nat) : KeepsDerived st.1 (unregisterVNI iter st vni).1 := by
  unfold unregisterVNI
  have h := (ensureVNI_sameRegistry iter st.1 st.2 vni).toKeeps
  refine h.chain ⟨rfl, rfl, fun hd => derived_mapDelete _ _ _ hd⟩

theorem refreshDynamicVNIs_keepsDerived (iter : (α : Type) → List α → List α) (a : Agent)
    (w : World) : KeepsDerived a (a.refreshDynamicVNIs iter w).1 := by
  unfold Agent.refreshDynamicVNIs
  split
  · exact (SameRegistry.self a).toKeeps
  · next links _ =>
    have h1 : KeepsDerived a (links.foldl discoverStep (a, [], false)).1 :=
      foldl_keepsDerived discoverStep discoverStep_keepsDerived links (a, [], false)
    dsimp only
    refine KeepsDerived.chain (h1.chain ?_)
      (foldl_keepsDerived (unregisterVNI iter) (unregisterVNI_keepsDerived iter) _ _)
    split
    · exact ((resyncRIB_sameRegistry iter _ w.daemon).step
        (foldl_sameRegistry (reconcileVNI iter) (reconcileVNI_sameRegistry iter) _ _)).toKeeps
    · exact (SameRegistry.self _).toKeeps

theorem pollTick_registry (iter : (α : Type) → List α → List α) (a : Agent) (w : World) :
    KeepsDerived a (a.pollTick iter w).1 ∧
    (a.dynamicVNI = false → SameRegistry a (a.pollTick iter w).1) := by
  unfold Agent.pollTick
  dsimp only
  constructor
  · refine KeepsDerived.chain ?_
      (foldl_sameRegistry (reconcileVNI iter) (reconcileVNI_sameRegistry iter) _ _).toKeeps
    split
    · exact refreshDynamicVNIs_keepsDerived iter a w
    · exact (SameRegistry.self a).toKeeps
  · intro hs
    rw [hs]
    exact foldl_sameRegistry (reconcileVNI iter) (reconcileVNI_sameRegistry iter) _ _

theorem register_static (port : Nat) (localIP : IP) (vnis : List VNIConfig)
    (acc res : List (Nat × VNIConfig) × List (Nat × VNIConfig) × List (Nat × Manager))
    (h : New.register port localIP vnis acc = .ok res)
    (hs : StaticRegistry acc.1 acc.2.1) : StaticRegistry res.1 res.2.1 := by
  induction vnis generalizing acc with
  | nil =>
    simp only [New.register, Except.ok.injEq] at h
    rw [← h]
    exact hs
  | cons v rest ih =>
    obtain ⟨c2v, i2v, mgrs⟩ := acc
    unfold New.register at h
    cases hp : ParseCommunity v.Community with
    | error e => simp [hp] at h
    | ok val =>
      simp only [hp] at h
      by_cases hdup : (mapGet c2v val).isSome = true
      · simp [hdup] at h
      · rw [if_neg hdup] at h
        have hnone : mapGet c2v val = none := by
          cases hg : mapGet c2v val with
          | none => rfl
          | some x => simp [hg] at hdup
        apply ih _ h
        intro id cfg hid
        dsimp only at hid ⊢
        by_cases hv : id = v.ID
        · subst hv
          rw [mapGet_mapSet_self] at hid
          cases hid
          exact ⟨rfl, val, hp, mapGet_mapSet_self _ _ _⟩
        · rw [mapGet_mapSet_ne _ _ _ _ hv] at hid
          obtain ⟨h1, val1, h2, h3⟩ := hs id cfg hid
          refine ⟨h1, val1, h2, ?_⟩
          have hne : val1 ≠ val := by
            rintro rfl
            rw [hnone] at h3
            cases h3
          rw [mapGet_mapSet_ne _ _ _ _ hne]
          exact h3

theorem StaticRegistry.toInjective {c2v i2v : List (Nat × VNIConfig)}
    (h : StaticRegistry c2v i2v) : RegistryInjective i2v := by
  intro v1 v2 cfg1 cfg2 c h1 h2 hp1 hp2
  obtain ⟨e1, val1, p1, g1⟩ := h v1 cfg1 h1
  obtain ⟨e2, val2, p2, g2⟩ := h v2 cfg2 h2
  rw [hp1] at p1
  rw [hp2] at p2
  cases p1
  cases p2
  rw [g1] at g2
  cases g2
  rw [← e1, ← e2]

theorem DerivedRegistry.distinct {asn : Nat} {i2v : List (Nat × VNIConfig)}
    (h : DerivedRegistry asn i2v) : RegistryInjective i2v := by
  intro v1 v2 cfg1 cfg2 c h1 h2 hp1 hp2
  rw [h v1 cfg1 h1] at hp1
  rw [h v2 cfg2 h2] at hp2
  exact ParseCommunity_sprintf_injective asn v1 v2 c hp1 hp2

theorem New_registryInv (h : Host) (cfg : Config) (a : Agent) (hnew : New h cfg = .ok a) :
    RegistryInv a := by
  unfold New at hnew
  cases hip : New.localIP h cfg with
  | error e => simp [hip] at hnew
  | ok localIP =>
    simp only [hip] at hnew
    by_cases hdyn : cfg.VNIs.length = 0
    · simp only [hdyn, decide_True, Bool.not_true, Bool.false_eq_true, if_false] at hnew
      by_cases hd : h.dial = true
      · simp only [hd, if_true, Except.ok.injEq] at hnew
        subst hnew
        exact ⟨fun _ v c hv => by simp [mapGet] at hv, fun hf => by simp at hf⟩
      · simp [hd] at hnew
    · simp only [hdyn, decide_False, Bool.not_false, if_true] at hnew
      cases hreg : New.register cfg.Node.VXLANPort localIP cfg.VNIs ([], [], []) with
      | error e => simp [hreg] at hnew
      | ok res =>
        obtain ⟨c2v, i2v, mgrs⟩ := res
        simp only [hreg] at hnew
        by_cases hd : h.dial = true
        · simp only [hd, if_true, Except.ok.injEq] at hnew
          subst hnew
          have hs := register_static _ _ _ _ _ hreg
            (fun id c hv => by simp [mapGet] at hv)
          exact ⟨fun hf => by simp at hf, fun _ => hs.toInjective⟩
        · simp [hd] at hnew

theorem RegistryInv.ofSame {a b : Agent} (h : RegistryInv a) (hs : SameRegistry a b) :
    RegistryInv b := by
  obtain ⟨h1, h2, h3⟩ := hs
  unfold RegistryInv
  rw [h1, h2, h3]
  exact h

theorem RegistryInv.ofKeeps {a b : Agent} (h : RegistryInv a) (hd : a.dynamicVNI = true)
    (hk : KeepsDerived a b) : RegistryInv b := by
  obtain ⟨h1, h2, h3⟩ := hk
  unfold RegistryInv
  rw [h1, h2]
  exact ⟨fun _ => h3 (h.1 hd), fun hf => by rw [hd] at hf; cases hf⟩

/-- Every reachable agent state satisfies the registry invariant. -/
theorem Reachable.registryInv {a : Agent} (h : Reachable a) : RegistryInv a := by
  induction h with
  | new h cfg a hnew => exact New_registryInv h cfg a hnew
  | refresh iter a w _ hd ih => exact ih.ofKeeps hd (refreshDynamicVNIs_keepsDerived iter a w)
  | ensure iter a w vni _ ih => exact ih.ofSame (ensureVNI_sameRegistry iter a w vni)
  | advertise iter a w _ ih => exact ih.ofSame (advertiseSelf_sameRegistry iter a w)
  | watch iter a w paths _ ih => exact ih.ofSame (watchBatch_sameRegistry iter a w paths)
  | poll iter a w _ ih =>
    cases hd : a.dynamicVNI with
    | true => exact ih.ofKeeps hd (pollTick_registry iter a w).1
    | false => exact ih.ofSame ((pollTick_registry iter a w).2 hd)

theorem RegistryInv.communitiesDistinct {a : Agent} (h : RegistryInv a) : RegistryInjective a.idToVNI := by
  cases hd : a.dynamicVNI with
  | true => exact (h.1 hd).distinct
  | false => exact h.2 hd

/-! ## C7: the advertised communities are strictly ascending -/

theorem collectStep_eq (idToVNI : List (Nat × VNIConfig)) (comms : List Nat) (e : Nat × Bool) :
    collectStep idToVNI comms e =
      match communityOfOnline idToVNI e with
      | some c => comms ++ [c]
      | none => comms := by
  unfold collectStep communityOfOnline
  cases e.2 with
  | false => simp
  | true =>
    simp only [Bool.not_true, Bool.false_eq_true, if_false, if_true]
    cases mapGet idToVNI e.1 with
    | none => rfl
    | some cfg =>
      dsimp only
      cases ParseCommunity cfg.Community <;> rfl

theorem foldl_collectStep (idToVNI : List (Nat × VNIConfig)) (l : List (Nat × Bool))
    (acc : List Nat) :
    l.foldl (collectStep idToVNI) acc = acc ++ l.filterMap (communityOfOnline idToVNI) := by
  induction l generalizing acc with
  | nil => simp
  | cons e rest ih =>
    rw [List.foldl_cons, ih, collectStep_eq, List.filterMap_cons]
    cases communityOfOnline idToVNI e with
    | none => rfl
    | some c => simp

theorem communityOfOnline_injective (idToVNI : List (Nat × VNIConfig))
    (h : RegistryInjective idToVNI) (e1 e2 : Nat × Bool) (c : Nat)
    (h1 : communityOfOnline idToVNI e1 = some c) (h2 : communityOfOnline idToVNI e2 = some c) :
    e1 = e2 := by
  obtain ⟨v1, o1⟩ := e1
  obtain ⟨v2, o2⟩ := e2
  unfold communityOfOnline at h1 h2
  cases o1 with
  | false => simp at h1
  | true =>
    cases o2 with
    | false => simp at h2
    | true =>
      simp only [if_true] at h1 h2
      cases g1 : mapGet idToVNI v1 with
      | none => simp [g1] at h1
      | some cfg1 =>
        cases g2 : mapGet idToVNI v2 with
        | none => simp [g2] at h2
        | some cfg2 =>
          simp only [g1, g2] at h1 h2
          cases p1 : ParseCommunity cfg1.Community with
          | error e => simp [p1] at h1
          | ok c1 =>
            cases p2 : ParseCommunity cfg2.Community with
            | error e => simp [p2] at h2
            | ok c2 =>
              simp only [p1, p2, Option.some.injEq] at h1 h2
              rw [h1] at p1
              rw [h2] at p2
              rw [h v1 v2 cfg1 cfg2 c g1 g2 p1 p2]

/-- With distinct community values per VNI, the communities collected from an
online table with distinct keys are strictly ascending. -/
theorem collect_sorted_of_injective (iter : (α : Type) → List α → List α)
    (hiter : ∀ (α : Type) (l : List α), (iter α l).Perm l) (a : Agent)
    (h : RegistryInjective a.idToVNI) (hkeys : (a.vniOnline.map Prod.fst).Nodup) :
    (a.collectLocalCommunities iter).Sorted (fun x y => x < y) := by
  unfold Agent.collectLocalCommunities sortSlice
  rw [foldl_collectStep, List.nil_append]
  apply List.Sorted.lt_of_le (List.sorted_insertionSort _ _)
  rw [(List.perm_insertionSort _ _).nodup_iff]
  apply List.Nodup.filterMap
  · intro e1 e2 c h1 h2
    exact communityOfOnline_injective a.idToVNI h e1 e2 c h1 h2
  · rw [(hiter _ a.vniOnline).nodup_iff]
    exact List.Nodup.of_map _ hkeys

/-- C7 (sort and dedup).  In every agent state reachable from `New` (static
VNI table, or dynamic discovery by `refreshDynamicVNIs`), for every content
`online` of the online table (a Go map, so with distinct keys) and every map
iteration order, `collectLocalCommunities` returns a strictly ascending list:
sorted, with no community value twice. -/
theorem collectLocalCommunities_strictly_ascending (a : Agent) (hr : Reachable a)
    (iter : (α : Type) → List α → List α)
    (hiter : ∀ (α : Type) (l : List α), (iter α l).Perm l)
    (online : List (Nat × Bool)) (hkeys : (online.map Prod.fst).Nodup) :
    (({ a with vniOnline := online } : Agent).collectLocalCommunities iter).Sorted
      (fun x y => x < y) :=
  collect_sorted_of_injective iter hiter { a with vniOnline := online }
    hr.registryInv.communitiesDistinct hkeys

/-- Witness of C7: the agent `New` builds from the static table of scenario 4,
both VNIs online, the table ranged over in reverse. -/
theorem collectLocalCommunities_strictly_ascending_witness :
    Reachable exAgent ∧
    ([(200, true), (100, true)].map Prod.fst).Nodup ∧
    ({ exAgent with vniOnline := [(200, true), (100, true)] } : Agent).collectLocalCommunities
      exReverse = [4259840100, 4259840200] ∧
    (({ exAgent with vniOnline := [(200, true), (100, true)] } : Agent).collectLocalCommunities
      exReverse).Sorted (fun x y => x < y) :=
  ⟨Reachable.new exHost exAgent.cfg exAgent rfl, by decide, by decide,
    collectLocalCommunities_strictly_ascending exAgent
      (Reachable.new exHost exAgent.cfg exAgent rfl) exReverse
      (fun _ l => List.reverse_perm l) [(200, true), (100, true)] (by decide)⟩

/-! ## C8 and C9: the local advertisement -/

theorem equalComms_refl (l : List Nat) : equalComms l l = true := by
  simp [equalComms]

/-- Go `equalComms` decides equality of the two lists: it answers true exactly
when they have the same length and the same element at every index. -/
theorem equalComms_iff (a b : List Nat) : equalComms a b = true ↔ a = b := by
  constructor
  · intro h
    unfold equalComms at h
    by_cases hl : a.length = b.length
    · simp only [hl, ne_eq, not_true_eq_false, if_false, List.all_eq_true, List.mem_range,
        decide_eq_true_eq] at h
      apply List.ext_getElem hl
      intro i h1 h2
      have := h i h2
      rw [List.getD_eq_getElem _ _ h1, List.getD_eq_getElem _ _ h2] at this
      exact this
    · simp [hl] at h
  · rintro rfl
    exact equalComms_refl a

/-- The communities collected do not depend on the order in which the online
table is ranged over. -/
theorem collect_iter_invariant (iter1 iter2 : (α : Type) → List α → List α)
    (h1 : ∀ (α : Type) (l : List α), (iter1 α l).Perm l)
    (h2 : ∀ (α : Type) (l : List α), (iter2 α l).Perm l) (a : Agent) :
    a.collectLocalCommunities iter1 = a.collectLocalCommunities iter2 := by
  unfold Agent.collectLocalCommunities sortSlice
  rw [foldl_collectStep, foldl_collectStep, List.nil_append, List.nil_append]
  apply List.eq_of_perm_of_sorted (r := fun x y : Nat => x ≤ y)
  · refine (List.perm_insertionSort _ _).trans (List.Perm.trans ?_ (List.perm_insertionSort _ _).symm)
    exact ((h1 _ a.vniOnline).trans (h2 _ a.vniOnline).symm).filterMap _
  · exact List.sorted_insertionSort _ _
  · exact List.sorted_insertionSort _ _

/-- The communities collected depend on the online table and the registry
only. -/
theorem collect_congr (iter : (α : Type) → List α → List α) (a b : Agent)
    (h1 : b.vniOnline = a.vniOnline) (h2 : b.idToVNI = a.idToVNI) :
    b.collectLocalCommunities iter = a.collectLocalCommunities iter := by
  unfold Agent.collectLocalCommunities
  rw [h1, h2]

theorem updateLocalPath_noop (iter : (α : Type) → List α → List α) (a : Agent) (d : Daemon)
    (h : equalComms a.localComms (a.collectLocalCommunities iter) = true) :
    a.updateLocalPath iter d = (a, d, none) := by
  unfold Agent.updateLocalPath
  simp only [h, if_true]

/-- After `updateLocalPath`, whatever the RPCs did, the stored list is the one
just computed (up to `equalComms`), and the online table and the registry are
as before. -/
theorem updateLocalPath_after (iter : (α : Type) → List α → List α) (a : Agent) (d : Daemon) :
    equalComms (a.updateLocalPath iter d).1.localComms (a.collectLocalCommunities iter) = true ∧
    (a.updateLocalPath iter d).1.vniOnline = a.vniOnline ∧
    (a.updateLocalPath iter d).1.idToVNI = a.idToVNI := by
  by_cases h : equalComms a.localComms (a.collectLocalCommunities iter) = true
  · rw [updateLocalPath_noop iter a d h]
    exact ⟨h, rfl, rfl⟩
  · have hf : equalComms a.localComms (a.collectLocalCommunities iter) = false := by
      cases hb : equalComms a.localComms (a.collectLocalCommunities iter)
      · rfl
      · exact absurd hb h
    unfold Agent.updateLocalPath
    simp only [hf, Bool.false_eq_true, if_false]
    repeat' split
    all_goals exact ⟨equalComms_refl _, rfl, rfl⟩

/-- C8 (advertisement no-op).  For every agent state, every outcome of the
RPCs of a first `updateLocalPath` (the daemon `d1` fails whichever calls it
likes), a second `updateLocalPath` on the resulting state (same online table
and registry), whatever the daemon `d2` and the map iteration order then,
issues no RPC at all and leaves the agent, so `localPath` and `localComms`,
unchanged. -/
theorem updateLocalPath_second_call_noop (iter1 iter2 : (α : Type) → List α → List α)
    (h1 : ∀ (α : Type) (l : List α), (iter1 α l).Perm l)
    (h2 : ∀ (α : Type) (l : List α), (iter2 α l).Perm l)
    (a : Agent) (d1 d2 : Daemon) :
    ((a.updateLocalPath iter1 d1).1.updateLocalPath iter2 d2).2.1.calls = d2.calls ∧
    ((a.updateLocalPath iter1 d1).1.updateLocalPath iter2 d2).1.localPath =
      (a.updateLocalPath iter1 d1).1.localPath ∧
    ((a.updateLocalPath iter1 d1).1.updateLocalPath iter2 d2).1.localComms =
      (a.updateLocalPath iter1 d1).1.localComms ∧
    ((a.updateLocalPath iter1 d1).1.updateLocalPath iter2 d2).1 =
      (a.updateLocalPath iter1 d1).1 := by
  obtain ⟨he, ho, hi⟩ := updateLocalPath_after iter1 a d1
  have hc : (a.updateLocalPath iter1 d1).1.collectLocalCommunities iter2
      = a.collectLocalCommunities iter1 := by
    rw [collect_congr iter2 a _ ho hi]
    exact collect_iter_invariant iter2 iter1 h2 h1 a
  rw [updateLocalPath_noop iter2 _ d2 (by rw [hc]; exact he)]
  exact ⟨rfl, rfl, rfl, rfl⟩

/-- The path `updateLocalPath` publishes for the communities `comms`: origin 0
(IGP), next hop the local address, NLRI the local /32, and the communities. -/
theorem newCommunityPath_local (ip : IP) (comms : List Nat) (h : comms ≠ []) :
    newCommunityPath ip.String comms = .ok (localCommunityPath ip comms) := by
  unfold newCommunityPath localCommunityPath
  rw [ParseIP_String]
  have : comms.length > 0 := List.length_pos.mpr h
  simp [this]

/-- C9 (delete, then add).  Whenever `updateLocalPath` computes a community
list `comms` that differs from the last-published one, the RPCs it issues are,
in this order, one `DeletePath` of the previously published path if and only
if there is one, then one `AddPath` if and only if `comms` is not empty,
carrying the path with origin 0, next hop the local IPv4, NLRI the local /32
and the communities `comms`.  Afterwards the last-published list is `comms`;
the last-published path is null when `comms` is empty and, when the RPCs
succeed, the new path otherwise. -/
theorem updateLocalPath_delete_then_add (iter : (α : Type) → List α → List α) (a : Agent)
    (d : Daemon)
    (hdiff : a.collectLocalCommunities iter ≠ a.localComms) :
    (a.updateLocalPath iter d).2.1.calls = d.calls ++
      (match a.localPath with
       | some p => [RPC.DeletePath p]
       | none => []) ++
      (if a.collectLocalCommunities iter = [] then []
       else [RPC.AddPath (localCommunityPath a.localIP (a.collectLocalCommunities iter))]) ∧
    (a.updateLocalPath iter d).1.localComms = a.collectLocalCommunities iter ∧
    (a.collectLocalCommunities iter = [] → (a.updateLocalPath iter d).1.localPath = none) ∧
    (a.collectLocalCommunities iter ≠ [] → (∀ n, d.fails n = false) →
      (a.updateLocalPath iter d).1.localPath =
        some (localCommunityPath a.localIP (a.collectLocalCommunities iter)) ∧
      (a.updateLocalPath iter d).2.2 = none) := by
  have hne : equalComms a.localComms (a.collectLocalCommunities iter) = false := by
    cases hb : equalComms a.localComms (a.collectLocalCommunities iter)
    · rfl
    · exact absurd ((equalComms_iff _ _).mp hb).symm hdiff
  unfold Agent.updateLocalPath
  simp only [hne, Bool.false_eq_true, if_false]
  clear hne hdiff
  generalize a.collectLocalCommunities iter = comms
  by_cases hc : comms = []
  · subst hc
    cases hp : a.localPath with
    | none => simp [hp]
    | some p => simp [hp, Daemon.DeletePath]
  · have hlen : ¬ comms.length = 0 := fun h => hc (List.length_eq_zero.mp h)
    simp only [hlen, if_false, hc, newCommunityPath_local a.localIP comms hc]
    cases hp : a.localPath with
    | none =>
      cases hf : d.fails d.calls.length with
      | false => simp [Daemon.AddPath, hf]
      | true =>
        simp only [Daemon.AddPath, hf, if_true, List.append_nil, true_and]
        refine ⟨fun h => h.elim, fun _ hall => ?_⟩
        rw [hall] at hf
        cases hf
    | some p =>
      cases hf : d.fails (d.calls.length + 1) with
      | false => simp [Daemon.AddPath, Daemon.DeletePath, hf]
      | true =>
        simp only [Daemon.AddPath, Daemon.DeletePath, List.length_append, List.length_singleton,
          hf, if_true, List.append_assoc, true_and]
        refine ⟨fun h => h.elim, fun _ hall => ?_⟩
        rw [hall] at hf
        cases hf

/-- Witness of C8: the first call has its `AddPath` fail; the second call, with
the online table ranged over in another order, issues nothing. -/
theorem updateLocalPath_second_call_noop_witness :
    (exBothOnline.updateLocalPath exReverse exDaemonFail).2.1.calls =
      [RPC.AddPath (localCommunityPath ⟨10, 0, 0, 1⟩ [4259840100, 4259840200])] ∧
    (exBothOnline.updateLocalPath exReverse exDaemonFail).2.2 = some Error.addPath ∧
    (((exBothOnline.updateLocalPath exReverse exDaemonFail).1.updateLocalPath
        (fun _ l => l) exDaemon).2.1.calls = exDaemon.calls ∧
     ((exBothOnline.updateLocalPath exReverse exDaemonFail).1.updateLocalPath
        (fun _ l => l) exDaemon).1.localPath =
      (exBothOnline.updateLocalPath exReverse exDaemonFail).1.localPath ∧
     ((exBothOnline.updateLocalPath exReverse exDaemonFail).1.updateLocalPath
        (fun _ l => l) exDaemon).1.localComms =
      (exBothOnline.updateLocalPath exReverse exDaemonFail).1.localComms ∧
     ((exBothOnline.updateLocalPath exReverse exDaemonFail).1.updateLocalPath
        (fun _ l => l) exDaemon).1 =
      (exBothOnline.updateLocalPath exReverse exDaemonFail).1) :=
  ⟨by decide, by decide,
    updateLocalPath_second_call_noop exReverse (fun _ l => l)
      (fun _ l => List.reverse_perm l) (fun _ l => List.Perm.refl l)
      exBothOnline exDaemonFail exDaemon⟩

/-- Witness of C9: scenario 4, VNI 200 goes offline: a `DeletePath` of the
previous path, then an `AddPath` with `[65000:100]`. -/
theorem updateLocalPath_delete_then_add_witness :
    exOneOffline.collectLocalCommunities exReverse ≠ exOneOffline.localComms ∧
    exOneOffline.localComms = [4259840100, 4259840200] ∧
    exOneOffline.collectLocalCommunities exReverse = [4259840100] ∧
    ((exOneOffline.updateLocalPath exReverse exDaemon).2.1.calls = exDaemon.calls ++
      (match exOneOffline.localPath with
       | some p => [RPC.DeletePath p]
       | none => []) ++
      (if exOneOffline.collectLocalCommunities exReverse = [] then []
       else [RPC.AddPath (localCommunityPath exOneOffline.localIP
          (exOneOffline.collectLocalCommunities exReverse))]) ∧
    (exOneOffline.updateLocalPath exReverse exDaemon).1.localComms =
      exOneOffline.collectLocalCommunities exReverse ∧
    (exOneOffline.collectLocalCommunities exReverse = [] →
      (exOneOffline.updateLocalPath exReverse exDaemon).1.localPath = none) ∧
    (exOneOffline.collectLocalCommunities exReverse ≠ [] → (∀ n, exDaemon.fails n = false) →
      (exOneOffline.updateLocalPath exReverse exDaemon).1.localPath =
        some (localCommunityPath exOneOffline.localIP
          (exOneOffline.collectLocalCommunities exReverse)) ∧
      (exOneOffline.updateLocalPath exReverse exDaemon).2.2 = none)) :=
  ⟨by decide, by decide, by decide,
    updateLocalPath_delete_then_add exReverse exOneOffline exDaemon (by decide)⟩

/-! ## C10: the dynamic lifecycle -/

/-- C10 (dynamic lifecycle), on a failing input.  The agent has discovered the
interface `vx0` with VNI 100, found it online and published `65000:100`.  The
operator then re-creates `vx0` with VNI 70000, so no VXLAN interface has VNI
100 any more.  `refreshDynamicVNIs` removes VNI 100 from `idToVNI`,
`communityToVNI`, `vxlanManagers` and `desired`, but because the device name
still resolves as a VXLAN link `ensureVNI` withdraws nothing: `vniOnline[100]`
is still true, the last-published list still holds `65000:100`, the published
path is still stored and no RPC is issued. -/
theorem refreshDynamicVNIs_leaves_stale_membership :
    Reachable exDynRegistered ∧
    mapGet exDynRegistered.idToVNI 100 =
      some { ID := 100, Community := "65000:100", Device := "vx0",
             UnderlayInterface := "eth0" } ∧
    ParseCommunity "65000:100" = .ok 4259840100 ∧
    (exWorldVx0 6 70000).kernel.links =
      [Link.vxlan { Name := "vx0", Index := 6, VxlanId := 70000 }] ∧
    vniOf { Name := "vx0", Index := 6, VxlanId := 70000 } = 70000 ∧
    mapGet (exDynRegistered.refreshDynamicVNIs exListOrder (exWorldVx0 6 70000)).1.idToVNI 100
      = none ∧
    (exDynRegistered.refreshDynamicVNIs exListOrder (exWorldVx0 6 70000)).1.communityToVNI
      = [] ∧
    mapGet (exDynRegistered.refreshDynamicVNIs exListOrder (exWorldVx0 6 70000)).1.vxlanManagers
      100 = none ∧
    mapGet (exDynRegistered.refreshDynamicVNIs exListOrder (exWorldVx0 6 70000)).1.desired 100
      = none ∧
    mapGet (exDynRegistered.refreshDynamicVNIs exListOrder (exWorldVx0 6 70000)).1.vniOnline 100
      = some true ∧
    (exDynRegistered.refreshDynamicVNIs exListOrder (exWorldVx0 6 70000)).1.localComms
      = [4259840100] ∧
    (exDynRegistered.refreshDynamicVNIs exListOrder (exWorldVx0 6 70000)).1.localPath
      = some (localCommunityPath ⟨10, 0, 0, 1⟩ [4259840100]) ∧
    (exDynRegistered.refreshDynamicVNIs exListOrder (exWorldVx0 6 70000)).2.daemon.calls
      = [] := by
  refine ⟨?_, by decide, by rfl, by decide, by decide, by decide, by decide, by decide,
    by decide, by decide, by decide, by decide, by decide⟩
  exact Reachable.ensure exListOrder _ (exWorldVx0 5 100) 100
    (Reachable.refresh exListOrder exDynStart (exWorldVx0 5 100)
      (Reachable.new exHost exDynConfig exDynStart rfl) rfl)

/-! ### What the removal loop does achieve -/

theorem mapGet_mapSet_isSome {ν : Type} (m : List (Nat × ν)) (k v : Nat) (x : ν)
    (h : (mapGet m v).isSome = true) : (mapGet (mapSet m k x) v).isSome = true := by
  by_cases hk : v = k
  · subst hk
    rw [mapGet_mapSet_self]
    rfl
  · rw [mapGet_mapSet_ne _ _ _ _ hk]
    exact h

theorem mem_keys_of_mapGet {ν : Type} (m : List (Nat × ν)) (v : Nat)
    (h : (mapGet m v).isSome = true) : v ∈ m.map Prod.fst := by
  cases hg : mapGet m v with
  | none => simp [hg] at h
  | some x => exact List.mem_map.mpr ⟨(v, x), mem_of_mapGet m v x hg, rfl⟩

/-- `updateLocalPath` changes nothing but the published path and list. -/
theorem updateLocalPath_maps (iter : (α : Type) → List α → List α) (a : Agent) (d : Daemon) :
    (a.updateLocalPath iter d).1.idToVNI = a.idToVNI ∧
    (a.updateLocalPath iter d).1.communityToVNI = a.communityToVNI ∧
    (a.updateLocalPath iter d).1.vxlanManagers = a.vxlanManagers ∧
    (a.updateLocalPath iter d).1.desired = a.desired := by
  unfold Agent.updateLocalPath
  dsimp only
  repeat' split
  all_goals exact ⟨rfl, rfl, rfl, rfl⟩

/-- `ensureVNI` leaves the registry and `desired` alone; of the managers it
rewrites at most the one of the VNI it probes, and only if there is one. -/
theorem ensureVNI_maps (iter : (α : Type) → List α → List α) (a : Agent) (w : World)
    (vni : Nat) :
    (a.ensureVNI iter w vni).1.idToVNI = a.idToVNI ∧
    (a.ensureVNI iter w vni).1.communityToVNI = a.communityToVNI ∧
    (a.ensureVNI iter w vni).1.desired = a.desired ∧
    ((a.ensureVNI iter w vni).1.vxlanManagers = a.vxlanManagers ∨
      ∃ mgr0 mgr, mapGet a.vxlanManagers vni = some mgr0 ∧
        (a.ensureVNI iter w vni).1.vxlanManagers = mapSet a.vxlanManagers vni mgr) := by
  unfold Agent.ensureVNI
  split
  · exact ⟨rfl, rfl, rfl, Or.inl rfl⟩
  · next mgr0 hg =>
    split
    · next mgr _ =>
      dsimp only
      split
      · obtain ⟨h1, h2, h3, h4⟩ := updateLocalPath_maps iter
          (({ a with vxlanManagers := mapSet a.vxlanManagers vni mgr } : Agent).setOnline
            vni true) w.daemon
        exact ⟨h1, h2, h4, Or.inr ⟨mgr0, mgr, hg, h3⟩⟩
      · exact ⟨rfl, rfl, rfl, Or.inr ⟨mgr0, mgr, hg, rfl⟩⟩
    · next mgr _ _ =>
      dsimp only
      split
      · obtain ⟨h1, h2, h3, h4⟩ := updateLocalPath_maps iter
          (({ a with vxlanManagers := mapSet a.vxlanManagers vni mgr } : Agent).setOnline
            vni false) w.daemon
        exact ⟨h1, h2, h4, Or.inr ⟨mgr0, mgr, hg, h3⟩⟩
      · exact ⟨rfl, rfl, rfl, Or.inr ⟨mgr0, mgr, hg, rfl⟩⟩

theorem ensureVNI_keeps_manager (iter : (α : Type) → List α → List α) (a : Agent) (w : World)
    (vni v : Nat) (h : (mapGet a.vxlanManagers v).isSome = true) :
    (mapGet (a.ensureVNI iter w vni).1.vxlanManagers v).isSome = true := by
  rcases (ensureVNI_maps iter a w vni).2.2.2 with heq | ⟨_, mgr, _, heq⟩
  · rw [heq]; exact h
  · rw [heq]; exact mapGet_mapSet_isSome _ _ _ _ h

theorem reconcileVNI_keeps_manager (iter : (α : Type) → List α → List α) (st : Agent × World)
    (vni v : Nat) (h : (mapGet st.1.vxlanManagers v).isSome = true) :
    (mapGet (reconcileVNI iter st vni).1.vxlanManagers v).isSome = true := by
  unfold reconcileVNI
  split
  · exact h
  · have h1 := ensureVNI_keeps_manager iter st.1 st.2 vni v h
    split
    · next a w heq => rw [heq] at h1; exact h1
    · next a w heq =>
      rw [heq] at h1
      split
      · exact h1
      · exact mapGet_mapSet_isSome _ _ _ _ h1

theorem foldl_reconcileVNI_keeps_manager (iter : (α : Type) → List α → List α)
    (l : List Nat) (st : Agent × World) (v : Nat)
    (h : (mapGet st.1.vxlanManagers v).isSome = true) :
    (mapGet (l.foldl (reconcileVNI iter) st).1.vxlanManagers v).isSome = true := by
  induction l generalizing st with
  | nil => exact h
  | cons x rest ih => exact ih _ (reconcileVNI_keeps_manager iter st x v h)

theorem discoverStep_keeps (st : Agent × List Nat × Bool) (l : Link) (v : Nat)
    (hl : ∀ vx, l = Link.vxlan vx → vniOf vx ≠ v) :
    (v ∉ st.2.1 → v ∉ (discoverStep st l).2.1) ∧
    ((mapGet st.1.vxlanManagers v).isSome = true →
      (mapGet (discoverStep st l).1.vxlanManagers v).isSome = true) := by
  unfold discoverStep
  split
  · exact ⟨fun h => h, fun h => h⟩
  · next vx =>
    have hv : v ≠ vniOf vx := fun e => hl vx rfl e.symm
    have hp : v ∉ st.2.1 → v ∉ setInsert st.2.1 (vniOf vx) := by
      intro h hin
      rcases (mem_setInsert _ _ _).mp hin with h1 | h1
      · exact h h1
      · exact hv h1
    dsimp only
    split
    · exact ⟨fun h => h, fun h => h⟩
    · split
      · exact ⟨hp, fun h => h⟩
      · split
        · exact ⟨hp, fun h => h⟩
        · exact ⟨hp, fun h => mapGet_mapSet_isSome _ _ _ _ h⟩

theorem foldl_discoverStep_keeps (links : List Link) (st : Agent × List Nat × Bool) (v : Nat)
    (hl : ∀ vx, Link.vxlan vx ∈ links → vniOf vx ≠ v) :
    (v ∉ st.2.1 → v ∉ (links.foldl discoverStep st).2.1) ∧
    ((mapGet st.1.vxlanManagers v).isSome = true →
      (mapGet (links.foldl discoverStep st).1.vxlanManagers v).isSome = true) := by
  induction links generalizing st with
  | nil => exact ⟨fun h => h, fun h => h⟩
  | cons l rest ih =>
    have h1 := discoverStep_keeps st l v (fun vx e => hl vx (e ▸ List.mem_cons_self _ _))
    have h2 := ih (discoverStep st l) (fun vx hm => hl vx (List.mem_cons_of_mem _ hm))
    exact ⟨fun h => h2.1 (h1.1 h), fun h => h2.2 (h1.2 h)⟩

theorem unregisterVNI_gone (iter : (α : Type) → List α → List α) (st : Agent × World)
    (vni v : Nat) (h : vni = v ∨ Unregistered v st.1) :
    Unregistered v (unregisterVNI iter st vni).1 := by
  unfold unregisterVNI
  obtain ⟨h1, _, h3, h4⟩ := ensureVNI_maps iter st.1 st.2 vni
  unfold Unregistered
  dsimp only
  by_cases hv : vni = v
  · subst hv
    exact ⟨mapGet_mapDelete_self _ _, mapGet_mapDelete_self _ _, mapGet_mapDelete_self _ _⟩
  · have hg : Unregistered v st.1 := h.resolve_left hv
    have hv2 : v ≠ vni := fun e => hv e.symm
    rw [mapGet_mapDelete_ne _ _ _ hv2, mapGet_mapDelete_ne _ _ _ hv2,
      mapGet_mapDelete_ne _ _ _ hv2, h1, h3]
    refine ⟨hg.1, ?_, hg.2.2⟩
    rcases h4 with heq | ⟨_, mgr, _, heq⟩
    · rw [heq]; exact hg.2.1
    · rw [heq, mapGet_mapSet_ne _ _ _ _ hv2]; exact hg.2.1

theorem foldl_unregisterVNI_gone (iter : (α : Type) → List α → List α) (missing : List Nat)
    (st : Agent × World) (v : Nat) (h : v ∈ missing ∨ Unregistered v st.1) :
    Unregistered v (missing.foldl (unregisterVNI iter) st).1 := by
  induction missing generalizing st with
  | nil =>
    rcases h with h | h
    · cases h
    · exact h
  | cons x rest ih =>
    rw [List.foldl_cons]
    apply ih
    rcases h with h | h
    · rcases List.mem_cons.mp h with rfl | h
      · exact Or.inr (unregisterVNI_gone iter st v v (Or.inl rfl))
      · exact Or.inl h
    · exact Or.inr (unregisterVNI_gone iter st x v (Or.inr h))

/-- The part of the dynamic lifecycle the code does achieve: whatever the
state, when the listing succeeds and shows no VXLAN interface with VNI `v`, a
VNI `v` that has a manager is removed from `idToVNI`, `vxlanManagers` and
`desired` by `refreshDynamicVNIs`. -/
theorem refreshDynamicVNIs_unregisters (iter : (α : Type) → List α → List α)
    (hiter : ∀ (α : Type) (l : List α), (iter α l).Perm l) (a : Agent) (w : World) (v : Nat)
    (hreg : (mapGet a.vxlanManagers v).isSome = true)
    (hgone : ∀ vx, Link.vxlan vx ∈ w.kernel.links → vniOf vx ≠ v) :
    Unregistered v (a.refreshDynamicVNIs iter w).1 := by
  unfold Agent.refreshDynamicVNIs
  simp only [Kernel.LinkList]
  obtain ⟨hp, hm⟩ := foldl_discoverStep_keeps w.kernel.links (a, [], false) v hgone
  have hp1 := hp (List.not_mem_nil v)
  have hm1 := hm hreg
  apply foldl_unregisterVNI_gone
  left
  rw [List.mem_filter]
  refine ⟨?_, by simpa using hp1⟩
  rw [((hiter _ _).map Prod.fst).mem_iff]
  apply mem_keys_of_mapGet
  split
  · apply foldl_reconcileVNI_keeps_manager
    unfold Agent.resyncRIB
    dsimp only
    split <;> exact hm1
  · exact hm1

/-! ## C11: the community codec -/

theorem splitOn_ne_nil (sep : Char) (l : List Char) : splitOn sep l ≠ [] := by
  cases l with
  | nil => simp [splitOn]
  | cons c rest =>
    rw [splitOn]
    split
    · simp
    · split <;> simp

/-- Joining the fields of `strings.Split` with the separator gives the text
back. -/
theorem joinSep_splitOn (sep : Char) (l : List Char) : joinSep sep (splitOn sep l) = l := by
  induction l with
  | nil => rfl
  | cons c rest ih =>
    by_cases hc : c = sep
    · subst hc
      rw [splitOn, if_pos rfl]
      cases hs : splitOn c rest with
      | nil => exact absurd hs (splitOn_ne_nil c rest)
      | cons f fs =>
        rw [hs] at ih
        simp only [joinSep, List.nil_append]
        rw [ih]
    · rw [splitOn_cons_ne sep c rest hc]
      cases hs : splitOn sep rest with
      | nil => exact absurd hs (splitOn_ne_nil sep rest)
      | cons f fs =>
        rw [hs] at ih
        cases fs with
        | nil =>
          simp only [joinSep] at ih ⊢
          rw [ih]
        | cons g gs =>
          simp only [joinSep] at ih ⊢
          rw [← ih]
          rfl

/-- No field of `strings.Split` contains the separator. -/
theorem splitOn_no_sep_mem (sep : Char) (l : List Char) :
    ∀ f ∈ splitOn sep l, sep ∉ f := by
  induction l with
  | nil => simp [splitOn]
  | cons c rest ih =>
    by_cases hc : c = sep
    · subst hc
      rw [splitOn, if_pos rfl]
      intro f hf
      rcases List.mem_cons.mp hf with rfl | hf
      · simp
      · exact ih f hf
    · rw [splitOn_cons_ne sep c rest hc]
      cases hs : splitOn sep rest with
      | nil => exact absurd hs (splitOn_ne_nil sep rest)
      | cons f fs =>
        rw [hs] at ih
        intro g hg
        rcases List.mem_cons.mp hg with rfl | hg
        · intro hin
          rcases List.mem_cons.mp hin with h | h
          · exact hc h.symm
          · exact ih f (List.mem_cons_self _ _) h
        · exact ih g (List.mem_cons_of_mem _ hg)

theorem isDigit_iff_mem (c : Char) : isDigit c = true ↔ c ∈ decimalDigits := by
  constructor
  · intro h
    simp only [isDigit, Bool.and_eq_true, decide_eq_true_eq] at h
    have hc : c = Char.ofNat c.toNat := (Char.ofNat_toNat c).symm
    obtain ⟨h1, h2⟩ := h
    generalize c.toNat = n at hc h1 h2
    subst hc
    interval_cases n <;> decide
  · intro h
    simp only [decimalDigits, List.mem_cons, List.mem_singleton, List.not_mem_nil,
      or_false] at h
    rcases h with rfl | rfl | rfl | rfl | rfl | rfl | rfl | rfl | rfl | rfl <;> rfl

theorem indexOf_digit (c : Char) (h : c ∈ decimalDigits) :
    decimalDigits.indexOf c = c.toNat - 48 := by
  simp only [decimalDigits, List.mem_cons, List.mem_singleton, List.not_mem_nil,
    or_false] at h
  rcases h with rfl | rfl | rfl | rfl | rfl | rfl | rfl | rfl | rfl | rfl <;> rfl

theorem foldl_digits (f : List Char) (h : ∀ c ∈ f, c ∈ decimalDigits) (acc : Nat) :
    f.foldl (fun n c => n * 10 + (c.toNat - 48)) acc = acc * 10 ^ f.length + decimalValue f := by
  induction f generalizing acc with
  | nil => simp [decimalValue]
  | cons c rest ih =>
    rw [List.foldl_cons, ih (fun x hx => h x (List.mem_cons_of_mem _ hx))]
    rw [decimalValue, indexOf_digit c (h c (List.mem_cons_self _ _)), List.length_cons,
      Nat.pow_succ]
    ring

theorem digitsValue_eq_decimalValue (f : List Char) (h : ∀ c ∈ f, c ∈ decimalDigits) :
    digitsValue f = decimalValue f := by
  unfold digitsValue
  rw [foldl_digits f h 0]
  simp

/-- Go `strconv.ParseUint(s, 10, bitSize)` succeeds exactly on the non-empty
strings of decimal digits whose value fits, and returns that value. -/
theorem ParseUint_eq_some (f : List Char) (bitSize n : Nat) :
    ParseUint f bitSize = some n ↔
      IsDecimalField f ∧ decimalValue f < 2 ^ bitSize ∧ n = decimalValue f := by
  unfold ParseUint IsDecimalField
  by_cases he : f = []
  · simp [he]
  · rw [if_neg he]
    by_cases hd : f.all isDigit = true
    · have hmem : ∀ c ∈ f, c ∈ decimalDigits := fun c hc =>
        (isDigit_iff_mem c).mp (List.all_eq_true.mp hd c hc)
      rw [if_pos hd, digitsValue_eq_decimalValue f hmem]
      by_cases hv : decimalValue f < 2 ^ bitSize
      · rw [if_pos hv]
        constructor
        · intro h
          exact ⟨⟨he, hmem⟩, hv, (Option.some.inj h).symm⟩
        · rintro ⟨_, _, rfl⟩
          rfl
      · rw [if_neg hv]
        constructor
        · intro h; cases h
        · rintro ⟨_, h, _⟩
          exact absurd h hv
    · rw [if_neg hd]
      constructor
      · intro h; cases h
      · rintro ⟨⟨_, hmem⟩, _, _⟩
        exact absurd (List.all_eq_true.mpr (fun c hc => (isDigit_iff_mem c).mpr (hmem c hc))) hd

theorem ParseCommunity_ok_iff (s : String) (c : Nat) :
    ParseCommunity s = .ok c ↔
      ∃ f0 f1, CommunityFields s f0 f1 ∧ c = decimalValue f0 * 65536 + decimalValue f1 := by
  constructor
  · intro h
    unfold ParseCommunity at h
    split at h
    · next p0 p1 hs =>
      have hjoin := joinSep_splitOn ':' s.data
      have hsep := splitOn_no_sep_mem ':' s.data
      rw [hs] at hjoin hsep
      cases h0 : ParseUint p0 16 with
      | none => simp [h0] at h
      | some asn =>
        cases h1 : ParseUint p1 16 with
        | none => simp [h0, h1] at h
        | some val =>
          simp only [h0, h1, Except.ok.injEq] at h
          obtain ⟨hf0, hv0, ha⟩ := (ParseUint_eq_some p0 16 asn).mp h0
          obtain ⟨hf1, hv1, hb⟩ := (ParseUint_eq_some p1 16 val).mp h1
          subst ha hb
          refine ⟨p0, p1, ⟨hjoin.symm, hsep p0 (by simp), hsep p1 (by simp), hf0, hf1,
            by omega, by omega⟩, ?_⟩
          rw [shiftLeft_or_eq _ _ hv1] at h
          omega
    · cases h
  · rintro ⟨f0, f1, ⟨hs, hn0, hn1, hf0, hf1, hv0, hv1⟩, rfl⟩
    unfold ParseCommunity
    rw [hs, splitOn_append ':' f0 f1 (fun c hc e => hn0 (e ▸ hc)),
      splitOn_no_sep ':' f1 (fun c hc e => hn1 (e ▸ hc))]
    have h0 : ParseUint f0 16 = some (decimalValue f0) :=
      (ParseUint_eq_some f0 16 _).mpr ⟨hf0, by omega, rfl⟩
    have h1 : ParseUint f1 16 = some (decimalValue f1) :=
      (ParseUint_eq_some f1 16 _).mpr ⟨hf1, by omega, rfl⟩
    simp only [h0, h1, Except.ok.injEq]
    rw [shiftLeft_or_eq _ _ (by omega : decimalValue f1 < 65536)]
    omega

/-- C11 (community codec).  For every string `s`, `ParseCommunity s` succeeds
if and only if splitting `s` on ':' yields exactly two fields, each a non-empty
string of decimal digits (no sign) whose value is at most 65535
(`CommunityFields`); it then returns `asn * 65536 + value` for the values of
the two fields, which is `(asn << 16) | value`; for every other string it
returns an error. -/
theorem parseCommunity_meets_spec (s : String) :
    (∀ c, ParseCommunity s = .ok c ↔
      ∃ f0 f1, CommunityFields s f0 f1 ∧ c = decimalValue f0 * 65536 + decimalValue f1) ∧
    (∀ f0 f1, CommunityFields s f0 f1 →
      decimalValue f0 * 65536 + decimalValue f1 = decimalValue f0 <<< 16 ||| decimalValue f1) ∧
    ((¬ ∃ f0 f1, CommunityFields s f0 f1) → ∃ e, ParseCommunity s = .error e) := by
  refine ⟨ParseCommunity_ok_iff s, ?_, ?_⟩
  · rintro f0 f1 ⟨_, _, _, _, _, _, hv1⟩
    rw [shiftLeft_or_eq _ _ (by omega : decimalValue f1 < 65536)]
    omega
  · intro hno
    cases h : ParseCommunity s with
    | error e => exact ⟨e, rfl⟩
    | ok c =>
      obtain ⟨f0, f1, hf, _⟩ := (ParseCommunity_ok_iff s c).mp h
      exact absurd ⟨f0, f1, hf⟩ hno

/-- The codec on sample texts: a plain community, leading zeros, the largest
community, and the malformed texts it rejects. -/
theorem parseCommunity_samples :
    ParseCommunity "65000:100" = .ok 4259840100 ∧
    ParseCommunity "007:1" = .ok 458753 ∧
    ParseCommunity "65535:65535" = .ok 4294967295 ∧
    ParseCommunity "" = .error .communityFormat ∧
    ParseCommunity "65000" = .error .communityFormat ∧
    ParseCommunity "1:2:3" = .error .communityFormat ∧
    ParseCommunity ":100" = .error .communityASN ∧
    ParseCommunity "+1:100" = .error .communityASN ∧
    ParseCommunity "65536:1" = .error .communityASN ∧
    ParseCommunity "1:" = .error .communityValue ∧
    ParseCommunity "1:65536" = .error .communityValue ∧
    ParseCommunity "1: 2" = .error .communityValue :=
  ⟨rfl, rfl, rfl, rfl, rfl, rfl, rfl, rfl, rfl, rfl, rfl, rfl⟩

/-! ## C12: validation of `node.localAddress` -/

/-- In dynamic mode (no VNI configured) `Validate` looks at `communityAsn`
only: with a non-zero ASN it returns nil whatever `node.localAddress` holds. -/
theorem Validate_dynamic (h : Host) (c : Config) (hv : c.VNIs = []) (hasn : c.CommunityASN ≠ 0) :
    c.Validate h = none := by
  unfold Config.Validate
  simp [hv, hasn]

/-- In static mode (at least one VNI configured) `Validate` returns an error
for every configuration whose local address is set and is not a valid IPv4
address. -/
theorem Validate_static_rejects (h : Host) (c : Config) (hv : c.VNIs ≠ [])
    (hbad : BadLocalAddress h c) : ∃ e, c.Validate h = some e := by
  unfold Config.Validate
  have hlen : ¬ c.VNIs.length = 0 := fun e => hv (List.length_eq_zero.mp e)
  rw [if_neg hlen]
  cases hl : Config.validateVNIs c.CommunityASN c.VNIs with
  | some e => exact ⟨e, rfl⟩
  | none =>
    dsimp only
    rw [if_pos hbad.1]
    cases hp : netParseIPTo4 h c.Node.LocalAddress with
    | none => exact ⟨_, rfl⟩
    | some o =>
      cases o with
      | none => exact ⟨_, rfl⟩
      | some ip => exact absurd hp (hbad.2 ip)

theorem netParseIPTo4_none_bad (h : Host) (c : Config) (hne : c.Node.LocalAddress ≠ "")
    (hp : netParseIPTo4 h c.Node.LocalAddress = none ∨
      netParseIPTo4 h c.Node.LocalAddress = some none) : BadLocalAddress h c := by
  refine ⟨hne, fun ip e => ?_⟩
  rcases hp with hp | hp <;> rw [hp] at e <;> cases e

/-- C12 (local address validation), evaluated in dynamic mode.  The file
`communityAsn: 65000`, no VNI, `node.localAddress: not-an-ip` (an unparsable
string) or `2001:db8::1` (an IPv6 address): after `applyDefaults` the local
address is set and is not a valid IPv4 address, yet `Validate` returns nil and
`Load` returns the configuration; with the unparsable string `New` then starts
on the address of `eth0`.  The same two addresses with one static VNI are
rejected with "node.localAddress must be IPv4 when set". -/
theorem validate_skips_localAddress_in_dynamic_mode :
    (BadLocalAddress exHostEth0 (applyDefaults (exDynFile "not-an-ip")) ∧
      (applyDefaults (exDynFile "not-an-ip")).VNIs = [] ∧
      (applyDefaults (exDynFile "not-an-ip")).Validate exHostEth0 = none ∧
      Load exHostEth0 (.ok (exDynFile "not-an-ip")) =
        .ok (applyDefaults (exDynFile "not-an-ip")) ∧
      (New exHostEth0 (applyDefaults (exDynFile "not-an-ip"))).toOption.map (fun a => a.localIP)
        = some ⟨10, 0, 0, 1⟩) ∧
    (BadLocalAddress exHostEth0 (applyDefaults (exDynFile "2001:db8::1")) ∧
      (applyDefaults (exDynFile "2001:db8::1")).Validate exHostEth0 = none ∧
      Load exHostEth0 (.ok (exDynFile "2001:db8::1")) =
        .ok (applyDefaults (exDynFile "2001:db8::1"))) ∧
    (applyDefaults (exStaticFile "not-an-ip")).Validate exHostEth0
        = some Error.localAddressNotIPv4 ∧
    (applyDefaults (exStaticFile "2001:db8::1")).Validate exHostEth0
        = some Error.localAddressNotIPv4 ∧
    (applyDefaults (exStaticFile "10.0.0.1")).Validate exHostEth0 = none := by
  refine ⟨⟨netParseIPTo4_none_bad _ _ (by decide) (Or.inl (by rfl)), by rfl, by rfl, by rfl,
      by rfl⟩,
    ⟨netParseIPTo4_none_bad _ _ (by decide) (Or.inr (by rfl)), by rfl, by rfl⟩,
    by rfl, by rfl, by rfl⟩

/-- The static half of C12 at a concrete configuration. -/
theorem Validate_static_rejects_example :
    ∃ e, (applyDefaults (exStaticFile "2001:db8::1")).Validate exHostEth0 = some e :=
  Validate_static_rejects exHostEth0 (applyDefaults (exStaticFile "2001:db8::1"))
    (by decide)
    (netParseIPTo4_none_bad _ _ (by decide) (Or.inr (by rfl)))

/-! ## C13: the online table after a probe -/

theorem LoadLink_cfg (m : Manager) (k : Kernel) : (m.LoadLink k).1.cfg = m.cfg := by
  unfold Manager.LoadLink
  split <;> rfl

/-- `LoadLink` succeeds exactly when the device exists and is of VXLAN kind. -/
theorem LoadLink_ok_iff (m : Manager) (k : Kernel) :
    (m.LoadLink k).2 = none ↔ ∃ vx, k.LinkByName m.cfg.Device = .ok (.vxlan vx) := by
  unfold Manager.LoadLink
  split
  · next e he => simp [he]
  · next vx he => simp [he]
  · next n i he => simp [he]

theorem LoadLink_congr (m1 m2 : Manager) (k : Kernel) (h : m1.cfg = m2.cfg) :
    ((m1.LoadLink k).2 = none ↔ (m2.LoadLink k).2 = none) := by
  rw [LoadLink_ok_iff, LoadLink_ok_iff, h]

/-- The online table after `ensureVNI`, read off the code: it is a function of
the managers, the online table and the kernel. -/
theorem ensureVNI_vniOnline (iter : (α : Type) → List α → List α) (a : Agent) (w : World)
    (vni : Nat) :
    (a.ensureVNI iter w vni).1.vniOnline =
      match mapGet a.vxlanManagers vni with
      | none => a.vniOnline
      | some mgr =>
        match (mgr.LoadLink w.kernel).2 with
        | none => if mapGet a.vniOnline vni = some true then a.vniOnline
                  else mapSet a.vniOnline vni true
        | some _ => if mapGet a.vniOnline vni = some true then mapSet a.vniOnline vni false
                    else a.vniOnline := by
  unfold Agent.ensureVNI
  cases hg : mapGet a.vxlanManagers vni with
  | none => rfl
  | some mgr =>
    dsimp only
    rcases hl : mgr.LoadLink w.kernel with ⟨m2, e⟩
    cases e with
    | none =>
      dsimp only
      cases ho : mapGet a.vniOnline vni with
      | none =>
        simp only [Agent.getOnline, ho, Bool.not_false, if_true]
        rw [if_neg (by simp)]
        exact (updateLocalPath_after iter _ w.daemon).2.1
      | some b =>
        cases b with
        | false =>
          simp only [Agent.getOnline, ho, Bool.not_false, if_true]
          rw [if_neg (by simp)]
          exact (updateLocalPath_after iter _ w.daemon).2.1
        | true =>
          simp [Agent.getOnline, ho]
    | some e =>
      dsimp only
      cases ho : mapGet a.vniOnline vni with
      | none => simp [Agent.getOnline, ho]
      | some b =>
        cases b with
        | false => simp [Agent.getOnline, ho]
        | true =>
          simp only [Agent.getOnline, ho, if_true]
          exact (updateLocalPath_after iter _ w.daemon).2.1

/-- One turn of the loop of `advertiseSelf`, seen from VNI `t` whose manager
carries the configuration `c`: the agent configuration and the manager's
configuration are kept; the online entry of `t` is written when the turn is
for `t` and left alone otherwise. -/
theorem advertiseSelfStep_spec (k : Kernel) (b : Agent) (v : VNIConfig) (t : Nat)
    (c : VNIConfig) (m : Manager) (hm : mapGet b.vxlanManagers t = some m) (hc : m.cfg = c) :
    (advertiseSelfStep k b v).cfg = b.cfg ∧
    (∃ m2, mapGet (advertiseSelfStep k b v).vxlanManagers t = some m2 ∧ m2.cfg = c) ∧
    (v.ID = t → mapGet (advertiseSelfStep k b v).vniOnline t =
      some ((m.LoadLink k).2.isNone || b.cfg.Node.AutoRecreateVxlan)) ∧
    (v.ID ≠ t → mapGet (advertiseSelfStep k b v).vniOnline t = mapGet b.vniOnline t) := by
  unfold advertiseSelfStep
  by_cases hv : v.ID = t
  · rw [hv, hm]
    dsimp only
    refine ⟨?_, ⟨(m.LoadLink k).1, ?_, ?_⟩, fun _ => ?_, fun h => absurd rfl h⟩
    · split <;> rfl
    · split <;> exact mapGet_mapSet_self _ _ _
    · rw [LoadLink_cfg]; exact hc
    · cases he : (m.LoadLink k).2 with
      | none => simp [Agent.setOnline, mapGet_mapSet_self]
      | some e =>
        cases hf : b.cfg.Node.AutoRecreateVxlan <;>
          simp [Agent.setOnline, mapGet_mapSet_self, hf]
  · have hv2 : t ≠ v.ID := fun e => hv e.symm
    cases hg : mapGet b.vxlanManagers v.ID with
    | none =>
      refine ⟨rfl, ⟨m, hm, hc⟩, fun h => absurd h hv, fun _ => ?_⟩
      exact mapGet_mapSet_ne _ _ _ _ hv2
    | some m1 =>
      dsimp only
      refine ⟨?_, ⟨m, ?_, hc⟩, fun h => absurd h hv, fun _ => ?_⟩
      · split <;> rfl
      · split <;> exact (mapGet_mapSet_ne _ _ _ _ hv2).trans hm
      · split <;> exact mapGet_mapSet_ne _ _ _ _ hv2

/-- The loop of `advertiseSelf`, seen from VNI `t`: once a turn for `t` has
run, the online entry of `t` tells whether `LoadLink` succeeded or the
configuration has `autoRecreateVxlan`. -/
theorem foldl_advertiseSelfStep_spec (k : Kernel) (l : List VNIConfig) (b : Agent) (t : Nat)
    (m : Manager) (hm : mapGet b.vxlanManagers t = some m)
    (h : (∃ x ∈ l, x.ID = t) ∨ mapGet b.vniOnline t =
      some ((m.LoadLink k).2.isNone || b.cfg.Node.AutoRecreateVxlan)) :
    mapGet (l.foldl (advertiseSelfStep k) b).vniOnline t =
      some ((m.LoadLink k).2.isNone || b.cfg.Node.AutoRecreateVxlan) := by
  induction l generalizing b m with
  | nil =>
    rcases h with ⟨x, hx, _⟩ | h
    · cases hx
    · exact h
  | cons v rest ih =>
    rw [List.foldl_cons]
    obtain ⟨h1, ⟨m2, hm2, hc2⟩, h3, h4⟩ := advertiseSelfStep_spec k b v t m.cfg m hm rfl
    have he : (m2.LoadLink k).2.isNone = (m.LoadLink k).2.isNone := by
      have := LoadLink_congr m2 m k hc2
      cases h5 : (m2.LoadLink k).2 <;> cases h6 : (m.LoadLink k).2 <;> simp_all
    have := ih (advertiseSelfStep k b v) m2 hm2
    rw [he, h1] at this
    apply this
    by_cases hv : v.ID = t
    · exact Or.inr (h3 hv)
    · rcases h with ⟨x, hx, hxt⟩ | h
      · rcases List.mem_cons.mp hx with rfl | hx
        · exact absurd hxt hv
        · exact Or.inl ⟨x, hx, hxt⟩
      · exact Or.inr ((h4 hv).trans h)

theorem advertiseSelf_vniOnline (iter : (α : Type) → List α → List α) (a : Agent) (w : World) :
    (a.advertiseSelf iter w).1.vniOnline =
      (a.cfg.VNIs.foldl (advertiseSelfStep w.kernel) a).vniOnline := by
  unfold Agent.advertiseSelf
  exact (updateLocalPath_after iter _ w.daemon).2.1

/-- `updateLocalPath` never reads `node.autoRecreateVxlan`. -/
theorem updateLocalPath_withAutoRecreate (iter : (α : Type) → List α → List α) (a : Agent)
    (d : Daemon) (b : Bool) :
    (a.withAutoRecreate b).updateLocalPath iter d =
      ((a.updateLocalPath iter d).1.withAutoRecreate b, (a.updateLocalPath iter d).2) := by
  unfold Agent.updateLocalPath
  have hc : (a.withAutoRecreate b).collectLocalCommunities iter
      = a.collectLocalCommunities iter := rfl
  rw [hc]
  dsimp only [Agent.withAutoRecreate]
  repeat' split
  all_goals rfl

/-- `ensureVNI` never reads `node.autoRecreateVxlan`: run on the agent with the
flag set to `b` it gives the same world, the same answer and the same agent
up to the flag. -/
theorem ensureVNI_withAutoRecreate (iter : (α : Type) → List α → List α) (a : Agent)
    (w : World) (vni : Nat) (b : Bool) :
    (a.withAutoRecreate b).ensureVNI iter w vni =
      ((a.ensureVNI iter w vni).1.withAutoRecreate b, (a.ensureVNI iter w vni).2) := by
  unfold Agent.ensureVNI
  have hm : (a.withAutoRecreate b).vxlanManagers = a.vxlanManagers := rfl
  rw [hm]
  cases hg : mapGet a.vxlanManagers vni with
  | none => rfl
  | some mgr =>
    dsimp only
    rcases hl : mgr.LoadLink w.kernel with ⟨m2, e⟩
    have h1 : ∀ o : Bool, ({ a.withAutoRecreate b with
          vxlanManagers := mapSet a.vxlanManagers vni m2 } : Agent).setOnline vni o
        = (({ a with vxlanManagers := mapSet a.vxlanManagers vni m2 } : Agent).setOnline
            vni o).withAutoRecreate b := fun _ => rfl
    have h2 : (({ a.withAutoRecreate b with
          vxlanManagers := mapSet a.vxlanManagers vni m2 } : Agent).getOnline vni)
        = (({ a with vxlanManagers := mapSet a.vxlanManagers vni m2 } : Agent).getOnline vni) :=
      rfl
    cases e with
    | none =>
      dsimp only
      rw [h2, h1, updateLocalPath_withAutoRecreate]
      split <;> rfl
    | some e =>
      dsimp only
      rw [h2, h1, updateLocalPath_withAutoRecreate]
      split <;> rfl

/-- C13 (online table), evaluated.  The configuration of `exAgent` (static
VNIs 100 on `vxlan100` and 200 on `vxlan200`) with
`node.autoRecreateVxlan: true`, on a host where `vxlan100` exists and
`vxlan200` does not: `LoadLink` of VNI 200 fails with "link not found", yet
after `advertiseSelf` the online table holds true for VNI 200 and the `AddPath`
sent carries the community of VNI 200.  With the flag false, all else equal,
the table holds false for VNI 200 and only the community of VNI 100 is sent.
The sibling probe `ensureVNI(200)`, run on the state `advertiseSelf` left with
the flag true, marks VNI 200 offline and republishes without its community. -/
theorem advertiseSelf_online_depends_on_autoRecreate :
    (∃ mgr, mapGet (exAgent.withAutoRecreate true).vxlanManagers 200 = some mgr ∧
      (mgr.LoadLink exWorldOne.kernel).2 = some Error.linkNotFound) ∧
    ¬ (mapGet ((exAgent.withAutoRecreate true).advertiseSelf exListOrder
          exWorldOne).1.vniOnline 200 = some true ↔
        ∀ mgr, mapGet (exAgent.withAutoRecreate true).vxlanManagers 200 = some mgr →
          (mgr.LoadLink exWorldOne.kernel).2 = none) ∧
    ((exAgent.withAutoRecreate true).advertiseSelf exListOrder exWorldOne).1.vniOnline
      = [(100, true), (200, true)] ∧
    ((exAgent.withAutoRecreate false).advertiseSelf exListOrder exWorldOne).1.vniOnline
      = [(100, true), (200, false)] ∧
    ((exAgent.withAutoRecreate true).advertiseSelf exListOrder exWorldOne).1.localComms
      = [4259840100, 4259840200] ∧
    ((exAgent.withAutoRecreate false).advertiseSelf exListOrder exWorldOne).1.localComms
      = [4259840100] ∧
    ((exAgent.withAutoRecreate true).advertiseSelf exListOrder exWorldOne).2.1.daemon.calls
      = [RPC.AddPath (localCommunityPath ⟨10, 0, 0, 1⟩ [4259840100, 4259840200])] ∧
    ((exAgent.withAutoRecreate false).advertiseSelf exListOrder exWorldOne).2.1.daemon.calls
      = [RPC.AddPath (localCommunityPath ⟨10, 0, 0, 1⟩ [4259840100])] ∧
    New exHost (exAgent.withAutoRecreate true).cfg = .ok (exAgent.withAutoRecreate true) ∧
    (((exAgent.withAutoRecreate true).advertiseSelf exListOrder exWorldOne).1.ensureVNI
        exListOrder ((exAgent.withAutoRecreate true).advertiseSelf exListOrder exWorldOne).2.1
        200).1.vniOnline = [(100, true), (200, false)] ∧
    (((exAgent.withAutoRecreate true).advertiseSelf exListOrder exWorldOne).1.ensureVNI
        exListOrder ((exAgent.withAutoRecreate true).advertiseSelf exListOrder exWorldOne).2.1
        200).2.1.daemon.calls =
      [RPC.AddPath (localCommunityPath ⟨10, 0, 0, 1⟩ [4259840100, 4259840200]),
       RPC.DeletePath (localCommunityPath ⟨10, 0, 0, 1⟩ [4259840100, 4259840200]),
       RPC.AddPath (localCommunityPath ⟨10, 0, 0, 1⟩ [4259840100])] := by
  refine ⟨⟨_, rfl, by rfl⟩, ?_, by rfl, by rfl, by rfl, by rfl, by rfl, by rfl, by rfl,
    by rfl, by rfl⟩
  intro h
  have h1 := h.mp (by rfl) _ rfl
  exact absurd h1 (by decide)

/-- The online table after a probe, as the code has it.  For every agent
state, world and VNI `v` that has a manager `mgr`:
`LoadLink` succeeds exactly when the device of `mgr` exists and is of VXLAN
kind; after `ensureVNI(v)` the online table holds true for `v` if and only if
that `LoadLink` succeeded, and the whole result of `ensureVNI` (online table,
advertised list, RPCs, answer) is the same whatever
`node.autoRecreateVxlan`; after `advertiseSelf`, if `v` is a configured VNI,
the online table holds true for `v` if and only if `LoadLink` succeeded or
`node.autoRecreateVxlan` is true. -/
theorem online_tracks_loadLink_or_autoRecreate (iter : (α : Type) → List α → List α)
    (a : Agent) (w : World) (v : Nat) (mgr : Manager)
    (hm : mapGet a.vxlanManagers v = some mgr) :
    ((mgr.LoadLink w.kernel).2 = none ↔
      ∃ vx, w.kernel.LinkByName mgr.cfg.Device = .ok (.vxlan vx)) ∧
    (mapGet (a.ensureVNI iter w v).1.vniOnline v = some true ↔
      (mgr.LoadLink w.kernel).2 = none) ∧
    (∀ b, (a.withAutoRecreate b).ensureVNI iter w v =
      ((a.ensureVNI iter w v).1.withAutoRecreate b, (a.ensureVNI iter w v).2)) ∧
    (∀ b, ((a.withAutoRecreate b).ensureVNI iter w v).1.vniOnline =
        (a.ensureVNI iter w v).1.vniOnline ∧
      ((a.withAutoRecreate b).ensureVNI iter w v).1.localComms =
        (a.ensureVNI iter w v).1.localComms) ∧
    ((∃ x ∈ a.cfg.VNIs, x.ID = v) →
      (mapGet (a.advertiseSelf iter w).1.vniOnline v = some true ↔
        ((mgr.LoadLink w.kernel).2 = none ∨ a.cfg.Node.AutoRecreateVxlan = true))) := by
  refine ⟨LoadLink_ok_iff mgr w.kernel, ?_, ensureVNI_withAutoRecreate iter a w v, ?_, ?_⟩
  · rw [ensureVNI_vniOnline, hm]
    dsimp only
    cases he : (mgr.LoadLink w.kernel).2 with
    | none =>
      dsimp only
      split
      · next h => simp [h]
      · simp [mapGet_mapSet_self]
    | some e =>
      dsimp only
      split
      · simp [mapGet_mapSet_self]
      · next h => simp [h]
  · intro b
    rw [ensureVNI_withAutoRecreate]
    exact ⟨rfl, rfl⟩
  · intro hx
    rw [advertiseSelf_vniOnline,
      foldl_advertiseSelfStep_spec w.kernel a.cfg.VNIs a v mgr hm (Or.inl hx)]
    cases he : (mgr.LoadLink w.kernel).2 <;> cases hf : a.cfg.Node.AutoRecreateVxlan <;> simp

/-- An instance of the theorem above: VNI 200 of `exAgent` with
`autoRecreateVxlan` set, on the host where `vxlan200` does not exist. -/
theorem online_tracks_loadLink_or_autoRecreate_witness :
    mapGet (exAgent.withAutoRecreate true).vxlanManagers 200 =
      some (NewManager { ID := 200, Community := "65000:200", Device := "vxlan200",
                         UnderlayInterface := "eth0" } 4789 ⟨10, 0, 0, 1⟩) ∧
    mapGet ((exAgent.withAutoRecreate true).ensureVNI exListOrder exWorldOne 200).1.vniOnline 200
      ≠ some true ∧
    mapGet ((exAgent.withAutoRecreate true).advertiseSelf exListOrder exWorldOne).1.vniOnline 200
      = some true :=
  have h := online_tracks_loadLink_or_autoRecreate exListOrder (exAgent.withAutoRecreate true)
    exWorldOne 200
    (NewManager { ID := 200, Community := "65000:200", Device := "vxlan200",
                  UnderlayInterface := "eth0" } 4789 ⟨10, 0, 0, 1⟩) rfl
  ⟨rfl, fun e => absurd (h.2.1.mp e) (by decide),
    (h.2.2.2.2 ⟨_, List.mem_cons_of_mem _ (List.mem_cons_self _ _), rfl⟩).mpr (Or.inr rfl)⟩

end EvpnAgent
